import Mathlib

/-! server-monitor: parsing, threshold evaluation and failure tracking.

A shallow embedding of `monitor/monitor.go`.

* A payload is a `String`, read as its sequence of code points; the Go
  library routines the monitor calls (`strings.TrimSpace`, `strings.Split`,
  `strconv.ParseUint`, `strconv.ParseFloat`, `%.2f` and `%d` of `fmt`) are
  modelled on code points, which agrees with their byte-level behaviour on
  valid UTF-8 because every character they give a meaning to is ASCII.
* `float64` is modelled exactly: a value is NaN, an infinity, or a signed
  dyadic number `m * 2^e` in IEEE-754 binary64 form, and every arithmetic
  result is rounded to nearest, ties to even.
* `uint64` values are `Nat`s below `2^64`, with subtraction wrapping modulo
  `2^64`; `int` is a two's-complement integer of `intSize` bits, 32 or 64
  according to the target.
* Standard output is the list of lines written.
-/

namespace ServerMonitor

deriving instance DecidableEq for Except

/-! ## Text -/

/-- Go `unicode.IsSpace`: the Latin-1 spaces `\t \n \v \f \r`, space, U+0085
and U+00A0, and beyond Latin-1 the code points with the White_Space
property. -/
def isSpace (c : Char) : Bool :=
  let n := c.toNat
  n == 0x09 || n == 0x0A || n == 0x0B || n == 0x0C || n == 0x0D || n == 0x20
    || n == 0x85 || n == 0xA0 || n == 0x1680 || (0x2000 ≤ n && n ≤ 0x200A)
    || n == 0x2028 || n == 0x2029 || n == 0x202F || n == 0x205F || n == 0x3000

/-- Go `strings.TrimSpace`, on the code points of the text: all leading and
trailing white space is removed. -/
def strings.TrimSpace (s : List Char) : List Char :=
  ((s.dropWhile isSpace).reverse.dropWhile isSpace).reverse

/-- Go `strings.Split(s, ",")`: the pieces of `s` between consecutive commas;
a text with `k` commas has `k + 1` pieces, the empty text one (empty) piece. -/
def strings.Split : List Char → List (List Char)
  | [] => [[]]
  | c :: cs =>
    if c = ',' then [] :: strings.Split cs
    else
      match strings.Split cs with
      | [] => [[c]]
      | p :: ps => (c :: p) :: ps

/-- Go `strconv`'s `lower`: the byte with bit `0x20` set, which maps an ASCII
capital letter to its small letter. -/
def strconv.lower (c : Char) : Nat := c.toNat ||| 0x20

/-- The test `'0' <= c && c <= '9'`. -/
def isDigit (c : Char) : Bool := 48 ≤ c.toNat && c.toNat ≤ 57

/-- The value `c - '0'` of a digit. -/
def digitVal (c : Char) : Nat := c.toNat - 48

/-! ## strconv errors -/

/-- The two errors of `strconv`: `ErrSyntax` ("invalid syntax") and
`ErrRange` ("value out of range"). -/
inductive strconv.ErrKind where
  | invalidSyn
  | outOfRange
  deriving DecidableEq, Repr

/-- Go `strconv.NumError`: the failing function, its input and the error. -/
structure strconv.NumError where
  Func : String
  Num : String
  Err : strconv.ErrKind
  deriving DecidableEq, Repr

/-- The text of an `ErrKind`. -/
def strconv.ErrKind.Error : strconv.ErrKind → String
  | .invalidSyn => "invalid syntax"
  | .outOfRange => "value out of range"

/-- Go `(*NumError).Error`:
`"strconv." + e.Func + ": parsing " + Quote(e.Num) + ": " + e.Err.Error()`.
`quote` stands for `strconv.Quote`. -/
def strconv.NumError.Error (quote : String → String) (e : strconv.NumError) : String :=
  "strconv." ++ e.Func ++ ": parsing " ++ quote e.Num ++ ": " ++ e.Err.Error

/-! ## strconv.ParseUint -/

/-- The constant `maxUint64`. -/
def maxUint64 : Nat := 2 ^ 64 - 1

/-- The loop of `strconv.ParseUint(s, 10, 64)` over the remaining characters,
`n` being the value read so far (a `uint64`). `cutoff` is `maxUint64/10 + 1`
and `maxVal` is `1<<64 - 1`; the sum `n + d` wraps modulo `2^64`. A letter
has digit value at least 10 and is a syntax error like any other non-digit. -/
def strconv.parseUintLoop : List Char → Nat → Except strconv.ErrKind Nat
  | [], n => .ok n
  | c :: cs, n =>
    if isDigit c then
      if n ≥ maxUint64 / 10 + 1 then .error .outOfRange
      else
        let n10 := n * 10
        let n1 := (n10 + digitVal c) % 2 ^ 64
        if n1 < n10 ∨ n1 > maxUint64 then .error .outOfRange
        else strconv.parseUintLoop cs n1
    else .error .invalidSyn

/-- Go `strconv.ParseUint(s, 10, 64)`. -/
def strconv.ParseUint (s : String) : Except strconv.NumError Nat :=
  if s.data = [] then .error ⟨"ParseUint", s, .invalidSyn⟩
  else
    match strconv.parseUintLoop s.data 0 with
    | .ok n => .ok n
    | .error k => .error ⟨"ParseUint", s, k⟩

/-! ## float64 -/

/-- An IEEE-754 binary64 value: NaN, an infinity, or the finite number
`(-1)^neg * m * 2^e`. The values built by `F64.round` are in IEEE form:
`2^52 ≤ m < 2^53` and `-1074 ≤ e ≤ 971` (normal), or `m < 2^52` and
`e = -1074` (subnormal, and zero as `m = 0`). -/
inductive F64 where
  | nan
  | inf (neg : Bool)
  | fin (neg : Bool) (m : Nat) (e : Int)
  deriving DecidableEq, Repr

/-- The integer nearest to `n / d`, a tie going to the even one. -/
def roundHalfEven (n d : Nat) : Nat :=
  let q := n / d
  let r := n % d
  if 2 * r < d then q
  else if 2 * r > d then q + 1
  else if q % 2 = 0 then q else q + 1

/-- Halving `n` until it is below 2, at most `fuel` times, counting the
halvings. -/
def log2Aux : Nat → Nat → Nat
  | 0, _ => 0
  | fuel + 1, n => if n < 2 then 0 else log2Aux fuel (n / 2) + 1

/-- The position of the leading bit of `n`: `2^(bitLog2 n) ≤ n < 2^(bitLog2 n + 1)`
for positive `n`. -/
def bitLog2 (n : Nat) : Nat := log2Aux n n

/-- The integer `k` with `2^k ≤ n / d < 2^(k+1)`, for positive `n` and `d`. -/
def floorLog2 (n d : Nat) : Int :=
  let k0 : Int := (bitLog2 n : Int) - (bitLog2 d : Int)
  let below : Bool :=
    if 0 ≤ k0 then decide (d * 2 ^ k0.toNat ≤ n) else decide (d ≤ n * 2 ^ (-k0).toNat)
  if below then k0 else k0 - 1

/-- The exponent of the unit in the last place of the binary64 format at
`n / d`: 52 below the exponent of `n / d`, and `-1074` throughout the
subnormal range (gradual underflow). -/
def ulpExp (n d : Nat) : Int := max (floorLog2 n d) (-1022) - 52

/-- The number `n / d` in units of the last place, rounded to the nearest
integer, ties to even: at most `2^53`. -/
def roundMant (n d : Nat) : Nat :=
  if 0 ≤ ulpExp n d then roundHalfEven n (d * 2 ^ (ulpExp n d).toNat)
  else roundHalfEven (n * 2 ^ (-ulpExp n d).toNat) d

/-- The binary64 value nearest to `(-1)^neg * n / d` (`d > 0`), ties to even:
`roundMant n d * 2^ulpExp n d`, brought to 53 bits when the rounding carried
into `2^53`, and an infinity past the largest finite value. -/
def F64.round (neg : Bool) (n d : Nat) : F64 :=
  if n = 0 then .fin neg 0 (-1074)
  else if roundMant n d = 2 ^ 53 then
    (if ulpExp n d + 1 > 971 then .inf neg else .fin neg (2 ^ 52) (ulpExp n d + 1))
  else
    (if ulpExp n d > 971 then .inf neg else .fin neg (roundMant n d) (ulpExp n d))

/-- The conversion `float64(u)` of an unsigned integer. -/
def F64.ofNat (u : Nat) : F64 := F64.round false u 1

/-- The float64 quotient `x / y`. -/
def F64.div : F64 → F64 → F64
  | .nan, _ => .nan
  | _, .nan => .nan
  | .inf _, .inf _ => .nan
  | .inf a, .fin b _ _ => .inf (a != b)
  | .fin a _ _, .inf b => .fin (a != b) 0 (-1074)
  | .fin a m1 e1, .fin b m2 e2 =>
    if m2 = 0 then (if m1 = 0 then .nan else .inf (a != b))
    else F64.round (a != b) (m1 * 2 ^ (e1 - e2).toNat) (m2 * 2 ^ (e2 - e1).toNat)

/-- The float64 product `x * y`. -/
def F64.mul : F64 → F64 → F64
  | .nan, _ => .nan
  | _, .nan => .nan
  | .inf a, .inf b => .inf (a != b)
  | .inf a, .fin b m _ => if m = 0 then .nan else .inf (a != b)
  | .fin a m _, .inf b => if m = 0 then .nan else .inf (a != b)
  | .fin a m1 e1, .fin b m2 e2 =>
    F64.round (a != b) (m1 * m2 * 2 ^ (e1 + e2).toNat) (2 ^ (-(e1 + e2)).toNat)

/-- The signed integer `(-1)^neg * n`. -/
def signedInt (neg : Bool) (n : Nat) : Int := if neg then -(n : Int) else (n : Int)

/-- The float64 comparison `x < y`: false when either side is NaN, and the two
zeros compare equal. -/
def F64.lt : F64 → F64 → Bool
  | .nan, _ => false
  | _, .nan => false
  | .inf a, .inf b => a && !b
  | .inf a, .fin _ _ _ => a
  | .fin _ _ _, .inf b => !b
  | .fin a m1 e1, .fin b m2 e2 =>
    decide (signedInt a (m1 * 2 ^ (e1 - min e1 e2).toNat)
      < signedInt b (m2 * 2 ^ (e2 - min e1 e2).toNat))

/-- The float64 comparison `x > y`. -/
def F64.gt (x y : F64) : Bool := F64.lt y x

/-- The two-digit text of a number below 100. -/
def twoDigits (n : Nat) : String :=
  String.mk [Char.ofNat (48 + n / 10 % 10), Char.ofNat (48 + n % 10)]

/-- The decimal text of `n / d` (`d > 0`) rounded to two decimals, ties to
even: the integer part, a point, and two digits. -/
def fixed2 (n d : Nat) : String :=
  Nat.repr (roundHalfEven (n * 100) d / 100) ++ "." ++ twoDigits (roundHalfEven (n * 100) d % 100)

/-- The text `%.2f` of `fmt` gives a float64: the exact value rounded to two
decimals, ties to even, with a minus sign for a negative value; `NaN` and
`+Inf`, `-Inf` for the special values. -/
def fmtFixed2 : F64 → String
  | .nan => "NaN"
  | .inf neg => if neg then "-Inf" else "+Inf"
  | .fin neg m e => (if neg then "-" else "") ++ fixed2 (m * 2 ^ e.toNat) (2 ^ (-e).toNat)

/-! ## strconv.ParseFloat -/

/-- The number of leading characters of `s` that match `pat` (given in small
letters) up to ASCII case: `commonPrefixLenIgnoreCase`. -/
def strconv.commonLenIgnoreCase : List Char → List Char → Nat
  | c :: cs, p :: ps =>
    let c1 : Nat := if 65 ≤ c.toNat ∧ c.toNat ≤ 90 then c.toNat + 32 else c.toNat
    if c1 = p.toNat then strconv.commonLenIgnoreCase cs ps + 1 else 0
  | _, _ => 0

/-- The `inf` case of `special`, on the text after an optional sign: the
number of characters read, 3 for `inf` and 8 for `infinity`. -/
def strconv.specialInf (s : List Char) : Option Nat :=
  let n := strconv.commonLenIgnoreCase s "infinity".data
  let n1 := if 3 < n ∧ n < 8 then 3 else n
  if n1 = 3 ∨ n1 = 8 then some n1 else none

/-- Go `special`: reads a leading infinity (optionally signed) or NaN
(unsigned), returning the value and the number of characters read. -/
def strconv.special (s : List Char) : Option (F64 × Nat) :=
  match s with
  | [] => none
  | c :: cs =>
    if c = '+' ∨ c = '-' then
      (strconv.specialInf cs).map (fun n => (F64.inf (decide (c = '-')), n + 1))
    else if c = 'i' ∨ c = 'I' then
      (strconv.specialInf s).map (fun n => (F64.inf false, n))
    else if c = 'n' ∨ c = 'N' then
      if strconv.commonLenIgnoreCase s "nan".data = 3 then some (F64.nan, 3) else none
    else none

/-- The loop of `underscoreOK` over the number proper; `saw` is the class of
the previous character: `'0'` a digit (or the base prefix), `'_'` an
underscore, `'!'` anything else, `'^'` the start. -/
def strconv.underscoreLoop (hex : Bool) : List Char → Char → Bool
  | [], saw => saw != '_'
  | c :: cs, saw =>
    if isDigit c || (hex && decide (97 ≤ strconv.lower c ∧ strconv.lower c ≤ 102)) then
      strconv.underscoreLoop hex cs '0'
    else if c = '_' then
      if saw != '0' then false else strconv.underscoreLoop hex cs '_'
    else if saw = '_' then false
    else strconv.underscoreLoop hex cs '!'

/-- Go `underscoreOK`: underscores may only separate digits, the base prefix
counting as a digit. -/
def strconv.underscoreOK (s : List Char) : Bool :=
  let s1 := match s with
    | c :: cs => if c = '-' ∨ c = '+' then cs else s
    | [] => s
  match s1 with
  | c0 :: c1 :: rest =>
    if c0 = '0' ∧ (strconv.lower c1 = 98 ∨ strconv.lower c1 = 111 ∨ strconv.lower c1 = 120) then
      strconv.underscoreLoop (decide (strconv.lower c1 = 120)) rest '0'
    else strconv.underscoreLoop false s1 '^'
  | _ => strconv.underscoreLoop false s1 '^'

/-- The variables of the mantissa loop of `readFloat`. The mantissa keeps
every digit: Go keeps the first 19 (16 in base 16) and a flag for a dropped
non-zero digit, from which its conversions round as from the full digits. -/
structure strconv.MantState where
  sawdot : Bool
  sawdigits : Bool
  nd : Nat
  dp : Int
  mantissa : Nat
  underscores : Bool

/-- The mantissa loop of `readFloat` in the given base (10 or 16): reads
digits, underscores and at most one point, and returns the state with the
unread rest of the text. Leading zeros are dropped, moving the point left. -/
def strconv.readMantissa (base : Nat) : List Char → strconv.MantState →
    strconv.MantState × List Char
  | [], st => (st, [])
  | c :: cs, st =>
    if c = '_' then strconv.readMantissa base cs { st with underscores := true }
    else if c = '.' then
      if st.sawdot then (st, c :: cs)
      else strconv.readMantissa base cs { st with sawdot := true, dp := st.nd }
    else if isDigit c then
      if c = '0' ∧ st.nd = 0 then
        strconv.readMantissa base cs { st with sawdigits := true, dp := st.dp - 1 }
      else
        strconv.readMantissa base cs { st with
          sawdigits := true, nd := st.nd + 1, mantissa := st.mantissa * base + digitVal c }
    else if base = 16 ∧ 97 ≤ strconv.lower c ∧ strconv.lower c ≤ 102 then
      strconv.readMantissa base cs { st with
        sawdigits := true, nd := st.nd + 1,
        mantissa := st.mantissa * 16 + (strconv.lower c - 97 + 10) }
    else (st, c :: cs)

/-- The exponent digits loop of `readFloat`: digits and underscores are read,
and the exponent stops growing once it has reached 10000. Returns the
exponent, whether an underscore was seen, and the unread rest. -/
def strconv.readExpDigits : List Char → Nat → Bool → Nat × Bool × List Char
  | [], e, u => (e, u, [])
  | c :: cs, e, u =>
    if c = '_' then strconv.readExpDigits cs e true
    else if isDigit c then
      strconv.readExpDigits cs (if e < 10000 then e * 10 + digitVal c else e) u
    else (e, u, c :: cs)

/-- The result of `readFloat`: the sign, whether the number is hexadecimal,
the mantissa and the exponent (of 10, or of 2 when hexadecimal), and the
unread rest of the text. -/
structure strconv.FloatParts where
  neg : Bool
  hex : Bool
  mantissa : Nat
  exp : Int
  rest : List Char

/-- Go `readFloat`: an optional sign, an optional `0x` prefix, the mantissa,
and an exponent (`e` or, mandatory for hexadecimal, `p`) which needs at least
one digit after its optional sign; `none` when the text is not a number. -/
def strconv.readFloat (s : List Char) : Option strconv.FloatParts :=
  match s with
  | [] => none
  | c0 :: t0 =>
    let neg : Bool := decide (c0 = '-')
    let s1 : List Char := if c0 = '+' ∨ c0 = '-' then t0 else s
    let hex : Bool :=
      match s1 with
      | a :: b :: _ :: _ => decide (a = '0' ∧ strconv.lower b = 120)
      | _ => false
    let s2 : List Char := if hex then s1.drop 2 else s1
    let base : Nat := if hex then 16 else 10
    let expChar : Nat := if hex then 112 else 101
    let (st, s3) := strconv.readMantissa base s2 ⟨false, false, 0, 0, 0, false⟩
    if ¬ st.sawdigits then none
    else
      let dp0 : Int := if st.sawdot then st.dp else st.nd
      let dp1 : Int := if hex then dp0 * 4 else dp0
      let ndMant : Int := if hex then (st.nd : Int) * 4 else st.nd
      let finish (dp : Int) (underscores : Bool) (rest : List Char) :
          Option strconv.FloatParts :=
        if underscores ∧ ¬ strconv.underscoreOK (s.take (s.length - rest.length)) then none
        else some ⟨neg, hex, st.mantissa, if st.mantissa ≠ 0 then dp - ndMant else 0, rest⟩
      match s3 with
      | c :: s4 =>
        if strconv.lower c = expChar then
          match s4 with
          | [] => none
          | d :: s5 =>
            let esign : Int := if d = '-' then -1 else 1
            let s6 : List Char := if d = '+' ∨ d = '-' then s5 else s4
            match s6 with
            | [] => none
            | f :: _ =>
              if ¬ isDigit f then none
              else
                let (e, u, rest) := strconv.readExpDigits s6 0 st.underscores
                finish (dp1 + (e : Int) * esign) u rest
        else if hex then none
        else finish dp1 st.underscores s3
      | [] => if hex then none else finish dp1 st.underscores s3

/-- The float64 nearest to the number read by `readFloat`:
`mantissa * 10^exp`, or `mantissa * 2^exp` when hexadecimal. -/
def strconv.FloatParts.value (p : strconv.FloatParts) : F64 :=
  let b : Nat := if p.hex then 2 else 10
  F64.round p.neg (p.mantissa * b ^ p.exp.toNat) (b ^ (-p.exp).toNat)

/-- Go `strconv.ParseFloat(s, 64)`: the whole text must be an infinity, a
NaN, or a decimal or hexadecimal floating-point number; the result is the
nearest float64, and a number that rounds to an infinity is out of range. -/
def strconv.ParseFloat (s : String) : Except strconv.NumError F64 :=
  match strconv.special s.data with
  | some (v, n) => if n = s.data.length then .ok v else .error ⟨"ParseFloat", s, .invalidSyn⟩
  | none =>
    match strconv.readFloat s.data with
    | none => .error ⟨"ParseFloat", s, .invalidSyn⟩
    | some p =>
      if p.rest ≠ [] then .error ⟨"ParseFloat", s, .invalidSyn⟩
      else
        match p.value with
        | .inf _ => .error ⟨"ParseFloat", s, .outOfRange⟩
        | v => .ok v

/-! ## The monitor -/

/-- The record `ServerStats`; the six integer fields are `uint64`. -/
structure ServerStats where
  LoadAverage : F64
  TotalMemory : Nat
  UsedMemory : Nat
  TotalDisk : Nat
  UsedDisk : Nat
  NetworkBandwidth : Nat
  NetworkUsage : Nat
  deriving DecidableEq, Repr

/-- The errors `parseStats` builds with `fmt.Errorf`: the field-count error,
carrying `len(parts)`, and a field error, carrying the text before `": %v"`
and the `strconv` error it wraps. -/
inductive ParseError where
  | format (got : Nat)
  | field (what : String) (cause : strconv.NumError)
  deriving DecidableEq, Repr

/-- The message of a `ParseError`; `%d` prints the count in decimal and `%v`
the message of the wrapped error. `quote` stands for `strconv.Quote`. -/
def ParseError.Error (quote : String → String) : ParseError → String
  | .format got => "invalid data format: expected 7 values, got " ++ Nat.repr got
  | .field what cause => what ++ ": " ++ cause.Error quote

/-- The pieces `strings.Split(strings.TrimSpace(data), ",")`. -/
def splitFields (data : String) : List String :=
  (strings.Split (strings.TrimSpace data.data)).map String.mk

/-- The method `parseStats` (its receiver is not used). -/
def parseStats (data : String) : Except ParseError ServerStats :=
  let parts := splitFields data
  if parts.length ≠ 7 then .error (.format parts.length)
  else
    match strconv.ParseFloat (parts.getD 0 "") with
    | .error err => .error (.field "invalid load average" err)
    | .ok loadAverage =>
    match strconv.ParseUint (parts.getD 1 "") with
    | .error err => .error (.field "invalid total memory" err)
    | .ok totalMemory =>
    match strconv.ParseUint (parts.getD 2 "") with
    | .error err => .error (.field "invalid used memory" err)
    | .ok usedMemory =>
    match strconv.ParseUint (parts.getD 3 "") with
    | .error err => .error (.field "invalid total disk" err)
    | .ok totalDisk =>
    match strconv.ParseUint (parts.getD 4 "") with
    | .error err => .error (.field "invalid used disk" err)
    | .ok usedDisk =>
    match strconv.ParseUint (parts.getD 5 "") with
    | .error err => .error (.field "invalid network bandwidth" err)
    | .ok networkBandwidth =>
    match strconv.ParseUint (parts.getD 6 "") with
    | .error err => .error (.field "invalid network usage" err)
    | .ok networkUsage =>
      .ok ⟨loadAverage, totalMemory, usedMemory, totalDisk, usedDisk,
        networkBandwidth, networkUsage⟩

/-- The `uint64` difference `a - b`, which wraps modulo `2^64`. -/
def subUint64 (a b : Nat) : Nat := (a + 2 ^ 64 - b) % 2 ^ 64

/-- The value `memoryUsage` (and `diskUsage`, `networkUsage`):
`float64(used) / float64(total) * 100`. -/
def usagePercent (used total : Nat) : F64 :=
  F64.mul (F64.div (F64.ofNat used) (F64.ofNat total)) (F64.ofNat 100)

/-- The value `freeSpaceMB`: `float64(TotalDisk-UsedDisk) / 1024 / 1024`. -/
def freeSpaceMB (stats : ServerStats) : F64 :=
  F64.div (F64.div (F64.ofNat (subUint64 stats.TotalDisk stats.UsedDisk)) (F64.ofNat 1024))
    (F64.ofNat 1024)

/-- The value `availableBandwidthMbit`:
`float64(NetworkBandwidth-NetworkUsage) * 8 / 1000000`. -/
def availableBandwidthMbit (stats : ServerStats) : F64 :=
  F64.div (F64.mul (F64.ofNat (subUint64 stats.NetworkBandwidth stats.NetworkUsage))
    (F64.ofNat 8)) (F64.ofNat 1000000)

/-- The method `checkThresholds` (its receiver is not used): the lines it
prints, in the order printed. -/
def checkThresholds (stats : ServerStats) : List String :=
  let out : List String := []
  let out :=
    if F64.gt stats.LoadAverage (F64.ofNat 30) then
      out ++ ["Load Average is too high: " ++ fmtFixed2 stats.LoadAverage]
    else out
  let out :=
    if stats.TotalMemory > 0 then
      let memoryUsage := usagePercent stats.UsedMemory stats.TotalMemory
      if F64.gt memoryUsage (F64.ofNat 80) then
        out ++ ["Memory usage too high: " ++ fmtFixed2 memoryUsage ++ "%"]
      else out
    else out
  let out :=
    if stats.TotalDisk > 0 then
      let diskUsage := usagePercent stats.UsedDisk stats.TotalDisk
      if F64.gt diskUsage (F64.ofNat 90) then
        out ++ ["Free disk space is too low: " ++ fmtFixed2 (freeSpaceMB stats) ++ " Mb left"]
      else out
    else out
  let out :=
    if stats.NetworkBandwidth > 0 then
      let networkUsage := usagePercent stats.NetworkUsage stats.NetworkBandwidth
      if F64.gt networkUsage (F64.ofNat 90) then
        out ++ ["Network bandwidth usage high: " ++ fmtFixed2 (availableBandwidthMbit stats)
          ++ " Mbit/s available"]
      else out
    else out
  out

/-- The state of a `Monitor`: the URL and the error count, a Go `int`. The HTTP
client carries no state of the monitor. -/
structure Monitor where
  serverURL : String
  errorCount : Int
  deriving DecidableEq, Repr

/-- The function `NewMonitor`: the error count starts at zero. -/
def NewMonitor (serverURL : String) : Monitor := ⟨serverURL, 0⟩

/-- The result of `int` arithmetic, in two's complement: `x` reduced into
`[-2^(intSize-1), 2^(intSize-1))`, where `intSize` is the width of the Go type
`int` on the target, 32 or 64 bits. -/
def wrapInt (intSize : Nat) (x : Int) : Int :=
  (x + 2 ^ (intSize - 1)) % 2 ^ intSize - 2 ^ (intSize - 1)

/-- What `m.client.Get(m.serverURL)` and `io.ReadAll(resp.Body)` give: a
failed request, or a response with its status and the outcome of reading its
body. -/
inductive HTTPReply where
  | failed (err : String)
  | response (StatusCode : Nat) (Status : String) (body : Except String String)
  deriving DecidableEq, Repr

/-- The errors `fetchStats` returns. -/
inductive FetchError where
  | fetch (err : String)
  | status (Status : String)
  | read (err : String)
  | parse (err : ParseError)
  deriving DecidableEq, Repr

/-- The method `fetchStats`, given the reply of the server. -/
def fetchStats (reply : HTTPReply) : Except FetchError ServerStats :=
  match reply with
  | .failed err => .error (.fetch err)
  | .response StatusCode Status body =>
    if StatusCode ≠ 200 then .error (.status Status)
    else
      match body with
      | .error err => .error (.read err)
      | .ok text =>
        match parseStats text with
        | .error err => .error (.parse err)
        | .ok stats => .ok stats

/-- The method `handleError` on a target whose `int` has `intSize` bits: the
new state and the lines printed. -/
def handleError (intSize : Nat) (m : Monitor) (_err : FetchError) : Monitor × List String :=
  let m1 : Monitor := { m with errorCount := wrapInt intSize (m.errorCount + 1) }
  if m1.errorCount ≥ 3 then (m1, ["Unable to fetch server statistic"]) else (m1, [])

/-- The method `CheckStats` on a target whose `int` has `intSize` bits, given
the reply of the server: the new state and the lines printed. -/
def CheckStats (intSize : Nat) (m : Monitor) (reply : HTTPReply) : Monitor × List String :=
  match fetchStats reply with
  | .error err => handleError intSize m err
  | .ok stats => ({ m with errorCount := 0 }, checkThresholds stats)

/-! ## Names for the statements -/

/-- The text a field error starts with, by position of the field. -/
def fieldLabel : Nat → String
  | 0 => "invalid load average"
  | 1 => "invalid total memory"
  | 2 => "invalid used memory"
  | 3 => "invalid total disk"
  | 4 => "invalid used disk"
  | 5 => "invalid network bandwidth"
  | _ => "invalid network usage"

/-- Whether the field at position `i` parses as its type: `ParseFloat` for
position 0 and `ParseUint` for the others. -/
def fieldParses (i : Nat) (f : String) : Bool :=
  if i = 0 then (strconv.ParseFloat f).toBool else (strconv.ParseUint f).toBool

/-- The line of the load rule. -/
def loadAlert (stats : ServerStats) : String :=
  "Load Average is too high: " ++ fmtFixed2 stats.LoadAverage

/-- The line of the memory rule. -/
def memoryAlert (stats : ServerStats) : String :=
  "Memory usage too high: " ++ fmtFixed2 (usagePercent stats.UsedMemory stats.TotalMemory) ++ "%"

/-- The line of the disk rule. -/
def diskAlert (stats : ServerStats) : String :=
  "Free disk space is too low: " ++ fmtFixed2 (freeSpaceMB stats) ++ " Mb left"

/-- The line of the network rule. -/
def networkAlert (stats : ServerStats) : String :=
  "Network bandwidth usage high: " ++ fmtFixed2 (availableBandwidthMbit stats)
    ++ " Mbit/s available"

/-- The condition under which the load rule prints. -/
def loadRule (stats : ServerStats) : Bool := F64.gt stats.LoadAverage (F64.ofNat 30)

/-- The condition under which the memory rule prints. -/
def memoryRule (stats : ServerStats) : Bool :=
  decide (stats.TotalMemory > 0) &&
    F64.gt (usagePercent stats.UsedMemory stats.TotalMemory) (F64.ofNat 80)

/-- The condition under which the disk rule prints. -/
def diskRule (stats : ServerStats) : Bool :=
  decide (stats.TotalDisk > 0) &&
    F64.gt (usagePercent stats.UsedDisk stats.TotalDisk) (F64.ofNat 90)

/-- The condition under which the network rule prints. -/
def networkRule (stats : ServerStats) : Bool :=
  decide (stats.NetworkBandwidth > 0) &&
    F64.gt (usagePercent stats.NetworkUsage stats.NetworkBandwidth) (F64.ofNat 90)

/-- The first character of a text. -/
def firstChar (s : String) : Option Char := s.data.head?

/-- Consecutive calls of `handleError`, one for each error of the list: the
final state and, call by call, the lines printed. -/
def handleErrors (intSize : Nat) : Monitor → List FetchError → Monitor × List (List String)
  | m, [] => (m, [])
  | m, e :: es =>
    ((handleErrors intSize (handleError intSize m e).1 es).1,
      (handleError intSize m e).2 :: (handleErrors intSize (handleError intSize m e).1 es).2)

/-- Whether a cycle with this reply fails: `fetchStats` returns an error
(the request failed, the status is not 200, the body could not be read, or
the payload does not parse). -/
def cycleFails (reply : HTTPReply) : Bool := !(fetchStats reply).toBool

/-- Consecutive calls of `CheckStats`, one for each reply of the list: the
final state and, cycle by cycle, the lines printed. -/
def runCycles (intSize : Nat) : Monitor → List HTTPReply → Monitor × List (List String)
  | m, [] => (m, [])
  | m, r :: rs =>
    ((runCycles intSize (CheckStats intSize m r).1 rs).1,
      (CheckStats intSize m r).2 :: (runCycles intSize (CheckStats intSize m r).1 rs).2)

/-- The number of consecutive failed cycles at the end of a sequence of
cycles: those since the most recent successful cycle, or since the start. -/
def failStreak (replies : List HTTPReply) : Nat :=
  (replies.reverse.takeWhile cycleFails).length

/-- The sign of a float64 that is not NaN: `true` for a negative number,
`-0` and `-Inf`. -/
def F64.signBit : F64 → Bool
  | .nan => false
  | .inf neg => neg
  | .fin neg _ _ => neg

/-- The number a text of decimal digits denotes. -/
def decimalValue (cs : List Char) : Nat := cs.foldl (fun n c => n * 10 + digitVal c) 0

/-- A non-empty text of ASCII decimal digits whose value is at most
`2^64 - 1`. -/
def isUintText (s : String) : Prop :=
  s.data ≠ [] ∧ (∀ c ∈ s.data, isDigit c = true) ∧ decimalValue s.data ≤ 2 ^ 64 - 1

instance (s : String) : Decidable (isUintText s) := by
  unfold isUintText
  infer_instance

/-- The rational value of a finite float64 (and 0 for NaN and the
infinities). -/
def F64.toRat : F64 → ℚ
  | .fin neg m e => (if neg then -1 else 1) * (m : ℚ) * (2 : ℚ) ^ e
  | _ => 0

/-- The value of `F64.round false n d` before the overflow check. -/
def roundValue (n d : Nat) : ℚ := (roundMant n d : ℚ) * (2 : ℚ) ^ ulpExp n d

/-- Rounding to binary64 as a function of a non-negative rational. -/
def roundQ (x : ℚ) : ℚ := roundValue x.num.toNat x.den

/-- The float `f` is finite, not negative, and has the value `v`. -/
def F64.HasValue (f : F64) (v : ℚ) : Prop :=
  ∃ m e, f = .fin false m e ∧ (m : ℚ) * (2 : ℚ) ^ e = v

/-- The integer `M` is `y` rounded to nearest, ties to even. -/
def IsRoundHalfEven (y : ℚ) (M : Nat) : Prop :=
  (M : ℚ) - 1 / 2 ≤ y ∧ y ≤ (M : ℚ) + 1 / 2 ∧
  (y = (M : ℚ) + 1 / 2 → M % 2 = 0) ∧ (y = (M : ℚ) - 1 / 2 → M % 2 = 0)

/-! ## Splitting and the field count -/

theorem Split_length (s : List Char) : (strings.Split s).length = s.count ',' + 1 := by
  induction s with
  | nil => rfl
  | cons c cs ih =>
    by_cases h : c = ','
    · subst h
      simp [strings.Split, ih]
    · have hne : strings.Split cs ≠ [] := by
        intro h0
        rw [h0] at ih
        simp at ih
      obtain ⟨p, ps, hps⟩ := List.exists_cons_of_ne_nil hne
      have hc : (c == ',') = false := by simpa using h
      simp only [strings.Split, h, if_false, hps, List.length_cons]
      rw [hps] at ih
      simp only [List.length_cons] at ih
      rw [List.count_cons, hc]
      simpa using ih

theorem splitFields_length (data : String) :
    (splitFields data).length = (strings.TrimSpace data.data).count ',' + 1 := by
  simp [splitFields, Split_length]

theorem length_seven {α : Type} (l : List α) (h : l.length = 7) :
    ∃ a b c d e f g, l = [a, b, c, d, e, f, g] := by
  match l, h with
  | [a, b, c, d, e, f, g], _ => exact ⟨a, b, c, d, e, f, g, rfl⟩

/-! ## parseStats -/

theorem parseStats_of_fields (data : String) (p0 p1 p2 p3 p4 p5 p6 : String)
    (h : splitFields data = [p0, p1, p2, p3, p4, p5, p6]) :
    parseStats data =
      (match strconv.ParseFloat p0 with
      | .error err => .error (.field "invalid load average" err)
      | .ok loadAverage =>
      match strconv.ParseUint p1 with
      | .error err => .error (.field "invalid total memory" err)
      | .ok totalMemory =>
      match strconv.ParseUint p2 with
      | .error err => .error (.field "invalid used memory" err)
      | .ok usedMemory =>
      match strconv.ParseUint p3 with
      | .error err => .error (.field "invalid total disk" err)
      | .ok totalDisk =>
      match strconv.ParseUint p4 with
      | .error err => .error (.field "invalid used disk" err)
      | .ok usedDisk =>
      match strconv.ParseUint p5 with
      | .error err => .error (.field "invalid network bandwidth" err)
      | .ok networkBandwidth =>
      match strconv.ParseUint p6 with
      | .error err => .error (.field "invalid network usage" err)
      | .ok networkUsage =>
        .ok ⟨loadAverage, totalMemory, usedMemory, totalDisk, usedDisk,
          networkBandwidth, networkUsage⟩) := by
  unfold parseStats
  simp only [h]
  rfl

theorem parseStats_ok_length (data : String) (st : ServerStats)
    (h : parseStats data = .ok st) : (splitFields data).length = 7 := by
  by_contra hne
  unfold parseStats at h
  simp only [] at h
  rw [if_pos hne] at h
  cases h

/-- C1. `parseStats` succeeds with the record `st` exactly when the trimmed
text splits on `,` into exactly seven fields, `strconv.ParseFloat` accepts the
first and `strconv.ParseUint` (base 10, 64 bits) each of the other six, and
the fields of `st` are the parsed values in the order LoadAverage,
TotalMemory, UsedMemory, TotalDisk, UsedDisk, NetworkBandwidth, NetworkUsage.
The payload `1.5,100,50,200,100,1000,500` yields `{1.5, 100, 50, 200, 100,
1000, 500}`, where 1.5 is `6755399441055744 * 2^-52`. -/
theorem parseStats_ok_iff :
    (∀ (data : String) (st : ServerStats),
      parseStats data = .ok st ↔
        ∃ p0 p1 p2 p3 p4 p5 p6 : String,
          splitFields data = [p0, p1, p2, p3, p4, p5, p6] ∧
          strconv.ParseFloat p0 = .ok st.LoadAverage ∧
          strconv.ParseUint p1 = .ok st.TotalMemory ∧
          strconv.ParseUint p2 = .ok st.UsedMemory ∧
          strconv.ParseUint p3 = .ok st.TotalDisk ∧
          strconv.ParseUint p4 = .ok st.UsedDisk ∧
          strconv.ParseUint p5 = .ok st.NetworkBandwidth ∧
          strconv.ParseUint p6 = .ok st.NetworkUsage) ∧
    parseStats "1.5,100,50,200,100,1000,500" =
      .ok ⟨.fin false 6755399441055744 (-52), 100, 50, 200, 100, 1000, 500⟩ := by
  refine ⟨?_, by decide⟩
  intro data st
  constructor
  · intro h
    obtain ⟨p0, p1, p2, p3, p4, p5, p6, hp⟩ :=
      length_seven _ (parseStats_ok_length data st h)
    refine ⟨p0, p1, p2, p3, p4, p5, p6, hp, ?_⟩
    rw [parseStats_of_fields data _ _ _ _ _ _ _ hp] at h
    rcases h0 : strconv.ParseFloat p0 with e0 | v0 <;> rw [h0] at h <;> try cases h
    rcases h1 : strconv.ParseUint p1 with e1 | v1 <;> rw [h1] at h <;> try cases h
    rcases h2 : strconv.ParseUint p2 with e2 | v2 <;> rw [h2] at h <;> try cases h
    rcases h3 : strconv.ParseUint p3 with e3 | v3 <;> rw [h3] at h <;> try cases h
    rcases h4 : strconv.ParseUint p4 with e4 | v4 <;> rw [h4] at h <;> try cases h
    rcases h5 : strconv.ParseUint p5 with e5 | v5 <;> rw [h5] at h <;> try cases h
    rcases h6 : strconv.ParseUint p6 with e6 | v6 <;> rw [h6] at h <;> try cases h
    exact ⟨rfl, rfl, rfl, rfl, rfl, rfl, rfl⟩
  · rintro ⟨p0, p1, p2, p3, p4, p5, p6, hp, h0, h1, h2, h3, h4, h5, h6⟩
    rw [parseStats_of_fields data _ _ _ _ _ _ _ hp, h0, h1, h2, h3, h4, h5, h6]

/-- C2. When the trimmed text splits on `,` into `n ≠ 7` fields (`n` is the
number of commas plus one), `parseStats` returns no record but the error whose
message is `invalid data format: expected 7 values, got n`, with `n` in
decimal. The empty text has one field, and `1,2,3` fails with a message
naming 3. -/
theorem parseStats_wrong_count (data : String) (quote : String → String)
    (h : (splitFields data).length ≠ 7) :
    parseStats data = .error (.format (splitFields data).length) ∧
    (ParseError.format (splitFields data).length).Error quote =
      "invalid data format: expected 7 values, got " ++ Nat.repr (splitFields data).length ∧
    (splitFields data).length = (strings.TrimSpace data.data).count ',' + 1 ∧
    parseStats "" = .error (.format 1) ∧
    parseStats "1,2,3" = .error (.format 3) ∧
    (ParseError.format 3).Error quote = "invalid data format: expected 7 values, got 3" := by
  refine ⟨?_, rfl, splitFields_length data, by decide, by decide, rfl⟩
  unfold parseStats
  simp only []
  rw [if_pos h]

theorem parseStats_wrong_count_witness :
    (splitFields "1,2,3").length ≠ 7 ∧
    parseStats "1,2,3" = .error (.format (splitFields "1,2,3").length) :=
  ⟨by decide, (parseStats_wrong_count "1,2,3" id (by decide)).1⟩

theorem ParseFloat_error_Num (s : String) (e : strconv.NumError)
    (h : strconv.ParseFloat s = .error e) : e.Num = s := by
  unfold strconv.ParseFloat at h
  split at h
  · split at h
    · cases h
    · cases h; rfl
  · split at h
    · cases h; rfl
    · split at h
      · cases h; rfl
      · split at h
        · cases h; rfl
        · cases h

theorem ParseUint_error_Num (s : String) (e : strconv.NumError)
    (h : strconv.ParseUint s = .error e) : e.Num = s := by
  unfold strconv.ParseUint at h
  split at h
  · cases h; rfl
  · split at h
    · cases h
    · cases h; rfl

theorem field_error_starts (what : String) (cause : strconv.NumError)
    (quote : String → String) :
    what.data <+: ((ParseError.field what cause).Error quote).data := by
  refine ⟨(": " ++ cause.Error quote).data, ?_⟩
  simp [ParseError.Error, String.data_append]

theorem parseStats_cases (data : String) (h7 : (splitFields data).length = 7) :
    (∃ st, parseStats data = .ok st ∧
      ∀ i, i < 7 → fieldParses i ((splitFields data).getD i "") = true) ∨
    (∃ i cause, i < 7 ∧
      (∀ j, j < i → fieldParses j ((splitFields data).getD j "") = true) ∧
      fieldParses i ((splitFields data).getD i "") = false ∧
      parseStats data = .error (.field (fieldLabel i) cause) ∧
      cause.Num = (splitFields data).getD i "") := by
  obtain ⟨p0, p1, p2, p3, p4, p5, p6, hp⟩ := length_seven _ h7
  have hps := parseStats_of_fields data _ _ _ _ _ _ _ hp
  rw [hp]
  rcases h0 : strconv.ParseFloat p0 with e0 | v0
  · refine Or.inr ⟨0, e0, by norm_num, fun j hj => by omega,
      by simp [fieldParses, h0, Except.toBool], by rw [hps, h0]; rfl,
      ParseFloat_error_Num _ _ h0⟩
  rcases h1 : strconv.ParseUint p1 with e1 | v1
  · refine Or.inr ⟨1, e1, by norm_num, fun j hj => ?_,
      by simp [fieldParses, h1, Except.toBool], by rw [hps, h0, h1]; rfl,
      ParseUint_error_Num _ _ h1⟩
    interval_cases j
    simp [fieldParses, h0, Except.toBool]
  rcases h2 : strconv.ParseUint p2 with e2 | v2
  · refine Or.inr ⟨2, e2, by norm_num, fun j hj => ?_,
      by simp [fieldParses, h2, Except.toBool], by rw [hps, h0, h1, h2]; rfl,
      ParseUint_error_Num _ _ h2⟩
    interval_cases j <;> simp [fieldParses, h0, h1, Except.toBool]
  rcases h3 : strconv.ParseUint p3 with e3 | v3
  · refine Or.inr ⟨3, e3, by norm_num, fun j hj => ?_,
      by simp [fieldParses, h3, Except.toBool], by rw [hps, h0, h1, h2, h3]; rfl,
      ParseUint_error_Num _ _ h3⟩
    interval_cases j <;> simp [fieldParses, h0, h1, h2, Except.toBool]
  rcases h4 : strconv.ParseUint p4 with e4 | v4
  · refine Or.inr ⟨4, e4, by norm_num, fun j hj => ?_,
      by simp [fieldParses, h4, Except.toBool], by rw [hps, h0, h1, h2, h3, h4]; rfl,
      ParseUint_error_Num _ _ h4⟩
    interval_cases j <;> simp [fieldParses, h0, h1, h2, h3, Except.toBool]
  rcases h5 : strconv.ParseUint p5 with e5 | v5
  · refine Or.inr ⟨5, e5, by norm_num, fun j hj => ?_,
      by simp [fieldParses, h5, Except.toBool], by rw [hps, h0, h1, h2, h3, h4, h5]; rfl,
      ParseUint_error_Num _ _ h5⟩
    interval_cases j <;> simp [fieldParses, h0, h1, h2, h3, h4, Except.toBool]
  rcases h6 : strconv.ParseUint p6 with e6 | v6
  · refine Or.inr ⟨6, e6, by norm_num, fun j hj => ?_,
      by simp [fieldParses, h6, Except.toBool],
      by rw [hps, h0, h1, h2, h3, h4, h5, h6]; rfl, ParseUint_error_Num _ _ h6⟩
    interval_cases j <;> simp [fieldParses, h0, h1, h2, h3, h4, h5, Except.toBool]
  refine Or.inl ⟨_, by rw [hps, h0, h1, h2, h3, h4, h5, h6], fun i hi => ?_⟩
  interval_cases i <;> simp [fieldParses, h0, h1, h2, h3, h4, h5, h6, Except.toBool]

/-- C3. When the text has seven fields and at least one of them does not
parse as its type, `parseStats` returns no record but a field error for the
leftmost field `i` that fails: it wraps the `strconv` error of that field, and
its message starts with the text for position `i` (`invalid load average`,
`invalid total memory`, `invalid used memory`, `invalid total disk`,
`invalid used disk`, `invalid network bandwidth`, `invalid network usage`).
The payload `x,2,3,4,5,6,7` fails with the load-average error. -/
theorem parseStats_field_error (data : String)
    (h7 : (splitFields data).length = 7)
    (hbad : ∃ i, i < 7 ∧ fieldParses i ((splitFields data).getD i "") = false) :
    (∃ i cause, i < 7 ∧
      (∀ j, j < i → fieldParses j ((splitFields data).getD j "") = true) ∧
      fieldParses i ((splitFields data).getD i "") = false ∧
      parseStats data = .error (.field (fieldLabel i) cause) ∧
      cause.Num = (splitFields data).getD i "" ∧
      ∀ quote : String → String,
        (fieldLabel i).data <+: ((ParseError.field (fieldLabel i) cause).Error quote).data) ∧
    parseStats "x,2,3,4,5,6,7" =
      .error (.field "invalid load average" ⟨"ParseFloat", "x", .invalidSyn⟩) := by
  refine ⟨?_, by decide⟩
  rcases parseStats_cases data h7 with ⟨st, -, hall⟩ | ⟨i, cause, hi, hprev, hf, herr, hnum⟩
  · obtain ⟨i, hi, hf⟩ := hbad
    rw [hall i hi] at hf
    cases hf
  · exact ⟨i, cause, hi, hprev, hf, herr, hnum, fun quote => field_error_starts _ _ _⟩

theorem parseStats_field_error_witness :
    (∃ i cause, i < 7 ∧
      (∀ j, j < i → fieldParses j ((splitFields "x,2,3,4,5,6,7").getD j "") = true) ∧
      fieldParses i ((splitFields "x,2,3,4,5,6,7").getD i "") = false ∧
      parseStats "x,2,3,4,5,6,7" = .error (.field (fieldLabel i) cause) ∧
      cause.Num = (splitFields "x,2,3,4,5,6,7").getD i "" ∧
      ∀ quote : String → String,
        (fieldLabel i).data <+: ((ParseError.field (fieldLabel i) cause).Error quote).data) :=
  (parseStats_field_error "x,2,3,4,5,6,7" (by decide) ⟨0, by decide, by decide⟩).1

/-! ## strconv.ParseUint -/

theorem maxUint64_eq : maxUint64 = 18446744073709551615 := by decide

theorem digitVal_le (c : Char) (h : isDigit c = true) : digitVal c ≤ 9 := by
  simp only [isDigit, Bool.and_eq_true, decide_eq_true_eq] at h
  unfold digitVal
  omega

theorem le_foldl_decimal (cs : List Char) (n : Nat) :
    n ≤ cs.foldl (fun n c => n * 10 + digitVal c) n := by
  induction cs generalizing n with
  | nil => exact Nat.le_refl _
  | cons c cs ih =>
    simp only [List.foldl_cons]
    exact Nat.le_trans (by omega) (ih _)

theorem parseUintLoop_ok_iff (cs : List Char) (n v : Nat) (hn : n < 2 ^ 64) :
    strconv.parseUintLoop cs n = .ok v ↔
      (∀ c ∈ cs, isDigit c = true) ∧
      cs.foldl (fun n c => n * 10 + digitVal c) n = v ∧ v ≤ 2 ^ 64 - 1 := by
  induction cs generalizing n with
  | nil =>
    simp only [strconv.parseUintLoop, List.foldl_nil, List.not_mem_nil, false_imp_iff,
      forall_const, true_and]
    constructor
    · intro h
      cases h
      exact ⟨rfl, by omega⟩
    · rintro ⟨rfl, -⟩
      rfl
  | cons c cs ih =>
    unfold strconv.parseUintLoop
    simp only [List.foldl_cons, List.mem_cons, forall_eq_or_imp, maxUint64_eq]
    by_cases hd : isDigit c = true
    · have hd9 := digitVal_le c hd
      have hmono := le_foldl_decimal cs (n * 10 + digitVal c)
      rw [if_pos hd]
      by_cases hc : n ≥ 18446744073709551615 / 10 + 1
      · rw [if_pos hc]
        constructor
        · intro h
          cases h
        · rintro ⟨-, rfl, hle⟩
          omega
      · rw [if_neg hc]
        by_cases hw : n * 10 + digitVal c < 2 ^ 64
        · have hmod : (n * 10 + digitVal c) % 2 ^ 64 = n * 10 + digitVal c :=
            Nat.mod_eq_of_lt hw
          rw [hmod, if_neg (by omega), ih _ hw]
          simp [hd]
        · rw [if_pos (by omega)]
          constructor
          · intro h
            cases h
          · rintro ⟨-, rfl, hle⟩
            omega
    · rw [if_neg hd]
      constructor
      · intro h
        cases h
      · rintro ⟨⟨h, -⟩, -⟩
        exact absurd h hd

theorem ParseUint_ok_iff_aux (s : String) (n : Nat) :
    strconv.ParseUint s = .ok n ↔
      s.data ≠ [] ∧ (∀ c ∈ s.data, isDigit c = true) ∧
      decimalValue s.data = n ∧ n ≤ 2 ^ 64 - 1 := by
  unfold strconv.ParseUint
  by_cases he : s.data = []
  · rw [if_pos he]
    constructor
    · intro h
      cases h
    · rintro ⟨h, -⟩
      exact absurd he h
  · rw [if_neg he]
    have hl := parseUintLoop_ok_iff s.data 0 n (by norm_num)
    rcases hr : strconv.parseUintLoop s.data 0 with k | v
    · rw [hr] at hl
      simp only [decimalValue]
      constructor
      · intro h
        cases h
      · rintro ⟨-, h⟩
        have := hl.mpr h
        cases this
    · rw [hr] at hl
      simp only [decimalValue]
      constructor
      · intro h
        cases h
        exact ⟨he, hl.mp rfl⟩
      · rintro ⟨-, h⟩
        have := hl.mpr h
        cases this
        rfl

theorem fieldParses_uint_iff (i : Nat) (h1 : 1 ≤ i) (f : String) :
    fieldParses i f = true ↔ isUintText f := by
  have hi : i ≠ 0 := by omega
  unfold fieldParses isUintText
  rw [if_neg hi]
  rcases hr : strconv.ParseUint f with e | v
  · simp only [Except.toBool, Bool.false_eq_true, false_iff]
    rintro ⟨h1, h2, h3⟩
    have := (ParseUint_ok_iff_aux f (decimalValue f.data)).mpr ⟨h1, h2, rfl, h3⟩
    rw [hr] at this
    cases this
  · simp only [Except.toBool, true_iff]
    obtain ⟨h1, h2, h3, h4⟩ := (ParseUint_ok_iff_aux f v).mp hr
    exact ⟨h1, h2, by omega⟩

/-- C4. In a seven-field text, the integer field at position `i` (1 to 6,
counted from 0) is accepted exactly when it is a non-empty text of ASCII
decimal digits whose value is at most `2^64 - 1`, and `strconv.ParseUint`
then returns that value. If it is not, the whole parse fails, and with that
field's error when the fields before it parse. In particular a leading `-` or
`+`, a space before, after or inside, the empty field and the value `2^64`
are all rejected, while `2^64 - 1` is accepted. -/
theorem parseStats_uint_field (data : String) (i : Nat)
    (h7 : (splitFields data).length = 7) (h1 : 1 ≤ i) (hi : i < 7) :
    (fieldParses i ((splitFields data).getD i "") = true ↔
      isUintText ((splitFields data).getD i "")) ∧
    ((∃ st, parseStats data = .ok st) → isUintText ((splitFields data).getD i "")) ∧
    (¬ isUintText ((splitFields data).getD i "") → ∃ e, parseStats data = .error e) ∧
    (¬ isUintText ((splitFields data).getD i "") →
      (∀ j, j < i → fieldParses j ((splitFields data).getD j "") = true) →
      ∃ cause, parseStats data = .error (.field (fieldLabel i) cause) ∧
        cause.Num = (splitFields data).getD i "") ∧
    (∀ (s : String) (n : Nat),
      strconv.ParseUint s = .ok n ↔ isUintText s ∧ decimalValue s.data = n) ∧
    ¬ isUintText "-5" ∧ ¬ isUintText "+5" ∧ ¬ isUintText " 5" ∧ ¬ isUintText "5 " ∧
    ¬ isUintText "1 2" ∧ ¬ isUintText "" ∧ ¬ isUintText "18446744073709551616" ∧
    isUintText "18446744073709551615" := by
  have hiff := fieldParses_uint_iff i h1 ((splitFields data).getD i "")
  have hcases := parseStats_cases data h7
  refine ⟨hiff, ?_, ?_, ?_, ?_, ?_⟩
  · rintro ⟨st, hst⟩
    rcases hcases with ⟨st1, -, hall⟩ | ⟨k, cause, -, -, -, herr, -⟩
    · exact hiff.mp (hall i hi)
    · rw [hst] at herr
      cases herr
  · intro hnot
    rcases hcases with ⟨st1, -, hall⟩ | ⟨k, cause, -, -, -, herr, -⟩
    · exact absurd (hiff.mp (hall i hi)) hnot
    · exact ⟨_, herr⟩
  · intro hnot hprev
    rcases hcases with ⟨st1, -, hall⟩ | ⟨k, cause, hk, hkprev, hkf, herr, hnum⟩
    · exact absurd (hiff.mp (hall i hi)) hnot
    · have hik : k = i := by
        rcases Nat.lt_trichotomy k i with hlt | heq | hgt
        · rw [hprev k hlt] at hkf
          cases hkf
        · exact heq
        · exact absurd (hiff.mp (hkprev i hgt)) hnot
      subst hik
      exact ⟨cause, herr, hnum⟩
  · intro s n
    rw [ParseUint_ok_iff_aux]
    unfold isUintText
    constructor
    · rintro ⟨h1, h2, h3, h4⟩
      exact ⟨⟨h1, h2, by omega⟩, h3⟩
    · rintro ⟨⟨h1, h2, h3⟩, h4⟩
      exact ⟨h1, h2, h4, by omega⟩
  · unfold isUintText
    decide

theorem parseStats_uint_field_witness :
    (fieldParses 3 ((splitFields "1,2,3,-4,5,6,7").getD 3 "") = true ↔
      isUintText ((splitFields "1,2,3,-4,5,6,7").getD 3 "")) ∧
    ∃ e, parseStats "1,2,3,-4,5,6,7" = .error e :=
  ⟨(parseStats_uint_field "1,2,3,-4,5,6,7" 3 (by decide) (by decide) (by decide)).1,
    (parseStats_uint_field "1,2,3,-4,5,6,7" 3 (by decide) (by decide) (by decide)).2.2.1
      (by unfold isUintText; decide)⟩

/-! ## Rounding to nearest, ties to even -/

theorem roundHalfEven_spec (n d : Nat) (hd : 0 < d) :
    IsRoundHalfEven ((n : ℚ) / d) (roundHalfEven n d) := by
  have hdq : (0 : ℚ) < d := by exact_mod_cast hd
  have hn : (n : ℚ) = (d : ℚ) * ((n / d : Nat) : ℚ) + ((n % d : Nat) : ℚ) := by
    exact_mod_cast (Nat.div_add_mod n d).symm
  have hr : ((n % d : Nat) : ℚ) < d := by exact_mod_cast Nat.mod_lt n hd
  have hr0 : (0 : ℚ) ≤ ((n % d : Nat) : ℚ) := by positivity
  have hx : (n : ℚ) / d = ((n / d : Nat) : ℚ) + ((n % d : Nat) : ℚ) / d := by
    rw [div_eq_iff hdq.ne']
    field_simp
    linarith
  unfold IsRoundHalfEven roundHalfEven
  simp only []
  rw [hx]
  by_cases h1 : 2 * (n % d) < d
  · rw [if_pos h1]
    have h1q : (2 : ℚ) * ((n % d : Nat) : ℚ) < d := by exact_mod_cast h1
    have hfrac : ((n % d : Nat) : ℚ) / d < 1 / 2 := by
      rw [div_lt_iff₀ hdq]
      linarith
    have hfrac0 : 0 ≤ ((n % d : Nat) : ℚ) / d := div_nonneg hr0 hdq.le
    refine ⟨by linarith, by linarith, fun h => ?_, fun h => ?_⟩
    · exfalso
      linarith
    · exfalso
      linarith
  · rw [if_neg h1]
    by_cases h2 : 2 * (n % d) > d
    · rw [if_pos h2]
      have h2q : (d : ℚ) < 2 * ((n % d : Nat) : ℚ) := by exact_mod_cast h2
      have hfrac : 1 / 2 < ((n % d : Nat) : ℚ) / d := by
        rw [lt_div_iff₀ hdq]
        linarith
      have hfrac1 : ((n % d : Nat) : ℚ) / d < 1 := by
        rw [div_lt_iff₀ hdq]
        linarith
      push_cast
      refine ⟨by linarith, by linarith, fun h => ?_, fun h => ?_⟩
      · exfalso
        linarith
      · exfalso
        linarith
    · rw [if_neg h2]
      have h3 : 2 * (n % d) = d := by omega
      have h3q : (2 : ℚ) * ((n % d : Nat) : ℚ) = d := by exact_mod_cast h3
      have hfrac : ((n % d : Nat) : ℚ) / d = 1 / 2 := by
        rw [div_eq_iff hdq.ne']
        linarith
      rw [hfrac]
      by_cases h4 : n / d % 2 = 0
      · rw [if_pos h4]
        refine ⟨by linarith, by linarith, fun _ => h4, fun _ => h4⟩
      · rw [if_neg h4]
        push_cast
        refine ⟨by linarith, by linarith, fun h => ?_, fun _ => by omega⟩
        exfalso
        linarith

theorem rhe_mono {y1 y2 : ℚ} {M1 M2 : Nat}
    (h1 : IsRoundHalfEven y1 M1) (h2 : IsRoundHalfEven y2 M2) (hy : y1 ≤ y2) :
    M1 ≤ M2 := by
  by_contra hlt
  have hge : M2 + 1 ≤ M1 := by omega
  have hgeq : (M2 : ℚ) + 1 ≤ (M1 : ℚ) := by exact_mod_cast hge
  obtain ⟨a1, -, -, d1⟩ := h1
  obtain ⟨-, b2, c2, -⟩ := h2
  have e2 : y2 = (M2 : ℚ) + 1 / 2 := by linarith
  have e1 : y1 = (M1 : ℚ) - 1 / 2 := by linarith
  have p1 := d1 e1
  have p2 := c2 e2
  have hM : (M1 : ℚ) = (M2 : ℚ) + 1 := by linarith
  have hMn : M1 = M2 + 1 := by exact_mod_cast hM
  omega

theorem rhe_unique {y : ℚ} {M1 M2 : Nat}
    (h1 : IsRoundHalfEven y M1) (h2 : IsRoundHalfEven y M2) : M1 = M2 :=
  Nat.le_antisymm (rhe_mono h1 h2 (le_refl y)) (rhe_mono h2 h1 (le_refl y))

theorem rhe_of_nat (N : Nat) : IsRoundHalfEven (N : ℚ) N := by
  refine ⟨by linarith, by linarith, fun h => ?_, fun h => ?_⟩
  · exfalso
    linarith
  · exfalso
    linarith

theorem rhe_le_of_le {y : ℚ} {M N : Nat}
    (h : IsRoundHalfEven y M) (hy : y ≤ (N : ℚ)) : M ≤ N :=
  rhe_mono h (rhe_of_nat N) hy

theorem rhe_ge_of_ge {y : ℚ} {M N : Nat}
    (h : IsRoundHalfEven y M) (hy : (N : ℚ) ≤ y) : N ≤ M :=
  rhe_mono (rhe_of_nat N) h hy

/-! ## The binary64 rounding -/

theorem log2Aux_spec (fuel n : Nat) (h1 : 1 ≤ n) (hf : n ≤ fuel) :
    2 ^ log2Aux fuel n ≤ n ∧ n < 2 ^ (log2Aux fuel n + 1) := by
  induction fuel generalizing n with
  | zero => omega
  | succ fuel ih =>
    unfold log2Aux
    by_cases h2 : n < 2
    · rw [if_pos h2]
      simp
      omega
    · rw [if_neg h2]
      have := ih (n / 2) (by omega) (by omega)
      obtain ⟨ha, hb⟩ := this
      rw [pow_succ, pow_succ]
      omega

theorem bitLog2_spec (n : Nat) (h1 : 1 ≤ n) :
    2 ^ bitLog2 n ≤ n ∧ n < 2 ^ (bitLog2 n + 1) :=
  log2Aux_spec n n h1 (Nat.le_refl n)

theorem two_zpow_toNat (e : Int) :
    (2 : ℚ) ^ e = (2 : ℚ) ^ e.toNat / (2 : ℚ) ^ (-e).toNat := by
  rcases le_total 0 e with h | h
  · have h1 : (-e).toNat = 0 := by omega
    rw [h1, pow_zero, div_one]
    conv_lhs => rw [← Int.toNat_of_nonneg h]
    rw [zpow_natCast]
  · have h1 : e.toNat = 0 := by omega
    rw [h1, pow_zero]
    have h2 : e = -((-e).toNat : Int) := by omega
    conv_lhs => rw [h2]
    rw [zpow_neg, zpow_natCast, one_div]

theorem floorLog2_spec (n d : Nat) (hn : 0 < n) (hd : 0 < d) :
    (2 : ℚ) ^ floorLog2 n d ≤ (n : ℚ) / d ∧ (n : ℚ) / d < (2 : ℚ) ^ (floorLog2 n d + 1) := by
  obtain ⟨a1, a2⟩ := bitLog2_spec n hn
  obtain ⟨b1, b2⟩ := bitLog2_spec d hd
  have hdq : (0 : ℚ) < d := by exact_mod_cast hd
  have hnq : (0 : ℚ) < n := by exact_mod_cast hn
  have a1q : (2 : ℚ) ^ (bitLog2 n : Int) ≤ n := by
    rw [zpow_natCast]; exact_mod_cast a1
  have a2q : (n : ℚ) < (2 : ℚ) ^ ((bitLog2 n : Int) + 1) := by
    have : (n : ℚ) < (2 : ℚ) ^ (bitLog2 n + 1) := by exact_mod_cast a2
    rw [← zpow_natCast] at this
    exact_mod_cast this
  have b1q : (2 : ℚ) ^ (bitLog2 d : Int) ≤ d := by
    rw [zpow_natCast]; exact_mod_cast b1
  have b2q : (d : ℚ) < (2 : ℚ) ^ ((bitLog2 d : Int) + 1) := by
    have : (d : ℚ) < (2 : ℚ) ^ (bitLog2 d + 1) := by exact_mod_cast b2
    rw [← zpow_natCast] at this
    exact_mod_cast this
  have h2 : (0 : ℚ) < 2 := by norm_num
  -- bounds of n/d
  have hlow : (2 : ℚ) ^ ((bitLog2 n : Int) - bitLog2 d - 1) < (n : ℚ) / d := by
    rw [lt_div_iff₀ hdq]
    calc (2 : ℚ) ^ ((bitLog2 n : Int) - bitLog2 d - 1) * d
        < (2 : ℚ) ^ ((bitLog2 n : Int) - bitLog2 d - 1) * (2 : ℚ) ^ ((bitLog2 d : Int) + 1) := by
          apply mul_lt_mul_of_pos_left b2q (zpow_pos h2 _)
      _ = (2 : ℚ) ^ (bitLog2 n : Int) := by
          rw [← zpow_add₀ (by norm_num : (2 : ℚ) ≠ 0)]
          congr 1
          ring
      _ ≤ n := a1q
  have hhigh : (n : ℚ) / d < (2 : ℚ) ^ ((bitLog2 n : Int) - bitLog2 d + 1) := by
    rw [div_lt_iff₀ hdq]
    calc (n : ℚ) < (2 : ℚ) ^ ((bitLog2 n : Int) + 1) := a2q
      _ = (2 : ℚ) ^ ((bitLog2 n : Int) - bitLog2 d + 1) * (2 : ℚ) ^ (bitLog2 d : Int) := by
          rw [← zpow_add₀ (by norm_num : (2 : ℚ) ≠ 0)]
          congr 1
          ring
      _ ≤ (2 : ℚ) ^ ((bitLog2 n : Int) - bitLog2 d + 1) * d := by
          apply mul_le_mul_of_nonneg_left b1q (zpow_pos h2 _).le
  -- the test
  have htest : ∀ k0 : Int,
      ((if 0 ≤ k0 then decide (d * 2 ^ k0.toNat ≤ n) else decide (d ≤ n * 2 ^ (-k0).toNat))
        = true) ↔ (2 : ℚ) ^ k0 ≤ (n : ℚ) / d := by
    intro k0
    rw [le_div_iff₀ hdq, two_zpow_toNat k0]
    by_cases hk : 0 ≤ k0
    · rw [if_pos hk]
      have h1 : (-k0).toNat = 0 := by omega
      rw [h1, pow_zero, div_one, decide_eq_true_eq]
      constructor
      · intro h
        have : ((d * 2 ^ k0.toNat : Nat) : ℚ) ≤ n := by exact_mod_cast h
        push_cast at this
        linarith
      · intro h
        have : ((d * 2 ^ k0.toNat : Nat) : ℚ) ≤ n := by
          push_cast
          linarith
        exact_mod_cast this
    · rw [if_neg hk]
      have h1 : k0.toNat = 0 := by omega
      rw [h1, pow_zero, decide_eq_true_eq]
      have hp : (0 : ℚ) < (2 : ℚ) ^ (-k0).toNat := by positivity
      rw [div_mul_eq_mul_div, one_mul, div_le_iff₀ hp]
      constructor
      · intro h
        have : ((d : Nat) : ℚ) ≤ ((n * 2 ^ (-k0).toNat : Nat) : ℚ) := by exact_mod_cast h
        push_cast at this
        exact this
      · intro h
        have : ((d : Nat) : ℚ) ≤ ((n * 2 ^ (-k0).toNat : Nat) : ℚ) := by
          push_cast
          exact h
        exact_mod_cast this
  unfold floorLog2
  simp only []
  by_cases hb : (if 0 ≤ (bitLog2 n : Int) - (bitLog2 d : Int)
      then decide (d * 2 ^ ((bitLog2 n : Int) - (bitLog2 d : Int)).toNat ≤ n)
      else decide (d ≤ n * 2 ^ (-((bitLog2 n : Int) - (bitLog2 d : Int))).toNat)) = true
  · rw [if_pos hb]
    exact ⟨(htest _).mp hb, hhigh⟩
  · rw [if_neg hb]
    refine ⟨hlow.le, ?_⟩
    have := (htest _).not.mp hb
    rw [sub_add_cancel]
    exact lt_of_not_le this

theorem roundMant_spec (n d : Nat) (hd : 0 < d) :
    IsRoundHalfEven ((n : ℚ) / d / (2 : ℚ) ^ ulpExp n d) (roundMant n d) := by
  have hdq : (0 : ℚ) < d := by exact_mod_cast hd
  unfold roundMant
  by_cases hE : 0 ≤ ulpExp n d
  · rw [if_pos hE]
    have hpos : 0 < d * 2 ^ (ulpExp n d).toNat := Nat.mul_pos hd (by positivity)
    have h := roundHalfEven_spec n (d * 2 ^ (ulpExp n d).toNat) hpos
    have h1 : (-ulpExp n d).toNat = 0 := by omega
    have e : (n : ℚ) / d / (2 : ℚ) ^ ulpExp n d
        = (n : ℚ) / ((d * 2 ^ (ulpExp n d).toNat : Nat) : ℚ) := by
      rw [two_zpow_toNat (ulpExp n d), h1, pow_zero, div_one]
      push_cast
      rw [div_div]
    rw [e]
    exact h
  · rw [if_neg hE]
    have h := roundHalfEven_spec (n * 2 ^ (-ulpExp n d).toNat) d hd
    have h1 : (ulpExp n d).toNat = 0 := by omega
    have e : (n : ℚ) / d / (2 : ℚ) ^ ulpExp n d
        = ((n * 2 ^ (-ulpExp n d).toNat : Nat) : ℚ) / d := by
      rw [two_zpow_toNat (ulpExp n d), h1, pow_zero]
      push_cast
      field_simp
    rw [e]
    exact h

theorem roundMant_zero (d : Nat) (hd : 0 < d) : roundMant 0 d = 0 := by
  have h := roundMant_spec 0 d hd
  have h0 : ((0 : Nat) : ℚ) / d / (2 : ℚ) ^ ulpExp 0 d = ((0 : Nat) : ℚ) := by simp
  rw [h0] at h
  exact rhe_unique h (rhe_of_nat 0)

theorem roundValue_nonneg (n d : Nat) : 0 ≤ roundValue n d := by
  unfold roundValue
  positivity

theorem two_pow_53_eq (E : Int) : (2 : ℚ) ^ (E + 52 + 1) = ((2 ^ 53 : Nat) : ℚ) * (2 : ℚ) ^ E := by
  have : E + 52 + 1 = (53 : Int) + E := by ring
  rw [this, zpow_add₀ (by norm_num : (2 : ℚ) ≠ 0)]
  norm_num

theorem two_pow_52_eq (E : Int) : (2 : ℚ) ^ (E + 52) = ((2 ^ 52 : Nat) : ℚ) * (2 : ℚ) ^ E := by
  have : E + 52 = (52 : Int) + E := by ring
  rw [this, zpow_add₀ (by norm_num : (2 : ℚ) ≠ 0)]
  norm_num

theorem roundMant_le (n d : Nat) (hn : 0 < n) (hd : 0 < d) : roundMant n d ≤ 2 ^ 53 := by
  have hs := roundMant_spec n d hd
  obtain ⟨-, hk⟩ := floorLog2_spec n d hn hd
  apply rhe_le_of_le hs
  have hp : (0 : ℚ) < (2 : ℚ) ^ ulpExp n d := by positivity
  rw [div_le_iff₀ hp, ← two_pow_53_eq]
  have hle : floorLog2 n d + 1 ≤ ulpExp n d + 52 + 1 := by
    unfold ulpExp
    have := le_max_left (floorLog2 n d) (-1022)
    omega
  exact le_trans hk.le (zpow_le_zpow_right₀ (by norm_num) hle)

theorem roundMant_ge (n d : Nat) (hn : 0 < n) (hd : 0 < d) (hk : -1022 ≤ floorLog2 n d) :
    2 ^ 52 ≤ roundMant n d := by
  have hs := roundMant_spec n d hd
  obtain ⟨hlo, -⟩ := floorLog2_spec n d hn hd
  apply rhe_ge_of_ge hs
  have hp : (0 : ℚ) < (2 : ℚ) ^ ulpExp n d := by positivity
  rw [le_div_iff₀ hp, ← two_pow_52_eq]
  have hE : ulpExp n d + 52 = floorLog2 n d := by
    unfold ulpExp
    rw [max_eq_left hk]
    ring
  rw [hE]
  exact hlo

theorem floorLog2_mono (n1 d1 n2 d2 : Nat) (hn1 : 0 < n1) (hd1 : 0 < d1) (hn2 : 0 < n2)
    (hd2 : 0 < d2) (h : (n1 : ℚ) / d1 ≤ (n2 : ℚ) / d2) : floorLog2 n1 d1 ≤ floorLog2 n2 d2 := by
  obtain ⟨a1, -⟩ := floorLog2_spec n1 d1 hn1 hd1
  obtain ⟨-, b2⟩ := floorLog2_spec n2 d2 hn2 hd2
  have hlt : (2 : ℚ) ^ floorLog2 n1 d1 < (2 : ℚ) ^ (floorLog2 n2 d2 + 1) :=
    lt_of_le_of_lt (le_trans a1 h) b2
  have := (zpow_lt_zpow_iff_right₀ (by norm_num : (1 : ℚ) < 2)).mp hlt
  omega

theorem roundValue_mono (n1 d1 n2 d2 : Nat) (hd1 : 0 < d1) (hd2 : 0 < d2)
    (h : (n1 : ℚ) / d1 ≤ (n2 : ℚ) / d2) : roundValue n1 d1 ≤ roundValue n2 d2 := by
  have hd1q : (0 : ℚ) < d1 := by exact_mod_cast hd1
  have hd2q : (0 : ℚ) < d2 := by exact_mod_cast hd2
  rcases Nat.eq_zero_or_pos n1 with h0 | hn1
  · subst h0
    unfold roundValue
    rw [roundMant_zero d1 hd1]
    simp only [Nat.cast_zero, zero_mul]
    exact roundValue_nonneg n2 d2
  have hn1q : (0 : ℚ) < n1 := by exact_mod_cast hn1
  have hn2 : 0 < n2 := by
    rcases Nat.eq_zero_or_pos n2 with h0 | h0
    · subst h0
      have : (0 : ℚ) < (n1 : ℚ) / d1 := div_pos hn1q hd1q
      simp at h
      linarith
    · exact h0
  have hk := floorLog2_mono n1 d1 n2 d2 hn1 hd1 hn2 hd2 h
  have hE : ulpExp n1 d1 ≤ ulpExp n2 d2 := by
    unfold ulpExp
    have := max_le_max_right (-1022) hk
    omega
  rcases eq_or_lt_of_le hE with heq | hlt
  · have hs1 := roundMant_spec n1 d1 hd1
    have hs2 := roundMant_spec n2 d2 hd2
    have hp : (0 : ℚ) < (2 : ℚ) ^ ulpExp n2 d2 := by positivity
    have hy : (n1 : ℚ) / d1 / (2 : ℚ) ^ ulpExp n1 d1 ≤ (n2 : ℚ) / d2 / (2 : ℚ) ^ ulpExp n2 d2 := by
      rw [heq]
      exact div_le_div_of_nonneg_right h hp.le
    have hM := rhe_mono hs1 hs2 hy
    unfold roundValue
    rw [heq]
    have hMq : (roundMant n1 d1 : ℚ) ≤ roundMant n2 d2 := by exact_mod_cast hM
    exact mul_le_mul_of_nonneg_right hMq hp.le
  · have hk2 : -1022 ≤ floorLog2 n2 d2 := by
      unfold ulpExp at hlt
      by_contra hc
      have h2 : max (floorLog2 n2 d2) (-1022) = -1022 := max_eq_right (by omega)
      have h1 := le_max_right (floorLog2 n1 d1) (-1022)
      omega
    have hE2 : ulpExp n2 d2 + 52 = floorLog2 n2 d2 := by
      unfold ulpExp
      rw [max_eq_left hk2]
      ring
    have hM1 := roundMant_le n1 d1 hn1 hd1
    have hM2 := roundMant_ge n2 d2 hn2 hd2 hk2
    have hM1q : (roundMant n1 d1 : ℚ) ≤ ((2 ^ 53 : Nat) : ℚ) := by exact_mod_cast hM1
    have hM2q : ((2 ^ 52 : Nat) : ℚ) ≤ (roundMant n2 d2 : ℚ) := by exact_mod_cast hM2
    have hp1 : (0 : ℚ) < (2 : ℚ) ^ ulpExp n1 d1 := by positivity
    have hp2 : (0 : ℚ) < (2 : ℚ) ^ ulpExp n2 d2 := by positivity
    unfold roundValue
    calc (roundMant n1 d1 : ℚ) * (2 : ℚ) ^ ulpExp n1 d1
        ≤ ((2 ^ 53 : Nat) : ℚ) * (2 : ℚ) ^ ulpExp n1 d1 :=
          mul_le_mul_of_nonneg_right hM1q hp1.le
      _ = (2 : ℚ) ^ (ulpExp n1 d1 + 52 + 1) := (two_pow_53_eq _).symm
      _ ≤ (2 : ℚ) ^ (ulpExp n2 d2 + 52) :=
          zpow_le_zpow_right₀ (by norm_num) (by omega)
      _ = ((2 ^ 52 : Nat) : ℚ) * (2 : ℚ) ^ ulpExp n2 d2 := two_pow_52_eq _
      _ ≤ (roundMant n2 d2 : ℚ) * (2 : ℚ) ^ ulpExp n2 d2 :=
          mul_le_mul_of_nonneg_right hM2q hp2.le

theorem roundValue_congr (n1 d1 n2 d2 : Nat) (hd1 : 0 < d1) (hd2 : 0 < d2)
    (h : (n1 : ℚ) / d1 = (n2 : ℚ) / d2) : roundValue n1 d1 = roundValue n2 d2 :=
  le_antisymm (roundValue_mono n1 d1 n2 d2 hd1 hd2 h.le)
    (roundValue_mono n2 d2 n1 d1 hd2 hd1 h.ge)

theorem rat_num_toNat_div_den (x : ℚ) (hx : 0 ≤ x) : ((x.num.toNat : Nat) : ℚ) / (x.den : ℚ) = x := by
  have h0 : 0 ≤ x.num := Rat.num_nonneg.mpr hx
  have h1 : ((x.num.toNat : Nat) : ℚ) = ((x.num : Int) : ℚ) := by
    have : ((x.num.toNat : Nat) : Int) = x.num := Int.toNat_of_nonneg h0
    exact_mod_cast congrArg (fun z : Int => (z : ℚ)) this
  rw [h1]
  exact Rat.num_div_den x

theorem roundValue_eq_roundQ (n d : Nat) (hd : 0 < d) :
    roundValue n d = roundQ ((n : ℚ) / d) := by
  have hx : (0 : ℚ) ≤ (n : ℚ) / d := by positivity
  unfold roundQ
  apply roundValue_congr _ _ _ _ hd (Rat.den_pos _)
  rw [rat_num_toNat_div_den _ hx]

theorem roundQ_mono (x y : ℚ) (hx : 0 ≤ x) (hxy : x ≤ y) : roundQ x ≤ roundQ y := by
  unfold roundQ
  apply roundValue_mono _ _ _ _ (Rat.den_pos _) (Rat.den_pos _)
  rw [rat_num_toNat_div_den _ hx, rat_num_toNat_div_den _ (le_trans hx hxy)]
  exact hxy

theorem roundQ_nonneg (x : ℚ) : 0 ≤ roundQ x := roundValue_nonneg _ _

theorem roundValue_exact (n d M : Nat) (E : Int) (hd : 0 < d) (hM : M < 2 ^ 53)
    (hE : -1074 ≤ E) (hx : (n : ℚ) / d = (M : ℚ) * (2 : ℚ) ^ E) :
    roundValue n d = (n : ℚ) / d := by
  have hdq : (0 : ℚ) < d := by exact_mod_cast hd
  rcases Nat.eq_zero_or_pos n with h0 | hn
  · subst h0
    unfold roundValue
    rw [roundMant_zero d hd]
    simp
  obtain ⟨hlo, -⟩ := floorLog2_spec n d hn hd
  have hMq : (M : ℚ) < ((2 ^ 53 : Nat) : ℚ) := by exact_mod_cast hM
  have hpE : (0 : ℚ) < (2 : ℚ) ^ E := by positivity
  have hlt : (2 : ℚ) ^ floorLog2 n d < (2 : ℚ) ^ (E + 52 + 1) := by
    rw [two_pow_53_eq]
    calc (2 : ℚ) ^ floorLog2 n d ≤ (n : ℚ) / d := hlo
      _ = (M : ℚ) * (2 : ℚ) ^ E := hx
      _ < ((2 ^ 53 : Nat) : ℚ) * (2 : ℚ) ^ E := mul_lt_mul_of_pos_right hMq hpE
  have hk := (zpow_lt_zpow_iff_right₀ (by norm_num : (1 : ℚ) < 2)).mp hlt
  have hle : ulpExp n d ≤ E := by
    unfold ulpExp
    rcases max_cases (floorLog2 n d) (-1022) with ⟨h, -⟩ | ⟨h, -⟩ <;> omega
  have hs := roundMant_spec n d hd
  have hp : (0 : ℚ) < (2 : ℚ) ^ ulpExp n d := by positivity
  have hy : (n : ℚ) / d / (2 : ℚ) ^ ulpExp n d
      = ((M * 2 ^ (E - ulpExp n d).toNat : Nat) : ℚ) := by
    rw [hx, div_eq_iff hp.ne']
    push_cast
    rw [mul_assoc, ← zpow_natCast, ← zpow_add₀ (by norm_num : (2 : ℚ) ≠ 0)]
    congr 2
    omega
  rw [hy] at hs
  have hM' := rhe_unique hs (rhe_of_nat _)
  unfold roundValue
  rw [hM', ← hy]
  field_simp
  ring

theorem roundQ_exact (x : ℚ) (M : Nat) (E : Int) (hM : M < 2 ^ 53) (hE : -1074 ≤ E)
    (hx : x = (M : ℚ) * (2 : ℚ) ^ E) : roundQ x = x := by
  have h0 : 0 ≤ x := by rw [hx]; positivity
  unfold roundQ
  have h := roundValue_exact x.num.toNat x.den M E (Rat.den_pos _) hM hE
    (by rw [rat_num_toNat_div_den _ h0]; exact hx)
  rw [h, rat_num_toNat_div_den _ h0]

theorem roundQ_natCast (u : Nat) (hu : u < 2 ^ 53) : roundQ (u : ℚ) = u :=
  roundQ_exact _ u 0 hu (by norm_num) (by simp)

theorem round_hasValue (n d : Nat) (hd : 0 < d) (hx : (n : ℚ) / d < (2 : ℚ) ^ (1023 : Int)) :
    (F64.round false n d).HasValue (roundValue n d) := by
  unfold F64.round F64.HasValue
  rcases Nat.eq_zero_or_pos n with h0 | hn
  · subst h0
    rw [if_pos rfl]
    refine ⟨0, -1074, rfl, ?_⟩
    unfold roundValue
    rw [roundMant_zero d hd]
    simp
  rw [if_neg (by omega)]
  obtain ⟨hlo, -⟩ := floorLog2_spec n d hn hd
  have hk := (zpow_lt_zpow_iff_right₀ (by norm_num : (1 : ℚ) < 2)).mp (lt_of_le_of_lt hlo hx)
  have hE : ulpExp n d ≤ 970 := by
    unfold ulpExp
    rcases max_cases (floorLog2 n d) (-1022) with ⟨h, -⟩ | ⟨h, -⟩ <;> omega
  by_cases hm : roundMant n d = 2 ^ 53
  · rw [if_pos hm, if_neg (by omega)]
    refine ⟨2 ^ 52, ulpExp n d + 1, rfl, ?_⟩
    unfold roundValue
    rw [hm, zpow_add₀ (by norm_num : (2 : ℚ) ≠ 0)]
    norm_num
    ring
  · rw [if_neg hm, if_neg (by omega)]
    exact ⟨roundMant n d, ulpExp n d, rfl, rfl⟩

theorem round_hasValue_roundQ (n d : Nat) (hd : 0 < d)
    (hx : (n : ℚ) / d < (2 : ℚ) ^ (1023 : Int)) :
    (F64.round false n d).HasValue (roundQ ((n : ℚ) / d)) := by
  rw [← roundValue_eq_roundQ n d hd]
  exact round_hasValue n d hd hx

theorem hasValue_nonneg {f : F64} {v : ℚ} (h : f.HasValue v) : 0 ≤ v := by
  obtain ⟨m, e, -, rfl⟩ := h
  positivity

theorem hasValue_toRat {f : F64} {v : ℚ} (h : f.HasValue v) : f.toRat = v := by
  obtain ⟨m, e, rfl, rfl⟩ := h
  simp [F64.toRat]

theorem two_pow_lt_huge (k : Nat) (hk : k < 1023) :
    ((2 ^ k : Nat) : ℚ) < (2 : ℚ) ^ (1023 : Int) := by
  have h : ((2 ^ k : Nat) : ℚ) = (2 : ℚ) ^ (k : Int) := by
    rw [zpow_natCast]
    push_cast
    rfl
  rw [h]
  exact zpow_lt_zpow_right₀ (by norm_num) (by omega)

theorem ofNat_hasValue (u : Nat) (hu : u ≤ 2 ^ 64) : (F64.ofNat u).HasValue (roundQ (u : ℚ)) := by
  have hq : (u : ℚ) ≤ ((2 ^ 64 : Nat) : ℚ) := by exact_mod_cast hu
  have h := round_hasValue_roundQ u 1 Nat.one_pos (by
    simp only [Nat.cast_one, div_one]
    exact lt_of_le_of_lt hq (two_pow_lt_huge 64 (by norm_num)))
  simpa [F64.ofNat] using h

theorem ofNat_exact (u : Nat) (hu : u < 2 ^ 53) : (F64.ofNat u).HasValue (u : ℚ) := by
  have h := ofNat_hasValue u (by omega)
  rwa [roundQ_natCast u hu] at h

theorem div_hasValue {x y : F64} {a b : ℚ} (hx : x.HasValue a) (hy : y.HasValue b)
    (hb : 0 < b) (hab : a / b < (2 : ℚ) ^ (1023 : Int)) :
    (F64.div x y).HasValue (roundQ (a / b)) := by
  obtain ⟨m1, e1, rfl, rfl⟩ := hx
  obtain ⟨m2, e2, rfl, rfl⟩ := hy
  have hm2 : m2 ≠ 0 := by
    rintro rfl
    simp at hb
  have hm2q : (m2 : ℚ) ≠ 0 := by exact_mod_cast hm2
  have hratio : ((m1 * 2 ^ (e1 - e2).toNat : Nat) : ℚ) / ((m2 * 2 ^ (e2 - e1).toNat : Nat) : ℚ)
      = (m1 : ℚ) * (2 : ℚ) ^ e1 / ((m2 : ℚ) * (2 : ℚ) ^ e2) := by
    have h1 : e2 - e1 = -(e1 - e2) := by ring
    have h2 : (2 : ℚ) ^ e1 / (2 : ℚ) ^ e2 = (2 : ℚ) ^ (e1 - e2) := by
      rw [zpow_sub₀ (by norm_num : (2 : ℚ) ≠ 0)]
    push_cast
    rw [h1, mul_div_mul_comm, mul_div_mul_comm, ← two_zpow_toNat, h2]
  have hpos : 0 < m2 * 2 ^ (e2 - e1).toNat := Nat.mul_pos (Nat.pos_of_ne_zero hm2) (by positivity)
  have h := round_hasValue_roundQ (m1 * 2 ^ (e1 - e2).toNat) (m2 * 2 ^ (e2 - e1).toNat) hpos
    (by rw [hratio]; exact hab)
  rw [hratio] at h
  simpa [F64.div, hm2] using h

theorem mul_hasValue {x y : F64} {a b : ℚ} (hx : x.HasValue a) (hy : y.HasValue b)
    (hab : a * b < (2 : ℚ) ^ (1023 : Int)) :
    (F64.mul x y).HasValue (roundQ (a * b)) := by
  obtain ⟨m1, e1, rfl, rfl⟩ := hx
  obtain ⟨m2, e2, rfl, rfl⟩ := hy
  have hratio : ((m1 * m2 * 2 ^ (e1 + e2).toNat : Nat) : ℚ) / ((2 ^ (-(e1 + e2)).toNat : Nat) : ℚ)
      = (m1 : ℚ) * (2 : ℚ) ^ e1 * ((m2 : ℚ) * (2 : ℚ) ^ e2) := by
    push_cast
    rw [mul_div_assoc, ← two_zpow_toNat, zpow_add₀ (by norm_num : (2 : ℚ) ≠ 0)]
    ring
  have hpos : 0 < 2 ^ (-(e1 + e2)).toNat := by positivity
  have h := round_hasValue_roundQ (m1 * m2 * 2 ^ (e1 + e2).toNat) (2 ^ (-(e1 + e2)).toNat) hpos
    (by rw [hratio]; exact hab)
  rw [hratio] at h
  simpa [F64.mul] using h

theorem scaled_cast (m : Nat) (e lo : Int) (h : lo ≤ e) :
    ((m * 2 ^ (e - lo).toNat : Nat) : ℚ) * (2 : ℚ) ^ lo = (m : ℚ) * (2 : ℚ) ^ e := by
  push_cast
  rw [mul_assoc, ← zpow_natCast, ← zpow_add₀ (by norm_num : (2 : ℚ) ≠ 0)]
  congr 2
  omega

theorem gt_hasValue {x y : F64} {a b : ℚ} (hx : x.HasValue a) (hy : y.HasValue b) :
    F64.gt x y = true ↔ b < a := by
  obtain ⟨m1, e1, rfl, rfl⟩ := hx
  obtain ⟨m2, e2, rfl, rfl⟩ := hy
  have hp : (0 : ℚ) < (2 : ℚ) ^ (min e2 e1) := by positivity
  have h1 := scaled_cast m1 e1 (min e2 e1) (min_le_right _ _)
  have h2 := scaled_cast m2 e2 (min e2 e1) (min_le_left _ _)
  simp only [F64.gt, F64.lt, signedInt, Bool.false_eq_true, if_false, decide_eq_true_eq]
  rw [← h1, ← h2, mul_lt_mul_right hp]
  constructor
  · intro h
    exact_mod_cast h
  · intro h
    exact_mod_cast h

theorem hasValue_unique {f : F64} {v w : ℚ} (h1 : f.HasValue v) (h2 : f.HasValue w) : v = w := by
  rw [← hasValue_toRat h1, ← hasValue_toRat h2]

theorem roundQ_two_pow (k : Nat) (hk : k ≤ 1000) : roundQ ((2 ^ k : Nat) : ℚ) = ((2 ^ k : Nat) : ℚ) := by
  apply roundQ_exact _ 1 (k : Int) (by norm_num) (by omega)
  rw [zpow_natCast]
  push_cast
  ring

theorem roundQ_natCast_le (u : Nat) (hu : u ≤ 2 ^ 64) : roundQ (u : ℚ) ≤ ((2 ^ 64 : Nat) : ℚ) := by
  rw [← roundQ_two_pow 64 (by norm_num)]
  exact roundQ_mono _ _ (by positivity) (by exact_mod_cast hu)

theorem roundQ_natCast_ge_one (t : Nat) (ht : 0 < t) : 1 ≤ roundQ (t : ℚ) := by
  have h := roundQ_mono ((1 : Nat) : ℚ) (t : ℚ) (by norm_num) (by exact_mod_cast ht)
  rwa [roundQ_natCast 1 (by norm_num), Nat.cast_one] at h

/-- The percentage as a function of the exact ratio of the two converted values. -/
theorem usagePercent_hasValue (u t : Nat) (hu : u ≤ 2 ^ 64) (ht : 0 < t) (ht2 : t ≤ 2 ^ 64) :
    (usagePercent u t).HasValue (roundQ (roundQ (roundQ (u : ℚ) / roundQ (t : ℚ)) * 100)) := by
  have hU := ofNat_hasValue u hu
  have hT := ofNat_hasValue t ht2
  have hT1 := roundQ_natCast_ge_one t ht
  have hU64 := roundQ_natCast_le u hu
  have hU0 := roundQ_nonneg (u : ℚ)
  have h64 := two_pow_lt_huge 64 (by norm_num)
  have hratio : roundQ (u : ℚ) / roundQ (t : ℚ) ≤ ((2 ^ 64 : Nat) : ℚ) := by
    rw [div_le_iff₀ (by linarith)]
    have : (0 : ℚ) ≤ ((2 ^ 64 : Nat) : ℚ) := by positivity
    nlinarith
  have hQ := div_hasValue hU hT (by linarith) (lt_of_le_of_lt hratio h64)
  have hQ64 : roundQ (roundQ (u : ℚ) / roundQ (t : ℚ)) ≤ ((2 ^ 64 : Nat) : ℚ) := by
    rw [← roundQ_two_pow 64 (by norm_num)]
    exact roundQ_mono _ _ (div_nonneg hU0 (by linarith)) hratio
  have h100 : (F64.ofNat 100).HasValue ((100 : Nat) : ℚ) := ofNat_exact 100 (by norm_num)
  have hP := mul_hasValue hQ h100 (by
    have h71 := two_pow_lt_huge 71 (by norm_num)
    have : ((2 ^ 71 : Nat) : ℚ) = ((2 ^ 64 : Nat) : ℚ) * 128 := by norm_num
    have h0 := roundQ_nonneg (roundQ (u : ℚ) / roundQ (t : ℚ))
    push_cast at *
    nlinarith)
  simpa [usagePercent] using hP

theorem usage_gt_iff (a b thr : Nat) (hb : 0 < b) (hab : a ≤ b) (hthr : thr < 2 ^ 53)
    (hlow : F64.gt (F64.mul (F64.round false a b) (F64.ofNat 100)) (F64.ofNat thr) = false)
    (hhigh : F64.gt (F64.mul (F64.round false (a * 2 ^ 50 + 1) (b * 2 ^ 50)) (F64.ofNat 100))
      (F64.ofNat thr) = true)
    (u t : Nat) (hu : u ≤ 2 ^ 64) (ht : 0 < t) (ht50 : t ≤ 2 ^ 50) :
    F64.gt (usagePercent u t) (F64.ofNat thr) = true ↔ a * t < b * u := by
  have hbq : (0 : ℚ) < b := by exact_mod_cast hb
  have htq : (0 : ℚ) < t := by exact_mod_cast ht
  have h100 : (F64.ofNat 100).HasValue ((100 : Nat) : ℚ) := ofNat_exact 100 (by norm_num)
  have hthrV : (F64.ofNat thr).HasValue (thr : ℚ) := ofNat_exact thr hthr
  have hP := usagePercent_hasValue u t hu ht (by omega)
  rw [roundQ_natCast t (by omega)] at hP
  rw [gt_hasValue hP hthrV]
  -- the two reference points
  have hsmall : ∀ n d : Nat, 0 < d → (n : ℚ) / d ≤ 2 →
      (F64.mul (F64.round false n d) (F64.ofNat 100)).HasValue
        (roundQ (roundQ ((n : ℚ) / d) * 100)) := by
    intro n d hd h2
    have h1023 : (2 : ℚ) < (2 : ℚ) ^ (1023 : Int) := by
      have := two_pow_lt_huge 1 (by norm_num)
      simpa using this
    have hr := round_hasValue_roundQ n d hd (by linarith)
    have hle : roundQ ((n : ℚ) / d) ≤ 2 := by
      have := roundQ_mono ((n : ℚ) / d) ((2 : Nat) : ℚ) (by positivity) (by simpa using h2)
      rwa [roundQ_natCast 2 (by norm_num)] at this
    have h8 := two_pow_lt_huge 8 (by norm_num)
    have hm := mul_hasValue hr h100 (by push_cast at *; linarith)
    simpa using hm
  have hlowV : roundQ (roundQ ((a : ℚ) / b) * 100) ≤ (thr : ℚ) := by
    have h := hsmall a b hb (by
      rw [div_le_iff₀ hbq]
      have : (a : ℚ) ≤ b := by exact_mod_cast hab
      linarith)
    have := (gt_hasValue h hthrV).not.mp (by rw [hlow]; simp)
    exact not_lt.mp this
  have hb50 : 0 < b * 2 ^ 50 := Nat.mul_pos hb (by positivity)
  have hhighV : (thr : ℚ) < roundQ (roundQ (((a * 2 ^ 50 + 1 : Nat) : ℚ) / ((b * 2 ^ 50 : Nat) : ℚ)) * 100) := by
    have h := hsmall (a * 2 ^ 50 + 1) (b * 2 ^ 50) hb50 (by
      have hpos : (0 : ℚ) < ((b * 2 ^ 50 : Nat) : ℚ) := by exact_mod_cast hb50
      rw [div_le_iff₀ hpos]
      have h1 : a * 2 ^ 50 + 1 ≤ 2 * (b * 2 ^ 50) := by
        have := Nat.mul_le_mul_right (2 ^ 50) hab
        have hb1 : 1 ≤ b * 2 ^ 50 := hb50
        omega
      exact_mod_cast h1)
    exact (gt_hasValue h hthrV).mp hhigh
  have hmono : ∀ x y : ℚ, 0 ≤ x → x ≤ y → roundQ (roundQ x * 100) ≤ roundQ (roundQ y * 100) := by
    intro x y hx hxy
    apply roundQ_mono
    · have := roundQ_nonneg x
      linarith
    · have := roundQ_mono x y hx hxy
      linarith
  constructor
  · intro hgt
    by_contra hle
    have hle' : b * u ≤ a * t := by omega
    have hut : u ≤ t := by
      have h1 : b * u ≤ b * t := le_trans hle' (Nat.mul_le_mul_right t hab)
      exact Nat.le_of_mul_le_mul_left h1 hb
    have hU : roundQ (u : ℚ) = u := roundQ_natCast u (by omega)
    rw [hU] at hgt
    have hx : (u : ℚ) / t ≤ (a : ℚ) / b := by
      rw [div_le_div_iff₀ htq hbq]
      have : ((b * u : Nat) : ℚ) ≤ ((a * t : Nat) : ℚ) := by exact_mod_cast hle'
      push_cast at this
      linarith
    have := hmono _ _ (by positivity) hx
    linarith
  · intro hlt
    have hlt' : a * t + 1 ≤ b * u := by omega
    have hy0 : ((a * 2 ^ 50 + 1 : Nat) : ℚ) / ((b * 2 ^ 50 : Nat) : ℚ) ≤ roundQ (u : ℚ) / (t : ℚ) := by
      have hpos : (0 : ℚ) < ((b * 2 ^ 50 : Nat) : ℚ) := by exact_mod_cast hb50
      rw [div_le_div_iff₀ hpos htq]
      by_cases hu53 : u < 2 ^ 53
      · rw [roundQ_natCast u hu53]
        have h1 : (a * 2 ^ 50 + 1) * t ≤ u * (b * 2 ^ 50) := by
          have h2 : (a * t + 1) * 2 ^ 50 ≤ (b * u) * 2 ^ 50 := Nat.mul_le_mul_right _ hlt'
          have h3 : (a * 2 ^ 50 + 1) * t = a * t * 2 ^ 50 + t := by ring
          have h4 : (a * t + 1) * 2 ^ 50 = a * t * 2 ^ 50 + 2 ^ 50 := by ring
          have h5 : u * (b * 2 ^ 50) = (b * u) * 2 ^ 50 := by ring
          omega
        exact_mod_cast h1
      · have hU : ((2 ^ 53 : Nat) : ℚ) ≤ roundQ (u : ℚ) := by
          rw [← roundQ_two_pow 53 (by norm_num)]
          exact roundQ_mono _ _ (by positivity) (by exact_mod_cast (not_lt.mp hu53))
        have h1 : (a * 2 ^ 50 + 1) * t ≤ 2 ^ 53 * (b * 2 ^ 50) := by
          have h2 : a * 2 ^ 50 + 1 ≤ 2 * (b * 2 ^ 50) := by
            have := Nat.mul_le_mul_right (2 ^ 50) hab
            have hb1 : 1 ≤ b * 2 ^ 50 := hb50
            omega
          calc (a * 2 ^ 50 + 1) * t ≤ (2 * (b * 2 ^ 50)) * 2 ^ 50 := Nat.mul_le_mul h2 ht50
            _ ≤ 2 ^ 53 * (b * 2 ^ 50) := by
                have : (2 * (b * 2 ^ 50)) * 2 ^ 50 = 2 ^ 51 * (b * 2 ^ 50) := by ring
                rw [this]
                exact Nat.mul_le_mul_right _ (show 2 ^ 51 ≤ 2 ^ 53 by norm_num)
        have h1q : ((a * 2 ^ 50 + 1 : Nat) : ℚ) * t ≤ ((2 ^ 53 : Nat) : ℚ) * ((b * 2 ^ 50 : Nat) : ℚ) := by
          exact_mod_cast h1
        have := mul_le_mul_of_nonneg_right hU hpos.le
        linarith
    have := hmono _ _ (div_nonneg (Nat.cast_nonneg _) (Nat.cast_nonneg _)) hy0
    linarith

set_option maxRecDepth 100000 in
theorem usage_gt_80_iff (u t : Nat) (hu : u ≤ 2 ^ 64) (ht : 0 < t) (ht50 : t ≤ 2 ^ 50) :
    F64.gt (usagePercent u t) (F64.ofNat 80) = true ↔ 80 * t < 100 * u := by
  have h := usage_gt_iff 4 5 80 (by norm_num) (by norm_num) (by norm_num) (by decide) (by decide)
    u t hu ht ht50
  rw [h]
  omega

set_option maxRecDepth 100000 in
theorem usage_gt_90_iff (u t : Nat) (hu : u ≤ 2 ^ 64) (ht : 0 < t) (ht50 : t ≤ 2 ^ 50) :
    F64.gt (usagePercent u t) (F64.ofNat 90) = true ↔ 90 * t < 100 * u := by
  have h := usage_gt_iff 9 10 90 (by norm_num) (by norm_num) (by norm_num) (by decide) (by decide)
    u t hu ht ht50
  rw [h]
  omega
/-! ## checkThresholds -/

theorem checkThresholds_eq (stats : ServerStats) :
    checkThresholds stats =
      (if loadRule stats then [loadAlert stats] else []) ++
      (if memoryRule stats then [memoryAlert stats] else []) ++
      (if diskRule stats then [diskAlert stats] else []) ++
      (if networkRule stats then [networkAlert stats] else []) := by
  unfold checkThresholds loadRule memoryRule diskRule networkRule
    loadAlert memoryAlert diskAlert networkAlert
  by_cases h1 : F64.gt stats.LoadAverage (F64.ofNat 30) = true <;>
  by_cases h2 : stats.TotalMemory > 0 <;>
  by_cases h3 : F64.gt (usagePercent stats.UsedMemory stats.TotalMemory) (F64.ofNat 80) = true <;>
  by_cases h4 : stats.TotalDisk > 0 <;>
  by_cases h5 : F64.gt (usagePercent stats.UsedDisk stats.TotalDisk) (F64.ofNat 90) = true <;>
  by_cases h6 : stats.NetworkBandwidth > 0 <;>
  by_cases h7 : F64.gt (usagePercent stats.NetworkUsage stats.NetworkBandwidth)
    (F64.ofNat 90) = true <;>
  simp [h1, h2, h3, h4, h5, h6, h7]

theorem firstChar_append (a x : String) (h : a.data ≠ []) :
    firstChar (a ++ x) = firstChar a := by
  unfold firstChar
  rw [String.data_append]
  cases hd : a.data with
  | nil => exact absurd hd h
  | cons c cs => rfl

theorem append_data_ne_nil (a x : String) (h : a.data ≠ []) : (a ++ x).data ≠ [] := by
  rw [String.data_append]
  simp [h]

theorem firstChar_loadAlert (stats : ServerStats) : firstChar (loadAlert stats) = some 'L' := by
  unfold loadAlert
  rw [firstChar_append _ _ (by decide)]
  rfl

theorem firstChar_memoryAlert (stats : ServerStats) :
    firstChar (memoryAlert stats) = some 'M' := by
  unfold memoryAlert
  rw [firstChar_append _ _ (append_data_ne_nil _ _ (by decide)), firstChar_append _ _ (by decide)]
  rfl

theorem firstChar_diskAlert (stats : ServerStats) : firstChar (diskAlert stats) = some 'F' := by
  unfold diskAlert
  rw [firstChar_append _ _ (append_data_ne_nil _ _ (by decide)), firstChar_append _ _ (by decide)]
  rfl

theorem firstChar_networkAlert (stats : ServerStats) :
    firstChar (networkAlert stats) = some 'N' := by
  unfold networkAlert
  rw [firstChar_append _ _ (append_data_ne_nil _ _ (by decide)), firstChar_append _ _ (by decide)]
  rfl

theorem alerts_distinct (s1 s2 s3 s4 : ServerStats) :
    loadAlert s1 ≠ memoryAlert s2 ∧ loadAlert s1 ≠ diskAlert s3 ∧ loadAlert s1 ≠ networkAlert s4 ∧
    memoryAlert s2 ≠ diskAlert s3 ∧ memoryAlert s2 ≠ networkAlert s4 ∧
    diskAlert s3 ≠ networkAlert s4 := by
  have hL := firstChar_loadAlert s1
  have hM := firstChar_memoryAlert s2
  have hF := firstChar_diskAlert s3
  have hN := firstChar_networkAlert s4
  refine ⟨?_, ?_, ?_, ?_, ?_, ?_⟩ <;> intro h <;> have h' := congrArg firstChar h <;>
    simp only [hL, hM, hF, hN] at h' <;> exact absurd h' (by decide)

theorem loadAlert_mem_iff (stats : ServerStats) :
    loadAlert stats ∈ checkThresholds stats ↔ loadRule stats = true := by
  obtain ⟨h1, h2, h3, -, -, -⟩ := alerts_distinct stats stats stats stats
  rw [checkThresholds_eq]
  by_cases a : loadRule stats = true <;> by_cases b : memoryRule stats = true <;>
    by_cases c : diskRule stats = true <;> by_cases d : networkRule stats = true <;>
    simp [a, b, c, d, h1, h2, h3]

theorem memoryAlert_mem_iff (stats : ServerStats) :
    memoryAlert stats ∈ checkThresholds stats ↔ memoryRule stats = true := by
  obtain ⟨h1, -, -, h4, h5, -⟩ := alerts_distinct stats stats stats stats
  rw [checkThresholds_eq]
  by_cases a : loadRule stats = true <;> by_cases b : memoryRule stats = true <;>
    by_cases c : diskRule stats = true <;> by_cases d : networkRule stats = true <;>
    simp [a, b, c, d, Ne.symm h1, h4, h5]

theorem diskAlert_mem_iff (stats : ServerStats) :
    diskAlert stats ∈ checkThresholds stats ↔ diskRule stats = true := by
  obtain ⟨-, h2, -, h4, -, h6⟩ := alerts_distinct stats stats stats stats
  rw [checkThresholds_eq]
  by_cases a : loadRule stats = true <;> by_cases b : memoryRule stats = true <;>
    by_cases c : diskRule stats = true <;> by_cases d : networkRule stats = true <;>
    simp [a, b, c, d, Ne.symm h2, Ne.symm h4, h6]

theorem networkAlert_mem_iff (stats : ServerStats) :
    networkAlert stats ∈ checkThresholds stats ↔ networkRule stats = true := by
  obtain ⟨-, -, h3, -, h5, h6⟩ := alerts_distinct stats stats stats stats
  rw [checkThresholds_eq]
  by_cases a : loadRule stats = true <;> by_cases b : memoryRule stats = true <;>
    by_cases c : diskRule stats = true <;> by_cases d : networkRule stats = true <;>
    simp [a, b, c, d, Ne.symm h3, Ne.symm h5, Ne.symm h6]

/-- C9. The lines `checkThresholds` prints are, in this order, the load,
memory, disk and network lines of the rules whose own condition holds: a
subsequence of the four lines in the fixed order, so at most four lines, each
at most once; and each of the four lines is printed exactly when its own rule
fires, whatever the other rules do. -/
theorem checkThresholds_order (stats : ServerStats) :
    checkThresholds stats =
      (if loadRule stats then [loadAlert stats] else []) ++
      (if memoryRule stats then [memoryAlert stats] else []) ++
      (if diskRule stats then [diskAlert stats] else []) ++
      (if networkRule stats then [networkAlert stats] else []) ∧
    List.Sublist (checkThresholds stats)
      [loadAlert stats, memoryAlert stats, diskAlert stats, networkAlert stats] ∧
    (checkThresholds stats).length ≤ 4 ∧
    [loadAlert stats, memoryAlert stats, diskAlert stats, networkAlert stats].Nodup ∧
    (loadAlert stats ∈ checkThresholds stats ↔ loadRule stats = true) ∧
    (memoryAlert stats ∈ checkThresholds stats ↔ memoryRule stats = true) ∧
    (diskAlert stats ∈ checkThresholds stats ↔ diskRule stats = true) ∧
    (networkAlert stats ∈ checkThresholds stats ↔ networkRule stats = true) := by
  have hsub : List.Sublist (checkThresholds stats)
      [loadAlert stats, memoryAlert stats, diskAlert stats, networkAlert stats] := by
    rw [checkThresholds_eq]
    by_cases a : loadRule stats = true <;> by_cases b : memoryRule stats = true <;>
      by_cases c : diskRule stats = true <;> by_cases d : networkRule stats = true <;>
      simp [a, b, c, d]
  obtain ⟨h1, h2, h3, h4, h5, h6⟩ := alerts_distinct stats stats stats stats
  refine ⟨checkThresholds_eq stats, hsub, ?_, ?_, loadAlert_mem_iff stats,
    memoryAlert_mem_iff stats, diskAlert_mem_iff stats, networkAlert_mem_iff stats⟩
  · have := hsub.length_le
    simpa using this
  · simp [h1, h2, h3, h4, h5, h6]

/-! ## The failure counter -/

theorem wrapInt_eq (intSize : Nat) (x : Int) (hs : 1 ≤ intSize)
    (hlo : -2 ^ (intSize - 1) ≤ x) (hhi : x < 2 ^ (intSize - 1)) : wrapInt intSize x = x := by
  unfold wrapInt
  have h2 : (2 : Int) ^ intSize = 2 * 2 ^ (intSize - 1) := by
    have : intSize = (intSize - 1) + 1 := by omega
    conv_lhs => rw [this, pow_succ]
    ring
  rw [h2]
  generalize (2 : Int) ^ (intSize - 1) = P at *
  rw [Int.emod_eq_of_lt (by omega) (by omega)]
  omega

theorem handleError_eq (intSize : Nat) (m : Monitor) (err : FetchError) (hs : 1 ≤ intSize)
    (hlo : -2 ^ (intSize - 1) ≤ m.errorCount) (hhi : m.errorCount < 2 ^ (intSize - 1) - 1) :
    handleError intSize m err =
      (⟨m.serverURL, m.errorCount + 1⟩,
        if m.errorCount + 1 ≥ 3 then ["Unable to fetch server statistic"] else []) := by
  unfold handleError
  simp only []
  rw [wrapInt_eq intSize _ hs (by omega) (by omega)]
  by_cases h : m.errorCount + 1 ≥ 3
  · rw [if_pos h, if_pos h]
  · rw [if_neg h, if_neg h]

theorem handleErrors_spec (intSize : Nat) (hs : 1 ≤ intSize) (errs : List FetchError)
    (m : Monitor) (hlo : 0 ≤ m.errorCount)
    (hhi : m.errorCount + errs.length < 2 ^ (intSize - 1)) :
    (handleErrors intSize m errs).1.errorCount = m.errorCount + errs.length ∧
    (handleErrors intSize m errs).2.length = errs.length ∧
    ∀ k, k < errs.length →
      (handleErrors intSize m errs).2.getD k [] =
        if m.errorCount + (k : Int) + 1 ≥ 3 then ["Unable to fetch server statistic"] else [] := by
  induction errs generalizing m with
  | nil =>
    refine ⟨by simp [handleErrors], by simp [handleErrors], fun k hk => ?_⟩
    simp at hk
  | cons e es ih =>
    have hP : (0 : Int) < 2 ^ (intSize - 1) := by positivity
    simp only [List.length_cons, Nat.cast_add, Nat.cast_one] at hhi
    have he := handleError_eq intSize m e hs (by omega) (by omega)
    have ih' := ih ⟨m.serverURL, m.errorCount + 1⟩ (by simp; omega) (by simp; omega)
    unfold handleErrors
    rw [he]
    simp only [] at ih' ⊢
    obtain ⟨h1, h2, h3⟩ := ih'
    refine ⟨?_, ?_, ?_⟩
    · rw [h1]
      simp only [List.length_cons, Nat.cast_add, Nat.cast_one]
      ring
    · simp [h2]
    · intro k hk
      cases k with
      | zero => simp
      | succ k =>
        simp only [List.length_cons] at hk
        have := h3 k (by omega)
        simp only [List.getD_cons_succ]
        rw [this]
        have e1 : m.errorCount + 1 + (k : Int) + 1 = m.errorCount + ((k + 1 : Nat) : Int) + 1 := by
          push_cast
          ring
        rw [e1]

/-- C10 (as amended). On a target whose `int` has `intSize` bits, for every
monitor state whose error count `c` is below the largest `int`,
`handleError` sets the count to `c + 1` and prints
`Unable to fetch server statistic` exactly when `c + 1 ≥ 3`. The alert is not
edge-triggered: from a new monitor (count 0), the `k`-th consecutive failure,
for `k` up to the largest `int`, prints the alert exactly when `k ≥ 3`. -/
theorem handleError_counts (intSize : Nat) (m : Monitor) (err : FetchError)
    (hs : intSize = 32 ∨ intSize = 64)
    (hlo : -2 ^ (intSize - 1) ≤ m.errorCount) (hhi : m.errorCount < 2 ^ (intSize - 1) - 1) :
    (handleError intSize m err).1.errorCount = m.errorCount + 1 ∧
    (handleError intSize m err).1.serverURL = m.serverURL ∧
    ((handleError intSize m err).2 =
      if m.errorCount + 1 ≥ 3 then ["Unable to fetch server statistic"] else []) ∧
    ("Unable to fetch server statistic" ∈ (handleError intSize m err).2 ↔
      m.errorCount + 1 ≥ 3) ∧
    (∀ (url : String) (errs : List FetchError), (errs.length : Int) < 2 ^ (intSize - 1) →
      (handleErrors intSize (NewMonitor url) errs).1.errorCount = errs.length ∧
      (handleErrors intSize (NewMonitor url) errs).2.length = errs.length ∧
      ∀ k, k < errs.length →
        (handleErrors intSize (NewMonitor url) errs).2.getD k [] =
          if k + 1 ≥ 3 then ["Unable to fetch server statistic"] else []) := by
  have hs1 : 1 ≤ intSize := by omega
  have he := handleError_eq intSize m err hs1 hlo hhi
  rw [he]
  refine ⟨rfl, rfl, rfl, ?_, ?_⟩
  · by_cases h : m.errorCount + 1 ≥ 3
    · simp [h]
    · simp [h]
  · intro url errs hlen
    have h := handleErrors_spec intSize hs1 errs (NewMonitor url) (by simp [NewMonitor])
      (by simpa [NewMonitor] using hlen)
    obtain ⟨h1, h2, h3⟩ := h
    refine ⟨by simpa [NewMonitor] using h1, h2, fun k hk => ?_⟩
    rw [h3 k hk]
    simp only [NewMonitor, zero_add]
    by_cases hk3 : k + 1 ≥ 3
    · rw [if_pos hk3, if_pos (by omega)]
    · rw [if_neg hk3, if_neg (by omega)]

theorem handleError_counts_witness :
    (handleError 64 ⟨"http://srv", 2⟩ (.fetch "timeout")).1.errorCount = 2 + 1 ∧
    ("Unable to fetch server statistic" ∈
      (handleError 64 ⟨"http://srv", 2⟩ (.fetch "timeout")).2 ↔ (2 : Int) + 1 ≥ 3) :=
  ⟨(handleError_counts 64 ⟨"http://srv", 2⟩ (.fetch "timeout") (Or.inr rfl)
      (by decide) (by decide)).1,
    (handleError_counts 64 ⟨"http://srv", 2⟩ (.fetch "timeout") (Or.inr rfl)
      (by decide) (by decide)).2.2.2.1⟩

/-- C10, the claim as stated fails at the largest `int`: on a 64-bit target,
from the error count `2^63 - 1` the increment wraps to `-2^63`, which is not
`c + 1`, and nothing is printed although `c + 1 ≥ 3`. -/
theorem handleError_wraps_at_max :
    (handleError 64 ⟨"http://srv", 9223372036854775807⟩ (.fetch "timeout")).1.errorCount
      = -9223372036854775808 ∧
    (handleError 64 ⟨"http://srv", 9223372036854775807⟩ (.fetch "timeout")).2 = [] ∧
    ¬ ((handleError 64 ⟨"http://srv", 9223372036854775807⟩ (.fetch "timeout")).1.errorCount
        = 9223372036854775807 + 1 ∧
      ("Unable to fetch server statistic" ∈
        (handleError 64 ⟨"http://srv", 9223372036854775807⟩ (.fetch "timeout")).2 ↔
          (9223372036854775807 : Int) + 1 ≥ 3)) := by
  decide

/-! ## The threshold rules -/

theorem gt_ofNat_iff_toRat (neg : Bool) (m : Nat) (e : Int) (thr : Nat) (hthr : thr < 2 ^ 53) :
    F64.gt (.fin neg m e) (F64.ofNat thr) = true ↔ (thr : ℚ) < (F64.fin neg m e).toRat := by
  have hV := ofNat_exact thr hthr
  cases neg with
  | false =>
    have hx : (F64.fin false m e).HasValue ((m : ℚ) * (2 : ℚ) ^ e) := ⟨m, e, rfl, rfl⟩
    rw [gt_hasValue hx hV]
    simp [F64.toRat]
  | true =>
    obtain ⟨m', e', hm', hv'⟩ := hV
    rw [hm']
    have hnonpos : (F64.fin true m e).toRat ≤ 0 := by
      simp only [F64.toRat, if_true]
      have : (0 : ℚ) ≤ (m : ℚ) * (2 : ℚ) ^ e := by positivity
      linarith
    have hthr0 : (0 : ℚ) ≤ (thr : ℚ) := by positivity
    constructor
    · intro h
      simp only [F64.gt, F64.lt, signedInt, Bool.false_eq_true, if_false, if_true,
        decide_eq_true_eq] at h
      have h1 : (0 : Int) ≤ ((m' * 2 ^ (e' - min e' e).toNat : Nat) : Int) := Int.natCast_nonneg _
      have h2 : (0 : Int) ≤ ((m * 2 ^ (e - min e' e).toNat : Nat) : Int) := Int.natCast_nonneg _
      omega
    · intro h
      linarith

theorem roundHalfEven_congr (n1 d1 n2 d2 : Nat) (hd1 : 0 < d1) (hd2 : 0 < d2)
    (h : (n1 : ℚ) / d1 = (n2 : ℚ) / d2) : roundHalfEven n1 d1 = roundHalfEven n2 d2 := by
  have h1 := roundHalfEven_spec n1 d1 hd1
  have h2 := roundHalfEven_spec n2 d2 hd2
  rw [h] at h1
  exact rhe_unique h1 h2

theorem fixed2_congr (n1 d1 n2 d2 : Nat) (hd1 : 0 < d1) (hd2 : 0 < d2)
    (h : (n1 : ℚ) / d1 = (n2 : ℚ) / d2) : fixed2 n1 d1 = fixed2 n2 d2 := by
  unfold fixed2
  have : roundHalfEven (n1 * 100) d1 = roundHalfEven (n2 * 100) d2 := by
    apply roundHalfEven_congr _ _ _ _ hd1 hd2
    push_cast
    rw [mul_div_right_comm, mul_div_right_comm, h]
  rw [this]

theorem fmtFixed2_hasValue (f : F64) (n d : Nat) (hd : 0 < d) (h : f.HasValue ((n : ℚ) / d)) :
    fmtFixed2 f = fixed2 n d := by
  obtain ⟨m, e, rfl, hv⟩ := h
  have hpos : 0 < 2 ^ (-e).toNat := by positivity
  have hc := fixed2_congr (m * 2 ^ e.toNat) (2 ^ (-e).toNat) n d hpos hd (by
    push_cast
    rw [mul_div_assoc, ← two_zpow_toNat]
    exact hv)
  simp only [fmtFixed2, Bool.false_eq_true, if_false, hc]
  exact String.empty_append _

theorem subUint64_eq (a b : Nat) (hb : b ≤ a) (ha : a < 2 ^ 64) : subUint64 a b = a - b := by
  unfold subUint64
  have : a + 2 ^ 64 - b = (a - b) + 2 ^ 64 := by omega
  rw [this, Nat.add_mod_right, Nat.mod_eq_of_lt (by omega)]

theorem freeSpaceMB_exact (stats : ServerStats) (hle : stats.UsedDisk ≤ stats.TotalDisk)
    (ht : stats.TotalDisk ≤ 2 ^ 50) :
    (freeSpaceMB stats).HasValue
      (((stats.TotalDisk - stats.UsedDisk : Nat) : ℚ) / ((1024 * 1024 : Nat) : ℚ)) := by
  unfold freeSpaceMB
  rw [subUint64_eq _ _ hle (lt_of_le_of_lt ht (by norm_num))]
  generalize hw : stats.TotalDisk - stats.UsedDisk = w
  have hw53 : w < 2 ^ 53 := by omega
  have hW := ofNat_exact w hw53
  have hK := ofNat_exact 1024 (by norm_num)
  have hwq : (w : ℚ) < ((2 ^ 53 : Nat) : ℚ) := by exact_mod_cast hw53
  have hw0 : (0 : ℚ) ≤ (w : ℚ) := by positivity
  have h53 := two_pow_lt_huge 53 (by norm_num)
  have h1 := div_hasValue hW hK (by norm_num) (by
    have : (w : ℚ) / ((1024 : Nat) : ℚ) ≤ (w : ℚ) := by
      rw [div_le_iff₀ (by norm_num)]
      push_cast
      linarith
    linarith)
  rw [roundQ_exact _ w (-10) hw53 (by norm_num) (by
    rw [zpow_neg]
    norm_num
    ring)] at h1
  have h2 := div_hasValue h1 hK (by norm_num) (by
    have : (w : ℚ) / ((1024 : Nat) : ℚ) / ((1024 : Nat) : ℚ) ≤ (w : ℚ) := by
      rw [div_div, div_le_iff₀ (by norm_num)]
      push_cast
      linarith
    linarith)
  rw [roundQ_exact _ w (-20) hw53 (by norm_num) (by
    rw [zpow_neg, div_div]
    norm_num
    ring)] at h2
  have e : (w : ℚ) / ((1024 : Nat) : ℚ) / ((1024 : Nat) : ℚ) = (w : ℚ) / ((1024 * 1024 : Nat) : ℚ) := by
    rw [div_div]
    push_cast
    norm_num
  rw [e] at h2
  exact h2

theorem memoryRule_iff (stats : ServerStats) :
    memoryRule stats = true ↔ stats.TotalMemory > 0 ∧
      F64.gt (usagePercent stats.UsedMemory stats.TotalMemory) (F64.ofNat 80) = true := by
  simp [memoryRule]

theorem diskRule_iff (stats : ServerStats) :
    diskRule stats = true ↔ stats.TotalDisk > 0 ∧
      F64.gt (usagePercent stats.UsedDisk stats.TotalDisk) (F64.ofNat 90) = true := by
  simp [diskRule]

theorem networkRule_iff (stats : ServerStats) :
    networkRule stats = true ↔ stats.NetworkBandwidth > 0 ∧
      F64.gt (usagePercent stats.NetworkUsage stats.NetworkBandwidth) (F64.ofNat 90) = true := by
  simp [networkRule]

set_option maxRecDepth 100000 in
/-- C5. `checkThresholds` prints the load line `Load Average is too high: X`,
with `X` the `%.2f` text of the load average, exactly when the float64
comparison `LoadAverage > 30` holds: for a finite load average, exactly when
its value is greater than 30; for `+Inf` always; for `-Inf` and NaN never. The
comparison is strict: the load average 30 (the payload field `30`) prints
nothing and 30.01 (the field `30.01`) prints
`Load Average is too high: 30.01`. -/
theorem load_alert_iff (stats : ServerStats) :
    (loadAlert stats ∈ checkThresholds stats ↔
      F64.gt stats.LoadAverage (F64.ofNat 30) = true) ∧
    (∀ neg m e, stats.LoadAverage = .fin neg m e →
      (loadAlert stats ∈ checkThresholds stats ↔ (30 : ℚ) < stats.LoadAverage.toRat)) ∧
    (stats.LoadAverage = .inf false → loadAlert stats ∈ checkThresholds stats) ∧
    (stats.LoadAverage = .inf true ∨ stats.LoadAverage = .nan →
      loadAlert stats ∉ checkThresholds stats) ∧
    loadAlert stats = "Load Average is too high: " ++ fmtFixed2 stats.LoadAverage ∧
    strconv.ParseFloat "30" = .ok (F64.ofNat 30) ∧
    checkThresholds ⟨F64.ofNat 30, 0, 0, 0, 0, 0, 0⟩ = [] ∧
    strconv.ParseFloat "30.01" = .ok (.fin false 8447064051086787 (-48)) ∧
    checkThresholds ⟨.fin false 8447064051086787 (-48), 0, 0, 0, 0, 0, 0⟩
      = ["Load Average is too high: 30.01"] := by
  have hmem := loadAlert_mem_iff stats
  unfold loadRule at hmem
  refine ⟨hmem, ?_, ?_, ?_, rfl, by decide, by decide, by decide, by decide⟩
  · intro neg m e hfin
    rw [hmem, hfin]
    have := gt_ofNat_iff_toRat neg m e 30 (by norm_num)
    simpa using this
  · intro hinf
    rw [hmem, hinf]
    decide
  · intro h
    rw [hmem]
    rcases h with h | h <;> rw [h] <;> decide

/-- C6 (as amended). For `uint64` values `usedMemory` and `totalMemory`,
`checkThresholds` prints the memory line `Memory usage too high: P%` exactly
when `totalMemory > 0` and the float64 value
`P = float64(usedMemory) / float64(totalMemory) * 100` is greater than 80.
When `totalMemory ≤ 2^50` this is exactly `usedMemory * 100 > 80 * totalMemory`
in exact arithmetic. With `totalMemory = 0` no memory line is printed whatever
`usedMemory` is, and 80 of 100 prints none. -/
theorem memory_alert_iff (stats : ServerStats)
    (hu : stats.UsedMemory < 2 ^ 64) (ht : stats.TotalMemory < 2 ^ 64) :
    (memoryAlert stats ∈ checkThresholds stats ↔
      stats.TotalMemory > 0 ∧
        F64.gt (usagePercent stats.UsedMemory stats.TotalMemory) (F64.ofNat 80) = true) ∧
    (stats.TotalMemory ≤ 2 ^ 50 →
      (memoryAlert stats ∈ checkThresholds stats ↔
        stats.TotalMemory > 0 ∧ stats.UsedMemory * 100 > 80 * stats.TotalMemory)) ∧
    (stats.TotalMemory = 0 → memoryAlert stats ∉ checkThresholds stats) ∧
    (stats.TotalMemory = 100 → stats.UsedMemory = 80 →
      memoryAlert stats ∉ checkThresholds stats) ∧
    memoryAlert stats = "Memory usage too high: " ++
      fmtFixed2 (usagePercent stats.UsedMemory stats.TotalMemory) ++ "%" := by
  have hmem := (memoryAlert_mem_iff stats).trans (memoryRule_iff stats)
  have _ := ht
  have hexact : stats.TotalMemory ≤ 2 ^ 50 →
      (memoryAlert stats ∈ checkThresholds stats ↔
        stats.TotalMemory > 0 ∧ stats.UsedMemory * 100 > 80 * stats.TotalMemory) := by
    intro h50
    rw [hmem]
    constructor
    · rintro ⟨hpos, hgt⟩
      have := (usage_gt_80_iff _ _ (by omega) hpos h50).mp hgt
      exact ⟨hpos, by omega⟩
    · rintro ⟨hpos, hgt⟩
      exact ⟨hpos, (usage_gt_80_iff _ _ (by omega) hpos h50).mpr (by omega)⟩
  refine ⟨hmem, hexact, ?_, ?_, rfl⟩
  · intro h0
    rw [hmem]
    omega
  · intro h100 h80
    rw [hexact (by omega)]
    omega

theorem memory_alert_iff_witness :
    (900 : Nat) < 2 ^ 64 ∧ (1000 : Nat) < 2 ^ 64 ∧
    (memoryAlert ⟨F64.ofNat 1, 1000, 900, 0, 0, 0, 0⟩ ∈
        checkThresholds ⟨F64.ofNat 1, 1000, 900, 0, 0, 0, 0⟩ ↔
      (1000 : Nat) > 0 ∧ (900 : Nat) * 100 > 80 * 1000) :=
  ⟨by decide, by decide,
    (memory_alert_iff ⟨F64.ofNat 1, 1000, 900, 0, 0, 0, 0⟩ (by decide) (by decide)).2.1
      (by decide)⟩

set_option maxRecDepth 100000 in
/-- C6, the claim as stated fails: with `usedMemory = 3200000000000001` and
`totalMemory = 4000000000000001` the exact percentage is above 80
(`usedMemory * 100 > 80 * totalMemory`) but the float64 percentage is exactly
80 and nothing is printed; and with `usedMemory = 36029338740803196`,
`totalMemory = 45036673426003995` the usage is exactly 80% but the memory
line is printed. -/
theorem memory_alert_not_exact :
    ¬ (memoryAlert ⟨F64.ofNat 1, 4000000000000001, 3200000000000001, 0, 0, 0, 0⟩ ∈
        checkThresholds ⟨F64.ofNat 1, 4000000000000001, 3200000000000001, 0, 0, 0, 0⟩ ↔
      (4000000000000001 : Nat) > 0 ∧
        (3200000000000001 : Nat) * 100 > 80 * 4000000000000001) ∧
    ¬ (memoryAlert ⟨F64.ofNat 1, 45036673426003995, 36029338740803196, 0, 0, 0, 0⟩ ∈
        checkThresholds ⟨F64.ofNat 1, 45036673426003995, 36029338740803196, 0, 0, 0, 0⟩ ↔
      (45036673426003995 : Nat) > 0 ∧
        (36029338740803196 : Nat) * 100 > 80 * 45036673426003995) := by
  constructor
  · have h : checkThresholds ⟨F64.ofNat 1, 4000000000000001, 3200000000000001, 0, 0, 0, 0⟩
        = [] := by decide
    rw [h]
    simp
  · have h : checkThresholds ⟨F64.ofNat 1, 45036673426003995, 36029338740803196, 0, 0, 0, 0⟩
        = [memoryAlert ⟨F64.ofNat 1, 45036673426003995, 36029338740803196, 0, 0, 0, 0⟩] := by
      decide
    rw [h]
    simp

/-- C7 (as amended). For `uint64` values `usedDisk` and `totalDisk`,
`checkThresholds` prints the disk line `Free disk space is too low: F Mb left`
exactly when `totalDisk > 0` and the float64 value
`float64(usedDisk) / float64(totalDisk) * 100` is greater than 90. When
`totalDisk ≤ 2^50` this is exactly `usedDisk * 100 > 90 * totalDisk`, so there
exactly 90% prints nothing; `totalDisk = 0` prints nothing. When
`usedDisk ≤ totalDisk`, `F` is the `%.2f` text of the float64 value
`float64(totalDisk - usedDisk) / 1024 / 1024`, which for `totalDisk ≤ 2^50` is
`(totalDisk - usedDisk) / (1024 * 1024)` rounded to two decimals, ties to
even. -/
theorem disk_alert_iff (stats : ServerStats)
    (hu : stats.UsedDisk < 2 ^ 64) (ht : stats.TotalDisk < 2 ^ 64) :
    (diskAlert stats ∈ checkThresholds stats ↔
      stats.TotalDisk > 0 ∧
        F64.gt (usagePercent stats.UsedDisk stats.TotalDisk) (F64.ofNat 90) = true) ∧
    (stats.TotalDisk ≤ 2 ^ 50 →
      (diskAlert stats ∈ checkThresholds stats ↔
        stats.TotalDisk > 0 ∧ stats.UsedDisk * 100 > 90 * stats.TotalDisk)) ∧
    (stats.TotalDisk = 0 → diskAlert stats ∉ checkThresholds stats) ∧
    (stats.TotalDisk = 100 → stats.UsedDisk = 90 → diskAlert stats ∉ checkThresholds stats) ∧
    (stats.UsedDisk ≤ stats.TotalDisk →
      diskAlert stats = "Free disk space is too low: " ++
        fmtFixed2 (F64.div (F64.div (F64.ofNat (stats.TotalDisk - stats.UsedDisk))
          (F64.ofNat 1024)) (F64.ofNat 1024)) ++ " Mb left") ∧
    (stats.UsedDisk ≤ stats.TotalDisk → stats.TotalDisk ≤ 2 ^ 50 →
      diskAlert stats = "Free disk space is too low: " ++
        fixed2 (stats.TotalDisk - stats.UsedDisk) (1024 * 1024) ++ " Mb left") := by
  have hmem := (diskAlert_mem_iff stats).trans (diskRule_iff stats)
  have hexact : stats.TotalDisk ≤ 2 ^ 50 →
      (diskAlert stats ∈ checkThresholds stats ↔
        stats.TotalDisk > 0 ∧ stats.UsedDisk * 100 > 90 * stats.TotalDisk) := by
    intro h50
    rw [hmem]
    constructor
    · rintro ⟨hpos, hgt⟩
      have := (usage_gt_90_iff _ _ (by omega) hpos h50).mp hgt
      exact ⟨hpos, by omega⟩
    · rintro ⟨hpos, hgt⟩
      exact ⟨hpos, (usage_gt_90_iff _ _ (by omega) hpos h50).mpr (by omega)⟩
  refine ⟨hmem, hexact, ?_, ?_, ?_, ?_⟩
  · intro h0
    rw [hmem]
    omega
  · intro h100 h90
    rw [hexact (by omega)]
    omega
  · intro hle
    unfold diskAlert freeSpaceMB
    rw [subUint64_eq _ _ hle ht]
  · intro hle h50
    unfold diskAlert
    rw [fmtFixed2_hasValue _ _ _ (by norm_num) (freeSpaceMB_exact stats hle h50)]

theorem disk_alert_iff_witness :
    (4900 : Nat) < 2 ^ 64 ∧ (5000 : Nat) < 2 ^ 64 ∧
    (diskAlert ⟨F64.ofNat 1, 0, 0, 5000, 4900, 0, 0⟩ ∈
        checkThresholds ⟨F64.ofNat 1, 0, 0, 5000, 4900, 0, 0⟩ ↔
      (5000 : Nat) > 0 ∧ (4900 : Nat) * 100 > 90 * 5000) :=
  ⟨by decide, by decide,
    (disk_alert_iff ⟨F64.ofNat 1, 0, 0, 5000, 4900, 0, 0⟩ (by decide) (by decide)).2.1
      (by decide)⟩

set_option maxRecDepth 100000 in
/-- C7, the claim as stated fails: with `usedDisk = 9008523939597075` and
`totalDisk = 10009471043996750` the usage is exactly 90%
(`usedDisk * 10 = 9 * totalDisk`) but the disk line is printed; and with
`usedDisk = 3600000000000001`, `totalDisk = 4000000000000001` the usage is
above 90% but nothing is printed. -/
theorem disk_alert_not_exact :
    (9008523939597075 : Nat) * 10 = 9 * 10009471043996750 ∧
    ¬ (diskAlert ⟨F64.ofNat 1, 0, 0, 10009471043996750, 9008523939597075, 0, 0⟩ ∈
        checkThresholds ⟨F64.ofNat 1, 0, 0, 10009471043996750, 9008523939597075, 0, 0⟩ ↔
      (10009471043996750 : Nat) > 0 ∧
        (9008523939597075 : Nat) * 100 > 90 * 10009471043996750) ∧
    ¬ (diskAlert ⟨F64.ofNat 1, 0, 0, 4000000000000001, 3600000000000001, 0, 0⟩ ∈
        checkThresholds ⟨F64.ofNat 1, 0, 0, 4000000000000001, 3600000000000001, 0, 0⟩ ↔
      (4000000000000001 : Nat) > 0 ∧
        (3600000000000001 : Nat) * 100 > 90 * 4000000000000001) := by
  refine ⟨by decide, ?_, ?_⟩
  · have h : checkThresholds ⟨F64.ofNat 1, 0, 0, 10009471043996750, 9008523939597075, 0, 0⟩
        = [diskAlert ⟨F64.ofNat 1, 0, 0, 10009471043996750, 9008523939597075, 0, 0⟩] := by
      decide
    rw [h]
    simp
  · have h : checkThresholds ⟨F64.ofNat 1, 0, 0, 4000000000000001, 3600000000000001, 0, 0⟩
        = [] := by decide
    rw [h]
    simp

/-- C8 (as amended). For `uint64` values `networkUsage` and
`networkBandwidth`, `checkThresholds` prints the network line
`Network bandwidth usage high: A Mbit/s available` exactly when
`networkBandwidth > 0` and the float64 value
`float64(networkUsage) / float64(networkBandwidth) * 100` is greater than 90.
When `networkBandwidth ≤ 2^50` this is exactly
`networkUsage * 100 > 90 * networkBandwidth`, so there exactly 90% prints
nothing; `networkBandwidth = 0` prints nothing. When
`networkUsage ≤ networkBandwidth`, `A` is the `%.2f` text of the float64 value
`float64(networkBandwidth - networkUsage) * 8 / 1000000`. -/
theorem network_alert_iff (stats : ServerStats)
    (hu : stats.NetworkUsage < 2 ^ 64) (ht : stats.NetworkBandwidth < 2 ^ 64) :
    (networkAlert stats ∈ checkThresholds stats ↔
      stats.NetworkBandwidth > 0 ∧
        F64.gt (usagePercent stats.NetworkUsage stats.NetworkBandwidth) (F64.ofNat 90) = true) ∧
    (stats.NetworkBandwidth ≤ 2 ^ 50 →
      (networkAlert stats ∈ checkThresholds stats ↔
        stats.NetworkBandwidth > 0 ∧
          stats.NetworkUsage * 100 > 90 * stats.NetworkBandwidth)) ∧
    (stats.NetworkBandwidth = 0 → networkAlert stats ∉ checkThresholds stats) ∧
    (stats.NetworkBandwidth = 100 → stats.NetworkUsage = 90 →
      networkAlert stats ∉ checkThresholds stats) ∧
    (stats.NetworkUsage ≤ stats.NetworkBandwidth →
      networkAlert stats = "Network bandwidth usage high: " ++
        fmtFixed2 (F64.div (F64.mul (F64.ofNat (stats.NetworkBandwidth - stats.NetworkUsage))
          (F64.ofNat 8)) (F64.ofNat 1000000)) ++ " Mbit/s available") := by
  have hmem := (networkAlert_mem_iff stats).trans (networkRule_iff stats)
  have hexact : stats.NetworkBandwidth ≤ 2 ^ 50 →
      (networkAlert stats ∈ checkThresholds stats ↔
        stats.NetworkBandwidth > 0 ∧
          stats.NetworkUsage * 100 > 90 * stats.NetworkBandwidth) := by
    intro h50
    rw [hmem]
    constructor
    · rintro ⟨hpos, hgt⟩
      have := (usage_gt_90_iff _ _ (by omega) hpos h50).mp hgt
      exact ⟨hpos, by omega⟩
    · rintro ⟨hpos, hgt⟩
      exact ⟨hpos, (usage_gt_90_iff _ _ (by omega) hpos h50).mpr (by omega)⟩
  refine ⟨hmem, hexact, ?_, ?_, ?_⟩
  · intro h0
    rw [hmem]
    omega
  · intro h100 h90
    rw [hexact (by omega)]
    omega
  · intro hle
    unfold networkAlert availableBandwidthMbit
    rw [subUint64_eq _ _ hle ht]

theorem network_alert_iff_witness :
    (95000 : Nat) < 2 ^ 64 ∧ (100000 : Nat) < 2 ^ 64 ∧
    (networkAlert ⟨F64.ofNat 1, 0, 0, 0, 0, 100000, 95000⟩ ∈
        checkThresholds ⟨F64.ofNat 1, 0, 0, 0, 0, 100000, 95000⟩ ↔
      (100000 : Nat) > 0 ∧ (95000 : Nat) * 100 > 90 * 100000) :=
  ⟨by decide, by decide,
    (network_alert_iff ⟨F64.ofNat 1, 0, 0, 0, 0, 100000, 95000⟩ (by decide) (by decide)).2.1
      (by decide)⟩

set_option maxRecDepth 100000 in
/-- C8, the claim as stated fails: with `networkUsage = 9008523939597075` and
`networkBandwidth = 10009471043996750` the usage is exactly 90%
(`networkUsage * 10 = 9 * networkBandwidth`) but the network line is printed;
and with `networkUsage = 3600000000000001`,
`networkBandwidth = 4000000000000001` the usage is above 90% but nothing is
printed. -/
theorem network_alert_not_exact :
    (9008523939597075 : Nat) * 10 = 9 * 10009471043996750 ∧
    ¬ (networkAlert ⟨F64.ofNat 1, 0, 0, 0, 0, 10009471043996750, 9008523939597075⟩ ∈
        checkThresholds ⟨F64.ofNat 1, 0, 0, 0, 0, 10009471043996750, 9008523939597075⟩ ↔
      (10009471043996750 : Nat) > 0 ∧
        (9008523939597075 : Nat) * 100 > 90 * 10009471043996750) ∧
    ¬ (networkAlert ⟨F64.ofNat 1, 0, 0, 0, 0, 4000000000000001, 3600000000000001⟩ ∈
        checkThresholds ⟨F64.ofNat 1, 0, 0, 0, 0, 4000000000000001, 3600000000000001⟩ ↔
      (4000000000000001 : Nat) > 0 ∧
        (3600000000000001 : Nat) * 100 > 90 * 4000000000000001) := by
  refine ⟨by decide, ?_, ?_⟩
  · have h : checkThresholds ⟨F64.ofNat 1, 0, 0, 0, 0, 10009471043996750, 9008523939597075⟩
        = [networkAlert ⟨F64.ofNat 1, 0, 0, 0, 0, 10009471043996750, 9008523939597075⟩] := by
      decide
    rw [h]
    simp
  · have h : checkThresholds ⟨F64.ofNat 1, 0, 0, 0, 0, 4000000000000001, 3600000000000001⟩
        = [] := by decide
    rw [h]
    simp

/-! ## The poll cycle -/

theorem unreachable_not_mem (stats : ServerStats) :
    "Unable to fetch server statistic" ∉ checkThresholds stats := by
  have hU : firstChar "Unable to fetch server statistic" = some 'U' := rfl
  have hL := firstChar_loadAlert stats
  have hM := firstChar_memoryAlert stats
  have hF := firstChar_diskAlert stats
  have hN := firstChar_networkAlert stats
  have h1 : "Unable to fetch server statistic" ≠ loadAlert stats := by
    intro h
    have h' := congrArg firstChar h
    rw [hU, hL] at h'
    exact absurd h' (by decide)
  have h2 : "Unable to fetch server statistic" ≠ memoryAlert stats := by
    intro h
    have h' := congrArg firstChar h
    rw [hU, hM] at h'
    exact absurd h' (by decide)
  have h3 : "Unable to fetch server statistic" ≠ diskAlert stats := by
    intro h
    have h' := congrArg firstChar h
    rw [hU, hF] at h'
    exact absurd h' (by decide)
  have h4 : "Unable to fetch server statistic" ≠ networkAlert stats := by
    intro h
    have h' := congrArg firstChar h
    rw [hU, hN] at h'
    exact absurd h' (by decide)
  rw [checkThresholds_eq]
  by_cases a : loadRule stats = true <;> by_cases b : memoryRule stats = true <;>
    by_cases c : diskRule stats = true <;> by_cases d : networkRule stats = true <;>
    simp [a, b, c, d, h1, h2, h3, h4]

theorem CheckStats_of_ok (intSize : Nat) (m : Monitor) (reply : HTTPReply) (stats : ServerStats)
    (h : fetchStats reply = .ok stats) :
    CheckStats intSize m reply = (⟨m.serverURL, 0⟩, checkThresholds stats) := by
  unfold CheckStats
  rw [h]

theorem CheckStats_of_error (intSize : Nat) (m : Monitor) (reply : HTTPReply) (err : FetchError)
    (h : fetchStats reply = .error err) :
    CheckStats intSize m reply = handleError intSize m err := by
  unfold CheckStats
  rw [h]

theorem handleError_irrelevant (intSize : Nat) (m : Monitor) (e1 e2 : FetchError) :
    handleError intSize m e1 = handleError intSize m e2 := rfl

theorem handleError_lines (intSize : Nat) (m : Monitor) (err : FetchError) :
    ∀ line ∈ (handleError intSize m err).2, line = "Unable to fetch server statistic" := by
  intro line hl
  unfold handleError at hl
  simp only [] at hl
  split at hl
  · simpa using hl
  · simp at hl

theorem fetchStats_payload (Status text : String) :
    fetchStats (.response 200 Status (.ok text)) =
      (match parseStats text with
      | .error err => .error (.parse err)
      | .ok stats => .ok stats) := by
  rcases h : parseStats text with e | v <;> simp [fetchStats, h]

theorem cycleFails_iff (reply : HTTPReply) :
    cycleFails reply = true ↔ ∃ err, fetchStats reply = .error err := by
  unfold cycleFails
  rcases h : fetchStats reply with e | v
  · simp [Except.toBool]
  · simp [Except.toBool]

set_option maxRecDepth 100000 in
/-- C13. For every starting error count and every fetched payload (status
200, body read) that parses to a record `stats`, `CheckStats` sets the error
count to 0 and prints exactly the lines of `checkThresholds stats`, in rule
order; the line `Unable to fetch server statistic` is not among them. The
payload `35,1000,900,5000,4900,100000,95000` prints exactly four lines: load
35.00, memory 90.00%, disk (0.00 Mb left), network (0.04 Mbit/s available). -/
theorem CheckStats_success (intSize : Nat) (m : Monitor) (Status text : String)
    (stats : ServerStats) (h : parseStats text = .ok stats) :
    CheckStats intSize m (.response 200 Status (.ok text))
      = (⟨m.serverURL, 0⟩, checkThresholds stats) ∧
    (CheckStats intSize m (.response 200 Status (.ok text))).1.errorCount = 0 ∧
    "Unable to fetch server statistic" ∉
      (CheckStats intSize m (.response 200 Status (.ok text))).2 ∧
    CheckStats intSize m (.response 200 Status (.ok "35,1000,900,5000,4900,100000,95000"))
      = (⟨m.serverURL, 0⟩,
        ["Load Average is too high: 35.00",
         "Memory usage too high: 90.00%",
         "Free disk space is too low: 0.00 Mb left",
         "Network bandwidth usage high: 0.04 Mbit/s available"]) ∧
    usagePercent 4900 5000 = F64.ofNat 98 ∧ usagePercent 95000 100000 = F64.ofNat 95 := by
  have hf : fetchStats (.response 200 Status (.ok text)) = .ok stats := by
    rw [fetchStats_payload, h]
  have hc := CheckStats_of_ok intSize m _ stats hf
  refine ⟨hc, by rw [hc], by rw [hc]; exact unreachable_not_mem stats, ?_, by decide, by decide⟩
  have hp : parseStats "35,1000,900,5000,4900,100000,95000"
      = .ok ⟨.fin false 4925812092436480 (-47), 1000, 900, 5000, 4900, 100000, 95000⟩ := by
    decide
  have hf2 : fetchStats (.response 200 Status (.ok "35,1000,900,5000,4900,100000,95000"))
      = .ok ⟨.fin false 4925812092436480 (-47), 1000, 900, 5000, 4900, 100000, 95000⟩ := by
    rw [fetchStats_payload, hp]
  rw [CheckStats_of_ok intSize m _ _ hf2]
  have hk : checkThresholds ⟨.fin false 4925812092436480 (-47), 1000, 900, 5000, 4900,
      100000, 95000⟩ =
      ["Load Average is too high: 35.00",
       "Memory usage too high: 90.00%",
       "Free disk space is too low: 0.00 Mb left",
       "Network bandwidth usage high: 0.04 Mbit/s available"] := by decide
  rw [hk]

set_option maxRecDepth 100000 in
theorem CheckStats_success_witness :
    parseStats "35,1000,900,5000,4900,100000,95000"
      = .ok ⟨.fin false 4925812092436480 (-47), 1000, 900, 5000, 4900, 100000, 95000⟩ ∧
    CheckStats 64 ⟨"http://srv", 2⟩
        (.response 200 "200 OK" (.ok "35,1000,900,5000,4900,100000,95000"))
      = (⟨"http://srv", 0⟩,
        checkThresholds
          ⟨.fin false 4925812092436480 (-47), 1000, 900, 5000, 4900, 100000, 95000⟩) :=
  ⟨by decide,
    (CheckStats_success 64 ⟨"http://srv", 2⟩ "200 OK" "35,1000,900,5000,4900,100000,95000"
      ⟨.fin false 4925812092436480 (-47), 1000, 900, 5000, 4900, 100000, 95000⟩
      (by decide)).1⟩

/-- C12 (as amended). A cycle whose fetch succeeds but whose payload does not
parse is indistinguishable from any cycle whose fetch fails: for every
starting state, `CheckStats` gives the same new state and the same output,
that of `handleError`. The only line that can be printed is
`Unable to fetch server statistic` (no threshold line, no text of the parse
or fetch error), and the error count is not reset: when the old count `c` is
below the largest `int`, the new count is `c + 1` and the line is printed
exactly when `c + 1 ≥ 3`. -/
theorem CheckStats_parse_failure (intSize : Nat) (m : Monitor) (Status text : String)
    (e : ParseError) (h : parseStats text = .error e) :
    (∀ reply, cycleFails reply = true →
      CheckStats intSize m (.response 200 Status (.ok text)) = CheckStats intSize m reply) ∧
    (∀ err, CheckStats intSize m (.response 200 Status (.ok text))
      = handleError intSize m err) ∧
    (∀ line ∈ (CheckStats intSize m (.response 200 Status (.ok text))).2,
      line = "Unable to fetch server statistic") ∧
    ((intSize = 32 ∨ intSize = 64) → -2 ^ (intSize - 1) ≤ m.errorCount →
      m.errorCount < 2 ^ (intSize - 1) - 1 →
      CheckStats intSize m (.response 200 Status (.ok text)) =
        (⟨m.serverURL, m.errorCount + 1⟩,
          if m.errorCount + 1 ≥ 3 then ["Unable to fetch server statistic"] else [])) := by
  have hf : fetchStats (.response 200 Status (.ok text)) = .error (.parse e) := by
    rw [fetchStats_payload, h]
  have hc := CheckStats_of_error intSize m _ _ hf
  refine ⟨?_, ?_, ?_, ?_⟩
  · intro reply hr
    obtain ⟨err, herr⟩ := (cycleFails_iff reply).mp hr
    rw [hc, CheckStats_of_error intSize m _ _ herr]
    rfl
  · intro err
    rw [hc]
    rfl
  · rw [hc]
    exact handleError_lines intSize m _
  · intro hs hlo hhi
    rw [hc]
    exact handleError_eq intSize m _ (by omega) hlo hhi

theorem CheckStats_parse_failure_witness :
    parseStats "1,2,3" = .error (.format 3) ∧
    CheckStats 64 ⟨"http://srv", 2⟩ (.response 200 "200 OK" (.ok "1,2,3"))
      = CheckStats 64 ⟨"http://srv", 2⟩ (.failed "timeout") :=
  ⟨by decide,
    (CheckStats_parse_failure 64 ⟨"http://srv", 2⟩ "200 OK" "1,2,3" (.format 3)
      (by decide)).1 (.failed "timeout") (by decide)⟩

/-- C12, the claim as stated fails at the largest `int`: on a 64-bit target,
from the error count `2^63 - 1` a cycle whose payload does not parse leaves
the count `-2^63`, not the old count plus one. -/
theorem CheckStats_parse_failure_wraps :
    (CheckStats 64 ⟨"http://srv", 9223372036854775807⟩
        (.response 200 "200 OK" (.ok "1,2,3"))).1.errorCount = -9223372036854775808 ∧
    ¬ ((CheckStats 64 ⟨"http://srv", 9223372036854775807⟩
        (.response 200 "200 OK" (.ok "1,2,3"))).1.errorCount = 9223372036854775807 + 1) := by
  decide

theorem runCycles_append (intSize : Nat) (m : Monitor) (rs : List HTTPReply) (r : HTTPReply) :
    runCycles intSize m (rs ++ [r]) =
      ((CheckStats intSize (runCycles intSize m rs).1 r).1,
        (runCycles intSize m rs).2 ++ [(CheckStats intSize (runCycles intSize m rs).1 r).2]) := by
  induction rs generalizing m with
  | nil => simp [runCycles]
  | cons a rs ih =>
    simp [runCycles, ih]

theorem runCycles_length (intSize : Nat) (m : Monitor) (rs : List HTTPReply) :
    (runCycles intSize m rs).2.length = rs.length := by
  induction rs generalizing m with
  | nil => simp [runCycles]
  | cons a rs ih => simp [runCycles, ih]

theorem failStreak_append (rs : List HTTPReply) (r : HTTPReply) :
    failStreak (rs ++ [r]) = if cycleFails r = true then failStreak rs + 1 else 0 := by
  unfold failStreak
  rw [List.reverse_append, List.reverse_singleton, List.singleton_append, List.takeWhile_cons]
  by_cases h : cycleFails r = true
  · simp [h]
  · simp [h]

theorem failStreak_le (rs : List HTTPReply) : failStreak rs ≤ rs.length := by
  unfold failStreak
  have := (List.takeWhile_sublist cycleFails (l := rs.reverse)).length_le
  simpa using this

theorem runCycles_spec (intSize : Nat) (hs : 1 ≤ intSize) (url : String)
    (replies : List HTTPReply) (hlen : (replies.length : Int) < 2 ^ (intSize - 1)) :
    (runCycles intSize (NewMonitor url) replies).1 = ⟨url, (failStreak replies : Int)⟩ ∧
    ∀ k r, replies[k]? = some r →
      ("Unable to fetch server statistic" ∈
          (runCycles intSize (NewMonitor url) replies).2.getD k [] ↔
        cycleFails r = true ∧ 3 ≤ failStreak (replies.take (k + 1))) := by
  induction replies using List.reverseRecOn with
  | nil =>
    refine ⟨by simp [runCycles, NewMonitor, failStreak], fun k r hk => ?_⟩
    simp at hk
  | append_singleton rs r0 ih =>
    have hlen' : (rs.length : Int) + 1 < 2 ^ (intSize - 1) := by
      simpa using hlen
    obtain ⟨ih1, ih2⟩ := ih (by omega)
    have hstreak := failStreak_le rs
    have hstreakI : ((failStreak rs : Nat) : Int) ≤ (rs.length : Int) := by exact_mod_cast hstreak
    have hP : (0 : Int) < 2 ^ (intSize - 1) := by positivity
    rw [runCycles_append, ih1, failStreak_append]
    have hstep : CheckStats intSize ⟨url, (failStreak rs : Int)⟩ r0 =
        (⟨url, ((if cycleFails r0 = true then failStreak rs + 1 else 0 : Nat) : Int)⟩,
          (CheckStats intSize ⟨url, (failStreak rs : Int)⟩ r0).2) ∧
        ("Unable to fetch server statistic" ∈
            (CheckStats intSize ⟨url, (failStreak rs : Int)⟩ r0).2 ↔
          cycleFails r0 = true ∧ 3 ≤ failStreak rs + 1) := by
      by_cases hf : cycleFails r0 = true
      · obtain ⟨err, herr⟩ := (cycleFails_iff r0).mp hf
        rw [CheckStats_of_error intSize _ _ _ herr,
          handleError_eq intSize _ err hs (by simp only []; omega) (by simp only []; omega)]
        simp only [hf, if_true, true_and]
        refine ⟨by push_cast; rfl, ?_⟩
        by_cases h3 : (failStreak rs : Int) + 1 ≥ 3
        · simp only [h3, if_true, List.mem_singleton, true_iff]
          omega
        · simp only [h3, if_false, List.not_mem_nil, false_iff]
          omega
      · have hok : ∃ stats, fetchStats r0 = .ok stats := by
          rcases h : fetchStats r0 with e | v
          · exact absurd ((cycleFails_iff r0).mpr ⟨e, h⟩) hf
          · exact ⟨v, rfl⟩
        obtain ⟨stats, hst⟩ := hok
        rw [CheckStats_of_ok intSize _ _ _ hst]
        simp only [hf, Bool.false_eq_true, if_false, false_and, iff_false, Nat.cast_zero,
          true_and]
        exact unreachable_not_mem stats
    obtain ⟨hst1, hst2⟩ := hstep
    refine ⟨by rw [hst1], fun k r hk => ?_⟩
    have hlenout := runCycles_length intSize (NewMonitor url) rs
    rcases Nat.lt_or_ge k rs.length with hlt | hge
    · have hk' : rs[k]? = some r := by
        rw [List.getElem?_append_left hlt] at hk
        exact hk
      have htake : (rs ++ [r0]).take (k + 1) = rs.take (k + 1) := by
        rw [List.take_append_of_le_length (by omega)]
      rw [htake, ← ih2 k r hk']
      rw [List.getD_append _ _ _ _ (by rw [hlenout]; exact hlt)]
    · have hkeq : k = rs.length := by
        obtain ⟨hk2, -⟩ := List.getElem?_eq_some.mp hk
        simp at hk2
        omega
      subst hkeq
      have hr : r0 = r := by
        simpa using hk
      subst hr
      have htake : (rs ++ [r0]).take (rs.length + 1) = rs ++ [r0] := by
        apply List.take_of_length_le
        simp
      rw [htake, failStreak_append]
      have hget : ((runCycles intSize (NewMonitor url) rs).2 ++
          [(CheckStats intSize { serverURL := url, errorCount := ↑(failStreak rs) } r0).2]).getD
            rs.length [] = (CheckStats intSize ⟨url, (failStreak rs : Int)⟩ r0).2 := by
        rw [List.getD_append_right _ _ _ _ (by rw [hlenout])]
        simp [hlenout]
      rw [hget, hst2]
      by_cases hf : cycleFails r0 = true
      · simp [hf]
      · simp [hf]

theorem failStreak_replicate (n : Nat) (r : HTTPReply) (hr : cycleFails r = true) :
    failStreak (List.replicate n r) = n := by
  induction n with
  | zero => simp [failStreak]
  | succ n ih =>
    rw [List.replicate_succ', failStreak_append, if_pos hr, ih]

theorem handleError_step (intSize : Nat) (url : String) (c : Int) (err : FetchError)
    (hs : intSize = 32 ∨ intSize = 64) (hlo : 0 ≤ c) (hhi : c < 100) :
    handleError intSize ⟨url, c⟩ err =
      (⟨url, c + 1⟩, if c + 1 ≥ 3 then ["Unable to fetch server statistic"] else []) := by
  apply handleError_eq intSize ⟨url, c⟩ err (by omega)
  · have hP : (0 : Int) < 2 ^ (intSize - 1) := by positivity
    simp only []
    omega
  · simp only []
    rcases hs with rfl | rfl <;> norm_num <;> omega

set_option maxRecDepth 100000 in
/-- C11 (as amended). On a target whose `int` has `intSize` bits, for every
sequence of cycles shorter than `2^(intSize-1)` run from a monitor built by
`NewMonitor`: after each cycle the error count is the number of consecutive
failed cycles since the most recent successful cycle (or since the start),
and `Unable to fetch server statistic` is printed on a cycle exactly when
that cycle failed and this streak is at least 3. So three consecutive
failures print the line once, on the third, and in failure, failure, success,
failure it is not printed at all. -/
theorem runCycles_streak (intSize : Nat) (url : String) (replies : List HTTPReply)
    (hs : intSize = 32 ∨ intSize = 64) (hlen : (replies.length : Int) < 2 ^ (intSize - 1)) :
    (∀ k, (runCycles intSize (NewMonitor url) (replies.take k)).1.errorCount
      = (failStreak (replies.take k) : Int)) ∧
    (runCycles intSize (NewMonitor url) replies).2.length = replies.length ∧
    (∀ k r, replies[k]? = some r →
      ("Unable to fetch server statistic" ∈
          (runCycles intSize (NewMonitor url) replies).2.getD k [] ↔
        cycleFails r = true ∧ 3 ≤ failStreak (replies.take (k + 1)))) ∧
    runCycles intSize (NewMonitor url) [.failed "timeout", .failed "timeout", .failed "timeout"]
      = (⟨url, 3⟩, [[], [], ["Unable to fetch server statistic"]]) ∧
    runCycles intSize (NewMonitor url)
        [.failed "timeout", .failed "timeout",
         .response 200 "200 OK" (.ok "1.5,100,50,200,100,1000,500"), .failed "timeout"]
      = (⟨url, 1⟩, [[], [], [], []]) := by
  have hs1 : 1 ≤ intSize := by omega
  have hP : (0 : Int) < 2 ^ (intSize - 1) := by positivity
  refine ⟨fun k => ?_, runCycles_length _ _ _, (runCycles_spec intSize hs1 url replies hlen).2,
    ?_, ?_⟩
  · have hk : ((replies.take k).length : Int) < 2 ^ (intSize - 1) := by
      have : (replies.take k).length ≤ replies.length := by simp
      have : ((replies.take k).length : Int) ≤ (replies.length : Int) := by exact_mod_cast this
      omega
    rw [(runCycles_spec intSize hs1 url (replies.take k) hk).1]
  · have hf : ∀ m : Monitor, CheckStats intSize m (.failed "timeout")
        = handleError intSize m (.fetch "timeout") := fun m => rfl
    simp only [runCycles, hf, NewMonitor]
    rw [handleError_step intSize url 0 _ hs (by norm_num) (by norm_num)]
    simp only []
    rw [handleError_step intSize url (0 + 1) _ hs (by norm_num) (by norm_num)]
    simp only []
    rw [handleError_step intSize url (0 + 1 + 1) _ hs (by norm_num) (by norm_num)]
    simp
  · have hf : ∀ m : Monitor, CheckStats intSize m (.failed "timeout")
        = handleError intSize m (.fetch "timeout") := fun m => rfl
    have hp : parseStats "1.5,100,50,200,100,1000,500"
        = .ok ⟨.fin false 6755399441055744 (-52), 100, 50, 200, 100, 1000, 500⟩ := by decide
    have hk : checkThresholds ⟨.fin false 6755399441055744 (-52), 100, 50, 200, 100, 1000, 500⟩
        = [] := by decide
    have hok : ∀ m : Monitor, CheckStats intSize m
        (.response 200 "200 OK" (.ok "1.5,100,50,200,100,1000,500")) = (⟨m.serverURL, 0⟩, []) := by
      intro m
      rw [CheckStats_of_ok intSize m _ _ (by rw [fetchStats_payload, hp]), hk]
    simp only [runCycles, hf, hok, NewMonitor]
    rw [handleError_step intSize url 0 _ hs (by norm_num) (by norm_num)]
    simp only []
    rw [handleError_step intSize url (0 + 1) _ hs (by norm_num) (by norm_num)]
    simp only []
    rw [handleError_step intSize url 0 _ hs (by norm_num) (by norm_num)]
    simp

theorem runCycles_streak_witness :
    ((([HTTPReply.failed "timeout", .failed "timeout", .failed "timeout"]).length : Nat) : Int)
      < 2 ^ (64 - 1) ∧
    (∀ k r, [HTTPReply.failed "timeout", .failed "timeout", .failed "timeout"][k]? = some r →
      ("Unable to fetch server statistic" ∈
          (runCycles 64 (NewMonitor "http://srv")
            [.failed "timeout", .failed "timeout", .failed "timeout"]).2.getD k [] ↔
        cycleFails r = true ∧
          3 ≤ failStreak
            (([HTTPReply.failed "timeout", .failed "timeout", .failed "timeout"]).take (k + 1)))) :=
  ⟨by decide,
    (runCycles_streak 64 "http://srv" [.failed "timeout", .failed "timeout", .failed "timeout"]
      (Or.inr rfl) (by decide)).2.2.1⟩

/-- C11, the claim as stated fails for a run as long as the range of `int`:
on a 64-bit target, after `2^63` consecutive failed cycles from a new monitor
the error count has wrapped to `-2^63`, which is not the streak `2^63`. -/
theorem runCycles_wraps :
    (runCycles 64 (NewMonitor "http://srv")
      (List.replicate 9223372036854775808 (.failed "timeout"))).1.errorCount
        = -9223372036854775808 ∧
    failStreak (List.replicate 9223372036854775808 (.failed "timeout")) = 9223372036854775808 ∧
    ¬ ((runCycles 64 (NewMonitor "http://srv")
      (List.replicate 9223372036854775808 (.failed "timeout"))).1.errorCount
        = (failStreak (List.replicate 9223372036854775808 (.failed "timeout")) : Int)) := by
  have hfail : cycleFails (.failed "timeout") = true := by decide
  have hstreak := failStreak_replicate 9223372036854775808 (.failed "timeout") hfail
  have hn : (9223372036854775808 : Nat) = 9223372036854775807 + 1 := by norm_num
  have hcount : (runCycles 64 (NewMonitor "http://srv")
      (List.replicate 9223372036854775808 (.failed "timeout"))).1.errorCount
        = -9223372036854775808 := by
    rw [hn, List.replicate_succ', runCycles_append]
    have hlen : (((List.replicate 9223372036854775807 (HTTPReply.failed "timeout")).length
        : Nat) : Int) < 2 ^ (64 - 1) := by
      rw [List.length_replicate]
      norm_num
    rw [(runCycles_spec 64 (by norm_num) "http://srv" _ hlen).1,
      failStreak_replicate _ _ hfail]
    have hc : CheckStats 64 ⟨"http://srv", ((9223372036854775807 : Nat) : Int)⟩
        (.failed "timeout") = handleError 64 ⟨"http://srv", 9223372036854775807⟩
          (.fetch "timeout") := rfl
    rw [hc]
    decide
  refine ⟨hcount, hstreak, ?_⟩
  rw [hcount, hstreak]
  norm_num

/-! ## Surrounding white space -/

theorem dropWhile_append_all (p : Char → Bool) (a l : List Char) (ha : ∀ c ∈ a, p c = true) :
    (a ++ l).dropWhile p = l.dropWhile p := by
  induction a with
  | nil => rfl
  | cons c cs ih =>
    have hc : p c = true := ha c (List.mem_cons_self _ _)
    simp only [List.cons_append, List.dropWhile_cons, hc, if_true]
    exact ih (fun x hx => ha x (List.mem_cons_of_mem _ hx))

theorem dropWhile_append_ne_nil (p : Char → Bool) (l b : List Char)
    (h : l.dropWhile p ≠ []) : (l ++ b).dropWhile p = l.dropWhile p ++ b := by
  induction l with
  | nil => exact absurd rfl h
  | cons c cs ih =>
    by_cases hc : p c = true
    · simp only [List.cons_append, List.dropWhile_cons, hc, if_true] at h ⊢
      exact ih h
    · simp only [List.cons_append, List.dropWhile_cons, hc, Bool.false_eq_true, if_false]

theorem TrimSpace_pad (a s b : List Char) (ha : ∀ c ∈ a, isSpace c = true)
    (hb : ∀ c ∈ b, isSpace c = true) :
    strings.TrimSpace (a ++ s ++ b) = strings.TrimSpace s := by
  unfold strings.TrimSpace
  rw [List.append_assoc, dropWhile_append_all isSpace a _ ha]
  by_cases hs : s.dropWhile isSpace = []
  · have hall : ∀ c ∈ s ++ b, isSpace c = true := by
      intro c hc
      rcases List.mem_append.mp hc with h | h
      · exact (List.dropWhile_eq_nil_iff.mp hs) c h
      · exact hb c h
    rw [hs, List.dropWhile_eq_nil_iff.mpr hall]
  · rw [dropWhile_append_ne_nil isSpace s b hs, List.reverse_append,
      dropWhile_append_all isSpace b.reverse _ (fun c hc => hb c (List.mem_reverse.mp hc))]

theorem TrimSpace_decompose (s : List Char) :
    ∃ a b : List Char, (∀ c ∈ a, isSpace c = true) ∧ (∀ c ∈ b, isSpace c = true) ∧
      s = a ++ strings.TrimSpace s ++ b := by
  refine ⟨s.takeWhile isSpace, (((s.dropWhile isSpace).reverse).takeWhile isSpace).reverse,
    fun c hc => (List.mem_takeWhile_imp hc), fun c hc => ?_, ?_⟩
  · exact List.mem_takeWhile_imp (List.mem_reverse.mp hc)
  · unfold strings.TrimSpace
    rw [List.append_assoc, ← List.reverse_append, List.takeWhile_append_dropWhile,
      List.reverse_reverse, List.takeWhile_append_dropWhile]

theorem TrimSpace_idem (s : List Char) :
    strings.TrimSpace (strings.TrimSpace s) = strings.TrimSpace s := by
  obtain ⟨a, b, ha, hb, hs⟩ := TrimSpace_decompose s
  have h := TrimSpace_pad a (strings.TrimSpace s) b ha hb
  rw [← hs] at h
  exact h.symm

theorem parseStats_congr (d1 d2 : String)
    (h : strings.TrimSpace d1.data = strings.TrimSpace d2.data) :
    parseStats d1 = parseStats d2 := by
  have hf : splitFields d1 = splitFields d2 := by
    unfold splitFields
    rw [h]
  unfold parseStats
  rw [hf]

/-- C15. White space around the payload does not affect parsing: for every
text `s` and all texts `a` and `b` made only of white space (spaces, tabs,
newlines, carriage returns, or any other character of `unicode.IsSpace`),
`parseStats (a ++ s ++ b)` is the same result as `parseStats s`, record or
error alike; in particular parsing the trimmed text gives the result of
parsing the text. -/
theorem parseStats_trim (a s b : String)
    (ha : ∀ c ∈ a.data, isSpace c = true) (hb : ∀ c ∈ b.data, isSpace c = true) :
    parseStats (a ++ s ++ b) = parseStats s ∧
    parseStats (String.mk (strings.TrimSpace s.data)) = parseStats s ∧
    isSpace ' ' = true ∧ isSpace '\t' = true ∧ isSpace '\n' = true ∧ isSpace '\r' = true := by
  refine ⟨?_, ?_, by decide, by decide, by decide, by decide⟩
  · apply parseStats_congr
    rw [String.data_append, String.data_append]
    exact TrimSpace_pad a.data s.data b.data ha hb
  · apply parseStats_congr
    exact TrimSpace_idem s.data

set_option maxRecDepth 100000 in
theorem parseStats_trim_witness :
    (∀ c ∈ " \t".data, isSpace c = true) ∧ (∀ c ∈ "\r\n".data, isSpace c = true) ∧
    parseStats (" \t" ++ "1.5,100,50,200,100,1000,500" ++ "\r\n")
      = parseStats "1.5,100,50,200,100,1000,500" :=
  ⟨by decide, by decide,
    (parseStats_trim " \t" "1.5,100,50,200,100,1000,500" "\r\n" (by decide) (by decide)).1⟩

/-! ## The sign of the load average -/

theorem round_signBit (neg : Bool) (n d : Nat) :
    F64.round neg n d ≠ .nan ∧ (F64.round neg n d).signBit = neg := by
  unfold F64.round
  split
  · exact ⟨by simp, rfl⟩
  · split
    · split
      · exact ⟨by simp, rfl⟩
      · exact ⟨by simp, rfl⟩
    · split
      · exact ⟨by simp, rfl⟩
      · exact ⟨by simp, rfl⟩

theorem readFloat_neg (c0 : Char) (t0 : List Char) (p : strconv.FloatParts)
    (h : strconv.readFloat (c0 :: t0) = some p) : p.neg = decide (c0 = '-') := by
  rw [strconv.readFloat] at h
  generalize (if c0 = '+' ∨ c0 = '-' then t0 else c0 :: t0) = s1 at h
  generalize (match s1 with
    | a :: b :: _ :: _ => decide (a = '0' ∧ strconv.lower b = 120)
    | _ => false) = hex at h
  generalize strconv.readMantissa _ _ _ = X at h
  obtain ⟨st, s3⟩ := X
  generalize (c0 :: t0) = s0 at h
  simp only [] at h
  repeat' split at h
  all_goals first
    | (injection h with h; rw [← h])
    | cases h

theorem special_sign (s : List Char) (v : F64) (n : Nat)
    (h : strconv.special s = some (v, n)) :
    v = .nan ∨ v.signBit = decide (s.head? = some '-') := by
  cases s with
  | nil => simp [strconv.special] at h
  | cons c cs =>
    simp only [strconv.special] at h
    split at h
    · rcases hi : strconv.specialInf cs with _ | k
      · rw [hi] at h
        simp at h
      · rw [hi] at h
        simp only [Option.map_some', Option.some.injEq, Prod.mk.injEq] at h
        right
        rw [← h.1]
        simp [F64.signBit]
    · rename_i hsign
      split at h
      · rcases hi : strconv.specialInf (c :: cs) with _ | k
        · rw [hi] at h
          simp at h
        · rw [hi] at h
          simp only [Option.map_some', Option.some.injEq, Prod.mk.injEq] at h
          right
          rw [← h.1]
          have hc : c ≠ '-' := fun hc => hsign (Or.inr hc)
          simp [F64.signBit, hc]
      · split at h
        · split at h
          · simp only [Option.some.injEq, Prod.mk.injEq] at h
            exact Or.inl h.1.symm
          · cases h
        · cases h

theorem ParseFloat_sign (s : String) (v : F64) (h : strconv.ParseFloat s = .ok v) :
    v = .nan ∨ v.signBit = decide (firstChar s = some '-') := by
  unfold strconv.ParseFloat at h
  unfold firstChar
  split at h
  · rename_i v' n hsp
    split at h
    · cases h
      exact special_sign s.data _ n hsp
    · cases h
  · split at h
    · cases h
    · rename_i p hp
      split at h
      · cases h
      · have hneg : p.neg = decide (s.data.head? = some '-') := by
          cases hd : s.data with
          | nil =>
            rw [hd] at hp
            simp [strconv.readFloat] at hp
          | cons c0 t0 =>
            rw [hd] at hp
            rw [readFloat_neg c0 t0 p hp]
            simp
        have hval := round_signBit p.neg (p.mantissa * (if p.hex then 2 else 10) ^ p.exp.toNat)
          ((if p.hex then 2 else 10) ^ (-p.exp).toNat)
        have hv : p.value = F64.round p.neg (p.mantissa * (if p.hex then 2 else 10) ^ p.exp.toNat)
            ((if p.hex then 2 else 10) ^ (-p.exp).toNat) := rfl
        rw [← hv] at hval
        split at h
        · cases h
        · cases h
          right
          rw [hval.2, hneg]

theorem lt_zero_of_signBit (x : F64) (h : x.signBit = false) :
    F64.lt x (F64.ofNat 0) = false := by
  have h0 : F64.ofNat 0 = .fin false 0 (-1074) := by decide
  rw [h0]
  cases x with
  | nan => rfl
  | inf neg =>
    simp only [F64.signBit] at h
    subst h
    rfl
  | fin neg m e =>
    simp only [F64.signBit] at h
    subst h
    simp only [F64.lt, signedInt, Bool.false_eq_true, if_false, decide_eq_false_iff_not,
      Nat.zero_mul, not_lt]
    exact Int.natCast_nonneg _

theorem lt_zero_of_negative (m : Nat) (e : Int) (hm : 0 < m) :
    F64.lt (.fin true m e) (F64.ofNat 0) = true := by
  have h0 : F64.ofNat 0 = .fin false 0 (-1074) := by decide
  rw [h0]
  simp only [F64.lt, signedInt, if_true, Bool.false_eq_true, if_false, decide_eq_true_eq,
    Nat.zero_mul, Nat.cast_zero, Left.neg_neg_iff]
  have : 0 < m * 2 ^ (e - min e (-1074)).toNat := Nat.mul_pos hm (by positivity)
  exact_mod_cast this

set_option maxRecDepth 100000 in
/-- C14 (as amended). `parseStats` does not check the range of the load
average: the `LoadAverage` of a record it returns is the float64 that
`strconv.ParseFloat` gives for the first field, which is NaN or has a
negative sign exactly when that field starts with `-`. So `LoadAverage` is
never below 0 when the first field does not start with `-`; but a first
field that starts with `-` is accepted as well, and the payload
`-1.5,100,50,200,100,1000,500` yields a record whose `LoadAverage` is
`-1.5`. -/
theorem parseStats_loadAverage_sign (data : String) (st : ServerStats)
    (h : parseStats data = .ok st) :
    strconv.ParseFloat ((splitFields data).getD 0 "") = .ok st.LoadAverage ∧
    (st.LoadAverage = .nan ∨
      st.LoadAverage.signBit = decide (firstChar ((splitFields data).getD 0 "") = some '-')) ∧
    (firstChar ((splitFields data).getD 0 "") ≠ some '-' →
      F64.lt st.LoadAverage (F64.ofNat 0) = false ∧ 0 ≤ st.LoadAverage.toRat) ∧
    parseStats "-1.5,100,50,200,100,1000,500"
      = .ok ⟨.fin true 6755399441055744 (-52), 100, 50, 200, 100, 1000, 500⟩ ∧
    (F64.fin true 6755399441055744 (-52)).toRat = -3 / 2 := by
  obtain ⟨p0, p1, p2, p3, p4, p5, p6, hp⟩ := length_seven _ (parseStats_ok_length data st h)
  have hps := parseStats_of_fields data _ _ _ _ _ _ _ hp
  rw [hps] at h
  have hpf : strconv.ParseFloat p0 = .ok st.LoadAverage := by
    rcases h0 : strconv.ParseFloat p0 with e0 | v0 <;> rw [h0] at h <;> try cases h
    rcases h1 : strconv.ParseUint p1 with e1 | v1 <;> rw [h1] at h <;> try cases h
    rcases h2 : strconv.ParseUint p2 with e2 | v2 <;> rw [h2] at h <;> try cases h
    rcases h3 : strconv.ParseUint p3 with e3 | v3 <;> rw [h3] at h <;> try cases h
    rcases h4 : strconv.ParseUint p4 with e4 | v4 <;> rw [h4] at h <;> try cases h
    rcases h5 : strconv.ParseUint p5 with e5 | v5 <;> rw [h5] at h <;> try cases h
    rcases h6 : strconv.ParseUint p6 with e6 | v6 <;> rw [h6] at h <;> try cases h
    rfl
  have hget : (splitFields data).getD 0 "" = p0 := by rw [hp]; rfl
  rw [hget]
  have hsign := ParseFloat_sign p0 _ hpf
  refine ⟨hpf, hsign, ?_, by decide, ?_⟩
  · intro hne
    have hsb : st.LoadAverage.signBit = false := by
      rcases hsign with hn | hs
      · rw [hn]
        rfl
      · rw [hs]
        simp [hne]
    refine ⟨lt_zero_of_signBit _ hsb, ?_⟩
    cases hx : st.LoadAverage with
    | nan => simp [F64.toRat]
    | inf neg => simp [F64.toRat]
    | fin neg m e =>
      rw [hx] at hsb
      simp only [F64.signBit] at hsb
      subst hsb
      simp only [F64.toRat, Bool.false_eq_true, if_false, one_mul]
      positivity
  · simp only [F64.toRat, if_true]
    rw [zpow_neg]
    norm_num

set_option maxRecDepth 100000 in
theorem parseStats_loadAverage_sign_witness :
    parseStats "-1.5,100,50,200,100,1000,500"
      = .ok ⟨.fin true 6755399441055744 (-52), 100, 50, 200, 100, 1000, 500⟩ ∧
    strconv.ParseFloat ((splitFields "-1.5,100,50,200,100,1000,500").getD 0 "")
      = .ok (.fin true 6755399441055744 (-52)) :=
  ⟨by decide,
    (parseStats_loadAverage_sign "-1.5,100,50,200,100,1000,500"
      ⟨.fin true 6755399441055744 (-52), 100, 50, 200, 100, 1000, 500⟩ (by decide)).1⟩

set_option maxRecDepth 100000 in
/-- C14, the claim as stated fails: the payload
`-1.5,100,50,200,100,1000,500` parses, and the `LoadAverage` of its record is
`-1.5`, which is below 0. -/
theorem parseStats_negative_load :
    parseStats "-1.5,100,50,200,100,1000,500"
      = .ok ⟨.fin true 6755399441055744 (-52), 100, 50, 200, 100, 1000, 500⟩ ∧
    F64.lt (F64.fin true 6755399441055744 (-52)) (F64.ofNat 0) = true ∧
    (F64.fin true 6755399441055744 (-52)).toRat < 0 := by
  refine ⟨by decide, lt_zero_of_negative _ _ (by norm_num), ?_⟩
  simp only [F64.toRat, if_true]
  rw [zpow_neg]
  norm_num

/-! ## Used above total: the wrapped difference -/

theorem roundQ_two_zpow (k : Int) (hlo : -1074 ≤ k) : roundQ ((2 : ℚ) ^ k) = (2 : ℚ) ^ k := by
  apply roundQ_exact _ 1 k (by norm_num) hlo
  simp

theorem subUint64_wrap (a b : Nat) (hab : a < b) : subUint64 a b = 2 ^ 64 + a - b := by
  unfold subUint64
  rw [Nat.add_comm a (2 ^ 64)]
  exact Nat.mod_eq_of_lt (by omega)

theorem roundQ_div_1024_ge (x : ℚ) (k : Int) (hk : -1064 ≤ k) (hx : (2 : ℚ) ^ k ≤ x) :
    (2 : ℚ) ^ (k - 10) ≤ roundQ (x / ((1024 : Nat) : ℚ)) := by
  rw [← roundQ_two_zpow (k - 10) (by omega)]
  apply roundQ_mono _ _ (by positivity)
  rw [le_div_iff₀ (by norm_num)]
  have e : (2 : ℚ) ^ (k - 10) * ((1024 : Nat) : ℚ) = (2 : ℚ) ^ k := by
    rw [zpow_sub₀ (by norm_num : (2 : ℚ) ≠ 0)]
    norm_num
  rw [e]
  exact hx

theorem usage_gt_of_le (u t : Nat) (hu : u ≤ 2 ^ 64) (ht : 0 < t) (htu : t ≤ u) :
    F64.gt (usagePercent u t) (F64.ofNat 90) = true := by
  have hP := usagePercent_hasValue u t hu ht (by omega)
  have h90 : (F64.ofNat 90).HasValue ((90 : Nat) : ℚ) := ofNat_exact 90 (by norm_num)
  rw [gt_hasValue hP h90]
  have hT1 := roundQ_natCast_ge_one t ht
  have hUT : roundQ (t : ℚ) ≤ roundQ (u : ℚ) :=
    roundQ_mono _ _ (by positivity) (by exact_mod_cast htu)
  have hratio : (1 : ℚ) ≤ roundQ (u : ℚ) / roundQ (t : ℚ) := by
    rw [le_div_iff₀ (by linarith)]
    linarith
  have hq : (1 : ℚ) ≤ roundQ (roundQ (u : ℚ) / roundQ (t : ℚ)) := by
    have := roundQ_mono ((1 : Nat) : ℚ) _ (by norm_num) (by simpa using hratio)
    rwa [roundQ_natCast 1 (by norm_num), Nat.cast_one] at this
  have hp : ((100 : Nat) : ℚ) ≤ roundQ (roundQ (roundQ (u : ℚ) / roundQ (t : ℚ)) * 100) := by
    have := roundQ_mono ((100 : Nat) : ℚ) (roundQ (roundQ (u : ℚ) / roundQ (t : ℚ)) * 100)
      (by norm_num) (by push_cast; linarith)
    rwa [roundQ_natCast 100 (by norm_num)] at this
  push_cast at hp ⊢
  linarith

theorem freeSpace_value (w : Nat) (h1 : 1 ≤ w) (h64 : w ≤ 2 ^ 64) :
    ∃ v : ℚ, (F64.div (F64.div (F64.ofNat w) (F64.ofNat 1024)) (F64.ofNat 1024)).HasValue v ∧
      (2 : ℚ) ^ (-20 : Int) ≤ v ∧ (2 ^ 63 ≤ w → (2 : ℚ) ^ (43 : Int) ≤ v) := by
  have hW := ofNat_hasValue w h64
  have hK := ofNat_exact 1024 (by norm_num)
  have hWle := roundQ_natCast_le w h64
  have hW1 := roundQ_natCast_ge_one w h1
  have h64' := two_pow_lt_huge 64 (by norm_num)
  have hK' : (((1024 : Nat) : ℚ)) = (2 : ℚ) ^ (10 : Int) := by norm_num
  have hq1le : roundQ (w : ℚ) / ((1024 : Nat) : ℚ) ≤ ((2 ^ 64 : Nat) : ℚ) := by
    rw [div_le_iff₀ (by norm_num)]
    have : (0 : ℚ) ≤ ((2 ^ 64 : Nat) : ℚ) := by positivity
    push_cast at *
    linarith
  have h1v := div_hasValue hW hK (by norm_num) (lt_of_le_of_lt hq1le h64')
  have hq1nn : (0 : ℚ) ≤ roundQ (w : ℚ) / ((1024 : Nat) : ℚ) :=
    div_nonneg (by linarith) (by norm_num)
  have hr1le : roundQ (roundQ (w : ℚ) / ((1024 : Nat) : ℚ)) ≤ ((2 ^ 64 : Nat) : ℚ) := by
    rw [← roundQ_two_pow 64 (by norm_num)]
    exact roundQ_mono _ _ hq1nn hq1le
  have hr1nn := roundQ_nonneg (roundQ (w : ℚ) / ((1024 : Nat) : ℚ))
  have hq2le : roundQ (roundQ (w : ℚ) / ((1024 : Nat) : ℚ)) / ((1024 : Nat) : ℚ)
      ≤ ((2 ^ 64 : Nat) : ℚ) := by
    rw [div_le_iff₀ (by norm_num)]
    have : (0 : ℚ) ≤ ((2 ^ 64 : Nat) : ℚ) := by positivity
    push_cast at *
    linarith
  have h2v := div_hasValue h1v hK (by norm_num) (lt_of_le_of_lt hq2le h64')
  refine ⟨_, h2v, ?_, ?_⟩
  · have ha := roundQ_div_1024_ge (roundQ (w : ℚ)) 0 (by norm_num) (by simpa using hW1)
    have hb := roundQ_div_1024_ge _ (0 - 10) (by norm_num) ha
    exact hb
  · intro hbig
    have hW63 : (2 : ℚ) ^ (63 : Int) ≤ roundQ (w : ℚ) := by
      rw [← roundQ_two_zpow 63 (by norm_num)]
      apply roundQ_mono _ _ (by positivity)
      have h1 : ((2 ^ 63 : Nat) : ℚ) ≤ (w : ℚ) := by exact_mod_cast hbig
      have h2 : (2 : ℚ) ^ (63 : Int) = ((2 ^ 63 : Nat) : ℚ) := by norm_num
      rw [h2]
      exact h1
    have ha := roundQ_div_1024_ge (roundQ (w : ℚ)) 63 (by norm_num) hW63
    have hb := roundQ_div_1024_ge _ (63 - 10) (by norm_num) ha
    exact hb

theorem bandwidth_value (w : Nat) (h1 : 1 ≤ w) (h64 : w ≤ 2 ^ 64) :
    ∃ v : ℚ, (F64.div (F64.mul (F64.ofNat w) (F64.ofNat 8)) (F64.ofNat 1000000)).HasValue v ∧
      (2 : ℚ) ^ (-17 : Int) ≤ v ∧ (2 ^ 63 ≤ w → (2 : ℚ) ^ (46 : Int) ≤ v) := by
  have hW := ofNat_hasValue w h64
  have h8 := ofNat_exact 8 (by norm_num)
  have hM := ofNat_exact 1000000 (by norm_num)
  have hWle := roundQ_natCast_le w h64
  have hW1 := roundQ_natCast_ge_one w h1
  have h67 := two_pow_lt_huge 67 (by norm_num)
  have hprod : roundQ (w : ℚ) * ((8 : Nat) : ℚ) ≤ ((2 ^ 67 : Nat) : ℚ) := by
    have : ((2 ^ 67 : Nat) : ℚ) = ((2 ^ 64 : Nat) : ℚ) * 8 := by norm_num
    push_cast at *
    linarith
  have h1v := mul_hasValue hW h8 (lt_of_le_of_lt hprod h67)
  have hprodnn : (0 : ℚ) ≤ roundQ (w : ℚ) * ((8 : Nat) : ℚ) := by
    have : (0 : ℚ) ≤ ((8 : Nat) : ℚ) := by positivity
    nlinarith
  have hr1le : roundQ (roundQ (w : ℚ) * ((8 : Nat) : ℚ)) ≤ ((2 ^ 67 : Nat) : ℚ) := by
    rw [← roundQ_two_pow 67 (by norm_num)]
    exact roundQ_mono _ _ hprodnn hprod
  have hr1nn := roundQ_nonneg (roundQ (w : ℚ) * ((8 : Nat) : ℚ))
  have hq2le : roundQ (roundQ (w : ℚ) * ((8 : Nat) : ℚ)) / ((1000000 : Nat) : ℚ)
      ≤ ((2 ^ 67 : Nat) : ℚ) := by
    rw [div_le_iff₀ (by norm_num)]
    have : (0 : ℚ) ≤ ((2 ^ 67 : Nat) : ℚ) := by positivity
    push_cast at *
    linarith
  have h2v := div_hasValue h1v hM (by norm_num) (lt_of_le_of_lt hq2le h67)
  have hr8 : ((8 : Nat) : ℚ) ≤ roundQ (roundQ (w : ℚ) * ((8 : Nat) : ℚ)) := by
    have := roundQ_mono ((8 : Nat) : ℚ) (roundQ (w : ℚ) * ((8 : Nat) : ℚ)) (by norm_num)
      (by push_cast; linarith)
    rwa [roundQ_natCast 8 (by norm_num)] at this
  refine ⟨_, h2v, ?_, ?_⟩
  · rw [← roundQ_two_zpow (-17) (by norm_num)]
    apply roundQ_mono _ _ (by positivity)
    rw [le_div_iff₀ (by norm_num)]
    have e : (2 : ℚ) ^ (-17 : Int) * ((1000000 : Nat) : ℚ) ≤ 8 := by
      rw [zpow_neg]
      norm_num
    push_cast at hr8 e ⊢
    linarith
  · intro hbig
    have hW63 : ((2 ^ 63 : Nat) : ℚ) ≤ roundQ (w : ℚ) := by
      rw [← roundQ_two_pow 63 (by norm_num)]
      exact roundQ_mono _ _ (by positivity) (by exact_mod_cast hbig)
    have hr66 : ((2 ^ 66 : Nat) : ℚ) ≤ roundQ (roundQ (w : ℚ) * ((8 : Nat) : ℚ)) := by
      rw [← roundQ_two_pow 66 (by norm_num)]
      apply roundQ_mono _ _ (by positivity)
      have : ((2 ^ 66 : Nat) : ℚ) = ((2 ^ 63 : Nat) : ℚ) * 8 := by norm_num
      push_cast at *
      linarith
    rw [← roundQ_two_zpow 46 (by norm_num)]
    apply roundQ_mono _ _ (by positivity)
    rw [le_div_iff₀ (by norm_num)]
    have e : (2 : ℚ) ^ (46 : Int) * ((1000000 : Nat) : ℚ) ≤ ((2 ^ 66 : Nat) : ℚ) := by
      norm_num
    linarith

set_option maxRecDepth 100000 in
/-- C16 (as amended). For `uint64` values with `usedDisk > totalDisk > 0`,
`checkThresholds` always prints the disk line, and the free space in it is
computed from the wrapped difference
`(totalDisk - usedDisk) mod 2^64 = 2^64 + totalDisk - usedDisk`, divided by
1024 twice in float64: the code neither saturates nor rejects. The value is
a positive number of megabytes, at least `2^43` when `usedDisk` exceeds
`totalDisk` by at most `2^63`; it is not always large: with `totalDisk = 1`
and `usedDisk = 2^64 - 1` the difference wraps to 2 and the line reads
`0.00 Mb left`. -/
theorem disk_alert_wrapped (stats : ServerStats)
    (hu : stats.UsedDisk < 2 ^ 64) (ht : 0 < stats.TotalDisk)
    (hlt : stats.TotalDisk < stats.UsedDisk) :
    diskAlert stats ∈ checkThresholds stats ∧
    subUint64 stats.TotalDisk stats.UsedDisk = 2 ^ 64 + stats.TotalDisk - stats.UsedDisk ∧
    diskAlert stats = "Free disk space is too low: " ++
      fmtFixed2 (F64.div (F64.div (F64.ofNat (2 ^ 64 + stats.TotalDisk - stats.UsedDisk))
        (F64.ofNat 1024)) (F64.ofNat 1024)) ++ " Mb left" ∧
    (∃ m e, freeSpaceMB stats = .fin false m e) ∧
    0 < (freeSpaceMB stats).toRat ∧
    (stats.UsedDisk - stats.TotalDisk ≤ 2 ^ 63 → (2 : ℚ) ^ (43 : Int) ≤ (freeSpaceMB stats).toRat) ∧
    checkThresholds ⟨F64.ofNat 1, 0, 0, 100, 200, 0, 0⟩
      = ["Free disk space is too low: 17592186044416.00 Mb left"] ∧
    checkThresholds ⟨F64.ofNat 1, 0, 0, 1, 18446744073709551615, 0, 0⟩
      = ["Free disk space is too low: 0.00 Mb left"] := by
  have hwrap := subUint64_wrap stats.TotalDisk stats.UsedDisk hlt
  have hmem : diskAlert stats ∈ checkThresholds stats := by
    rw [diskAlert_mem_iff, diskRule_iff]
    exact ⟨ht, usage_gt_of_le _ _ (by omega) ht (by omega)⟩
  obtain ⟨v, hv, hpos, hbig⟩ := freeSpace_value (2 ^ 64 + stats.TotalDisk - stats.UsedDisk)
    (by omega) (by omega)
  have hfree : freeSpaceMB stats = F64.div (F64.div
      (F64.ofNat (2 ^ 64 + stats.TotalDisk - stats.UsedDisk)) (F64.ofNat 1024))
      (F64.ofNat 1024) := by
    unfold freeSpaceMB
    rw [hwrap]
  have hv0 : (0 : ℚ) < v := lt_of_lt_of_le (by positivity) hpos
  refine ⟨hmem, hwrap, ?_, ?_, ?_, ?_, by decide, by decide⟩
  · unfold diskAlert
    rw [hfree]
  · rw [hfree]
    obtain ⟨m, e, hm, -⟩ := hv
    exact ⟨m, e, hm⟩
  · rw [hfree, hasValue_toRat hv]
    exact hv0
  · intro hexc
    rw [hfree, hasValue_toRat hv]
    exact hbig (by omega)

theorem disk_alert_wrapped_witness :
    (200 : Nat) < 2 ^ 64 ∧ (0 : Nat) < 100 ∧ (100 : Nat) < 200 ∧
    diskAlert ⟨F64.ofNat 1, 0, 0, 100, 200, 0, 0⟩
      ∈ checkThresholds ⟨F64.ofNat 1, 0, 0, 100, 200, 0, 0⟩ :=
  ⟨by decide, by decide, by decide,
    (disk_alert_wrapped ⟨F64.ofNat 1, 0, 0, 100, 200, 0, 0⟩ (by decide) (by decide)
      (by decide)).1⟩

set_option maxRecDepth 100000 in
/-- C16, the claim as stated fails: with `totalDisk = 1` and
`usedDisk = 2^64 - 1` the disk line is printed, but the wrapped difference is
2 bytes and the free space reported is `0.00` megabytes, not a large
number. -/
theorem disk_alert_wrapped_small :
    (1 : Nat) < 18446744073709551615 ∧
    subUint64 1 18446744073709551615 = 2 ∧
    checkThresholds ⟨F64.ofNat 1, 0, 0, 1, 18446744073709551615, 0, 0⟩
      = ["Free disk space is too low: 0.00 Mb left"] ∧
    fmtFixed2 (freeSpaceMB ⟨F64.ofNat 1, 0, 0, 1, 18446744073709551615, 0, 0⟩) = "0.00" := by
  decide

set_option maxRecDepth 100000 in
/-- C17 (as amended). For `uint64` values with
`networkUsage > networkBandwidth > 0`, `checkThresholds` always prints the
network line, and the available bandwidth in it is computed from the wrapped
difference `(networkBandwidth - networkUsage) mod 2^64 =
2^64 + networkBandwidth - networkUsage`, multiplied by 8 and divided by
1000000 in float64 after the wrap. The value is a positive number of Mbit/s,
at least `2^46` when `networkUsage` exceeds `networkBandwidth` by at most
`2^63`; it is not always huge: with `networkBandwidth = 1` and
`networkUsage = 2^64 - 1` the difference wraps to 2 and the line reads
`0.00 Mbit/s available`. -/
theorem network_alert_wrapped (stats : ServerStats)
    (hu : stats.NetworkUsage < 2 ^ 64) (ht : 0 < stats.NetworkBandwidth)
    (hlt : stats.NetworkBandwidth < stats.NetworkUsage) :
    networkAlert stats ∈ checkThresholds stats ∧
    subUint64 stats.NetworkBandwidth stats.NetworkUsage
      = 2 ^ 64 + stats.NetworkBandwidth - stats.NetworkUsage ∧
    networkAlert stats = "Network bandwidth usage high: " ++
      fmtFixed2 (F64.div (F64.mul
        (F64.ofNat (2 ^ 64 + stats.NetworkBandwidth - stats.NetworkUsage))
        (F64.ofNat 8)) (F64.ofNat 1000000)) ++ " Mbit/s available" ∧
    (∃ m e, availableBandwidthMbit stats = .fin false m e) ∧
    0 < (availableBandwidthMbit stats).toRat ∧
    (stats.NetworkUsage - stats.NetworkBandwidth ≤ 2 ^ 63 →
      (2 : ℚ) ^ (46 : Int) ≤ (availableBandwidthMbit stats).toRat) ∧
    checkThresholds ⟨F64.ofNat 1, 0, 0, 0, 0, 100, 200⟩
      = ["Network bandwidth usage high: 147573952589676.41 Mbit/s available"] ∧
    checkThresholds ⟨F64.ofNat 1, 0, 0, 0, 0, 1, 18446744073709551615⟩
      = ["Network bandwidth usage high: 0.00 Mbit/s available"] := by
  have hwrap := subUint64_wrap stats.NetworkBandwidth stats.NetworkUsage hlt
  have hmem : networkAlert stats ∈ checkThresholds stats := by
    rw [networkAlert_mem_iff, networkRule_iff]
    exact ⟨ht, usage_gt_of_le _ _ (by omega) ht (by omega)⟩
  obtain ⟨v, hv, hpos, hbig⟩ :=
    bandwidth_value (2 ^ 64 + stats.NetworkBandwidth - stats.NetworkUsage) (by omega) (by omega)
  have hfree : availableBandwidthMbit stats = F64.div (F64.mul
      (F64.ofNat (2 ^ 64 + stats.NetworkBandwidth - stats.NetworkUsage)) (F64.ofNat 8))
      (F64.ofNat 1000000) := by
    unfold availableBandwidthMbit
    rw [hwrap]
  have hv0 : (0 : ℚ) < v := lt_of_lt_of_le (by positivity) hpos
  refine ⟨hmem, hwrap, ?_, ?_, ?_, ?_, by decide, by decide⟩
  · unfold networkAlert
    rw [hfree]
  · rw [hfree]
    obtain ⟨m, e, hm, -⟩ := hv
    exact ⟨m, e, hm⟩
  · rw [hfree, hasValue_toRat hv]
    exact hv0
  · intro hexc
    rw [hfree, hasValue_toRat hv]
    exact hbig (by omega)

theorem network_alert_wrapped_witness :
    (200 : Nat) < 2 ^ 64 ∧ (0 : Nat) < 100 ∧ (100 : Nat) < 200 ∧
    networkAlert ⟨F64.ofNat 1, 0, 0, 0, 0, 100, 200⟩
      ∈ checkThresholds ⟨F64.ofNat 1, 0, 0, 0, 0, 100, 200⟩ :=
  ⟨by decide, by decide, by decide,
    (network_alert_wrapped ⟨F64.ofNat 1, 0, 0, 0, 0, 100, 200⟩ (by decide) (by decide)
      (by decide)).1⟩

set_option maxRecDepth 100000 in
/-- C17, the claim as stated fails: with `networkBandwidth = 1` and
`networkUsage = 2^64 - 1` the network line is printed, but the wrapped
difference is 2 and the bandwidth reported is `0.00` Mbit/s, not a huge
figure. -/
theorem network_alert_wrapped_small :
    (1 : Nat) < 18446744073709551615 ∧
    subUint64 1 18446744073709551615 = 2 ∧
    checkThresholds ⟨F64.ofNat 1, 0, 0, 0, 0, 1, 18446744073709551615⟩
      = ["Network bandwidth usage high: 0.00 Mbit/s available"] ∧
    fmtFixed2 (availableBandwidthMbit ⟨F64.ofNat 1, 0, 0, 0, 0, 1, 18446744073709551615⟩)
      = "0.00" := by
  decide

/-- C18 (as amended). When `totalDisk ≤ 2^50`, whenever `checkThresholds`
prints the disk line for a record with `usedDisk ≤ totalDisk`, the free space
is strictly less than one tenth of the disk:
`(totalDisk - usedDisk) * 10 < totalDisk`; likewise, when
`networkBandwidth ≤ 2^50`, whenever it prints the network line with
`networkUsage ≤ networkBandwidth`,
`(networkBandwidth - networkUsage) * 10 < networkBandwidth`. -/
theorem alert_margin (stats : ServerStats)
    (hd : stats.TotalDisk ≤ 2 ^ 50) (hn : stats.NetworkBandwidth ≤ 2 ^ 50) :
    (stats.UsedDisk ≤ stats.TotalDisk → diskAlert stats ∈ checkThresholds stats →
      (stats.TotalDisk - stats.UsedDisk) * 10 < stats.TotalDisk) ∧
    (stats.NetworkUsage ≤ stats.NetworkBandwidth →
      networkAlert stats ∈ checkThresholds stats →
      (stats.NetworkBandwidth - stats.NetworkUsage) * 10 < stats.NetworkBandwidth) := by
  constructor
  · intro hle hmem
    rw [diskAlert_mem_iff, diskRule_iff] at hmem
    obtain ⟨hpos, hgt⟩ := hmem
    have := (usage_gt_90_iff _ _ (by omega) hpos hd).mp hgt
    omega
  · intro hle hmem
    rw [networkAlert_mem_iff, networkRule_iff] at hmem
    obtain ⟨hpos, hgt⟩ := hmem
    have := (usage_gt_90_iff _ _ (by omega) hpos hn).mp hgt
    omega

set_option maxRecDepth 100000 in
theorem alert_margin_witness :
    (5000 : Nat) ≤ 2 ^ 50 ∧ (100000 : Nat) ≤ 2 ^ 50 ∧
    diskAlert ⟨F64.ofNat 1, 0, 0, 5000, 4900, 100000, 95000⟩
      ∈ checkThresholds ⟨F64.ofNat 1, 0, 0, 5000, 4900, 100000, 95000⟩ ∧
    (5000 - 4900) * 10 < 5000 :=
  ⟨by decide, by decide, by decide,
    (alert_margin ⟨F64.ofNat 1, 0, 0, 5000, 4900, 100000, 95000⟩ (by decide) (by decide)).1
      (by decide) (by decide)⟩

set_option maxRecDepth 100000 in
/-- C18, the claim as stated fails: with `usedDisk = 9008523939597075` and
`totalDisk = 10009471043996750` (and the same two values for the network)
the lines are printed with used at most total, but the free part is exactly
one tenth, not less: `(total - used) * 10 = total`. -/
theorem alert_margin_not_strict :
    checkThresholds
        ⟨F64.ofNat 1, 0, 0, 10009471043996750, 9008523939597075,
          10009471043996750, 9008523939597075⟩
      = [diskAlert ⟨F64.ofNat 1, 0, 0, 10009471043996750, 9008523939597075,
          10009471043996750, 9008523939597075⟩,
         networkAlert ⟨F64.ofNat 1, 0, 0, 10009471043996750, 9008523939597075,
          10009471043996750, 9008523939597075⟩] ∧
    (9008523939597075 : Nat) ≤ 10009471043996750 ∧
    ¬ ((10009471043996750 - 9008523939597075) * 10 < 10009471043996750) := by
  decide

end ServerMonitor
